import Mathlib

/-!
Verification of the registry_migration edge-computing simulator.

This file gives a shallow embedding, in Lean 4, of the parts of the simulator
that the specification talks about: the network topology with its weighted
links, the entity model (base stations, edge servers, services, users,
container images and container registries), the migration engine
(`Service.migrate` / `Service.get_migration_time`), the snapshot/restore
machinery of the simulation kernel, the `follow_user` policy and the registry
(de)provisioning phases of the proposed heuristic.

Modelling conventions:
* Python numbers (ints and the floats produced by `/`) are modelled as `Rat`;
  the divisions occurring in the code are exact on every input considered here.
* Fallible code (dictionary/list indexing that can raise, `nx.shortest_path`
  on a disconnected pair, `sorted(xs)[0]` on an empty list) is modelled in the
  `Option` monad: `none` is an uncaught Python exception.
* `nx.shortest_path` with a positive weight returns a minimal-weight simple
  path; which minimal path is returned when several have the same weight is an
  implementation detail of NetworkX.  The embedding fixes the first minimal
  path in a deterministic enumeration of all simple paths; every concrete
  topology used in a theorem below has a unique minimal-weight path between
  the endpoints in question, so the choice is immaterial there.
* Python's `sorted` is a stable sort; it is embedded as a stable insertion
  sort (`sortByKey`, and `sortByKeyDesc` for `key=lambda x: -f(x)`).
* Container registries and container images are the two entity kinds that the
  code removes from their class-level `instances` collections and whose `id`
  attributes it reassigns.  They are therefore modelled with an immutable
  object identity `ref` (Python object identity) next to the mutable `id`
  attribute, an object store that never shrinks, and an explicit ordered
  `instances` list of refs.
-/

namespace RegMig

/-! ## Stable sorting (Python `sorted`) -/

/-- Stable insertion of an element into a list that is sorted in ascending
order of `k`: the new element goes before the first strictly greater key, and
also before equal keys that come from later positions of the original list. -/
def insertByKey {α β : Type} [LinearOrder β] (k : α → β) (x : α) : List α → List α
  | [] => [x]
  | y :: ys => if k x ≤ k y then x :: y :: ys else y :: insertByKey k x ys

/-- Stable ascending sort by key, modelling Python `sorted(xs, key=k)`. -/
def sortByKey {α β : Type} [LinearOrder β] (k : α → β) : List α → List α
  | [] => []
  | x :: xs => insertByKey k x (sortByKey k xs)

/-- Stable insertion for descending sorts. -/
def insertByKeyDesc {α β : Type} [LinearOrder β] (k : α → β) (x : α) : List α → List α
  | [] => [x]
  | y :: ys => if k y ≤ k x then x :: y :: ys else y :: insertByKeyDesc k x ys

/-- Stable descending sort by key, modelling Python `sorted(xs, key=lambda x: -k(x))`. -/
def sortByKeyDesc {α β : Type} [LinearOrder β] (k : α → β) : List α → List α
  | [] => []
  | x :: xs => insertByKeyDesc k x (sortByKeyDesc k xs)

/-- First element of the list attaining the minimal key (ties go to the
earliest element).  This is the value of `sorted(xs, key=k)[0]`. -/
def firstMinBy {α β : Type} [LinearOrder β] (k : α → β) : List α → Option α
  | [] => none
  | x :: xs =>
    match firstMinBy k xs with
    | none => some x
    | some m => if k x ≤ k m then some x else some m

/-- First element of the list attaining the maximal key (ties go to the
earliest element).  This is the value of `sorted(xs, key=lambda x: -k(x))[0]`. -/
def firstMaxBy {α β : Type} [LinearOrder β] (k : α → β) : List α → Option α
  | [] => none
  | x :: xs =>
    match firstMaxBy k xs with
    | none => some x
    | some m => if k m ≤ k x then some x else some m

/-! ## Network topology

The simulator's `Topology` is an undirected NetworkX graph whose nodes are
base stations and whose edges carry the attributes set up by
`Simulator.load_dataset`: `delay`, `bandwidth`, `bandwidth_demand` and the
`applications` ledger.  Nodes are identified by base-station id. -/

/-- A network link, as created by `Simulator.load_dataset` (fields `id`,
`delay`, `bandwidth`, `bandwidth_demand`, `applications`; the
`services_being_migrated` list is never read by the code under study). -/
structure Link where
  node1 : Nat
  node2 : Nat
  delay : Rat
  bandwidth : Rat
  bandwidth_demand : Rat
  applications : List Nat
deriving Repr, DecidableEq

/-- The topology's edge set; NetworkX stores at most one edge per node pair. -/
abbrev Net := List Link

/-- Does this link connect the two given nodes (in either orientation)? -/
def Link.connects (l : Link) (u v : Nat) : Bool :=
  (l.node1 == u && l.node2 == v) || (l.node1 == v && l.node2 == u)

/-- Edge lookup `topology[u][v]`; `none` is NetworkX raising a `KeyError`. -/
def findLink (g : Net) (u v : Nat) : Option Link :=
  g.find? (fun l => l.connects u v)

/-- Pointwise edge update `topology[u][v][attr] = ...`. -/
def updateLink (g : Net) (u v : Nat) (f : Link → Link) : Net :=
  g.map (fun l => if l.connects u v then f l else l)

/-- All node ids mentioned by some link. -/
def netNodes (g : Net) : List Nat :=
  (g.flatMap (fun l => [l.node1, l.node2])).dedup

/-- Neighbours of a node. -/
def neighborsOf (g : Net) (u : Nat) : List Nat :=
  g.filterMap (fun l =>
    if l.node1 == u then some l.node2
    else if l.node2 == u then some l.node1 else none)

/-- All simple paths from `u` to `t` that avoid `visited`, with recursion
bounded by `fuel`.  Paths are returned as node lists including both ends. -/
def simplePaths (g : Net) (fuel : Nat) (visited : List Nat) (u t : Nat) :
    List (List Nat) :=
  if u = t then [[t]]
  else
    match fuel with
    | 0 => []
    | fuel + 1 =>
      ((neighborsOf g u).filter (fun v => ¬ visited.contains v ∧ v ≠ u)).flatMap
        (fun v => (simplePaths g fuel (u :: visited) v t).map (fun p => u :: p))

/-- Total weight of a path under an edge-weight function; `none` when some
consecutive pair is not an edge of the graph. -/
def pathWeight (w : Link → Rat) (g : Net) : List Nat → Option Rat
  | u :: v :: rest =>
    match findLink g u v, pathWeight w g (v :: rest) with
    | some l, some r => some (w l + r)
    | _, _ => none
  | _ => some 0

/-- Shortest path in the sense of `nx.shortest_path(G, source, target,
weight=w, method="dijkstra")`: a simple path of minimal total weight.  For the
strictly positive weights used by the simulator ("delay", "bandwidth",
`1/bandwidth`, and hop count) a minimal-weight path is simple, so minimising
over simple paths is exact; ties are broken by the enumeration order of
`simplePaths` (NetworkX leaves the tie-break unspecified, and all concrete
graphs appearing in theorems below have a unique minimum). -/
def shortest_path (w : Link → Rat) (g : Net) (s t : Nat) : Option (List Nat) :=
  let candidates := (simplePaths g (netNodes g).length [] s t).filterMap
    (fun p => (pathWeight w g p).map (fun c => (p, c)))
  (firstMinBy (fun pc => pc.2) candidates).map (fun pc => pc.1)

/-- List of the `bandwidth` attributes of the links along a path, i.e. the
list comprehension `[topology[link][path[index+1]]["bandwidth"] ...]` used by
`Service.get_migration_time` and the heuristics. -/
def pathBandwidths (g : Net) : List Nat → Option (List Rat)
  | u :: v :: rest =>
    match findLink g u v, pathBandwidths g (v :: rest) with
    | some l, some bs => some (l.bandwidth :: bs)
    | _, _ => none
  | _ => some []

/-- Python `min` over a list of rationals; `none` is the `ValueError` raised
on an empty list. -/
def listMin : List Rat → Option Rat
  | [] => none
  | x :: xs => some (xs.foldl min x)

/-- Minimum bandwidth available along a path. -/
def pathMinBandwidth (g : Net) (p : List Nat) : Option Rat := do
  let bs ← pathBandwidths g p
  listMin bs

/-- Topology.remove_path_duplicates: drops consecutive duplicated nodes,
appending each node unless it equals the last kept one. -/
def remove_path_duplicates (path : List Nat) : List Nat :=
  path.foldl (fun acc x => if acc = [] ∨ acc.getLast? ≠ some x then acc ++ [x] else acc) []

/-- Topology.calculate_path_delay: deduplicates the path, then sums the
`delay` attribute of each traversed link; `none` models the `KeyError` on a
pair of nodes that is not an edge. -/
def calculate_path_delay (g : Net) (path : List Nat) : Option Rat :=
  pathWeight (fun l => l.delay) g (remove_path_duplicates path)

/-- Topology.release_communication_path: removes the application from the
`applications` ledger of every link along the path (`if app in: remove`). -/
def release_communication_path (g : Net) : List Nat → Nat → Net
  | u :: v :: rest, app =>
    release_communication_path
      (updateLink g u v (fun l => { l with applications := l.applications.erase app }))
      (v :: rest) app
  | _, _ => g

/-- Topology.allocate_communication_path: adds the application to the
`applications` ledger of every link along the path (`if app not in: append`). -/
def allocate_communication_path (g : Net) : List Nat → Nat → Net
  | u :: v :: rest, app =>
    allocate_communication_path
      (updateLink g u v (fun l =>
        if l.applications.contains app then l
        else { l with applications := l.applications ++ [app] }))
      (v :: rest) app
  | _, _ => g

/-! ## Entity model

Entities are identified by their integer ids except for container registries
and container images: the code renumbers the `id` attribute of those two
kinds, so they additionally carry an immutable `ref` modelling Python object
identity, live in an append-only object store, and have an explicit ordered
`instances` list of refs that models the class-level collection. -/

/-- BaseStation (edge_sim_py/components/base_station.py): coordinates,
wireless delay and the list of connected users. -/
structure BaseStation where
  id : Nat
  coordinates : Int × Int
  wireless_delay : Rat
  users : List Nat
deriving Repr, DecidableEq

/-- EdgeServer (edge_sim_py/components/edge_server.py): capacity, the derived
`demand`, the hosting base station, and the id lists of hosted services and
container registries. -/
structure EdgeServer where
  id : Nat
  capacity : Rat
  demand : Rat
  base_station : Nat
  services : List Nat
  container_registries : List Nat
deriving Repr, DecidableEq

/-- MigrationRecord: the dictionaries appended to `Service.migrations`. -/
structure MigrationRecord where
  step : Nat
  duration : Rat
  origin : Option Nat
  destination : Nat
deriving Repr, DecidableEq

/-- Service (edge_sim_py/components/service.py). -/
structure Service where
  id : Nat
  demand : Rat
  layers : List String
  server : Option Nat
  application : Nat
  migrations : List MigrationRecord
deriving Repr, DecidableEq

/-- ContainerImage (edge_sim_py/components/container_image.py).  `ref` is the
immutable object identity; `id` is the mutable attribute that the heuristic
renumbers.  `container_registry` holds the ref of the owning registry. -/
structure ContainerImage where
  ref : Nat
  id : Nat
  size : Rat
  name : String
  layer : String
  container_registry : Option Nat
deriving Repr, DecidableEq

/-- ContainerRegistry (edge_sim_py/components/container_registry.py).  `ref`
is the immutable object identity; `images` holds image refs; `server` the id
of the hosting edge server. -/
structure ContainerRegistry where
  ref : Nat
  id : Nat
  base_footprint : Rat
  images : List Nat
  server : Option Nat
deriving Repr, DecidableEq

/-- Application (edge_sim_py/components/application.py): ordered service
chain and the users that access it. -/
structure Application where
  id : Nat
  services : List Nat
  users : List Nat
deriving Repr, DecidableEq

/-- User (simulator/components/user.py).  The per-application dictionaries
are modelled as association lists keyed by application id. -/
structure User where
  id : Nat
  coordinates : Option (Int × Int)
  coordinates_trace : List (Int × Int)
  base_station : Option Nat
  applications : List Nat
  communication_paths : List (Nat × List Nat)
  delays : List (Nat × Rat)
  delay_slas : List (Nat × Rat)
  provisioning_time_slas : List (Nat × Rat)
deriving Repr, DecidableEq

/-- The whole simulation state: the topology, every entity collection, the
object stores and `instances` lists for registries and images, and the
kernel's step counter. -/
structure State where
  topology : Net
  base_stations : List BaseStation
  edge_servers : List EdgeServer
  applications : List Application
  services : List Service
  users : List User
  registry_store : List ContainerRegistry
  registry_instances : List Nat
  image_store : List ContainerImage
  image_instances : List Nat
  current_step : Nat
deriving Repr, DecidableEq

/-! Lookups (`find_by_id` on the id-keyed collections, store lookups by ref
for registries and images) and pointwise updates. -/

def findBaseStation (s : State) (bid : Nat) : Option BaseStation :=
  s.base_stations.find? (fun b => b.id == bid)

def findServer (s : State) (eid : Nat) : Option EdgeServer :=
  s.edge_servers.find? (fun e => e.id == eid)

def findService (s : State) (sid : Nat) : Option Service :=
  s.services.find? (fun v => v.id == sid)

def findApp (s : State) (aid : Nat) : Option Application :=
  s.applications.find? (fun a => a.id == aid)

def findUser (s : State) (uid : Nat) : Option User :=
  s.users.find? (fun u => u.id == uid)

def findRegistryRef (s : State) (r : Nat) : Option ContainerRegistry :=
  s.registry_store.find? (fun c => c.ref == r)

def findImageRef (s : State) (r : Nat) : Option ContainerImage :=
  s.image_store.find? (fun c => c.ref == r)

/-- ContainerRegistry.all(): the class collection, in insertion order. -/
def registriesAll (s : State) : List ContainerRegistry :=
  s.registry_instances.filterMap (findRegistryRef s)

/-- ContainerImage.all(): the class collection, in insertion order. -/
def imagesAll (s : State) : List ContainerImage :=
  s.image_instances.filterMap (findImageRef s)

def updateServer (s : State) (eid : Nat) (f : EdgeServer → EdgeServer) : State :=
  { s with edge_servers := s.edge_servers.map (fun e => if e.id = eid then f e else e) }

def updateService (s : State) (sid : Nat) (f : Service → Service) : State :=
  { s with services := s.services.map (fun v => if v.id = sid then f v else v) }

def updateUser (s : State) (uid : Nat) (f : User → User) : State :=
  { s with users := s.users.map (fun u => if u.id = uid then f u else u) }

def updateBaseStation (s : State) (bid : Nat) (f : BaseStation → BaseStation) : State :=
  { s with base_stations := s.base_stations.map (fun b => if b.id = bid then f b else b) }

def updateRegistryRef (s : State) (r : Nat) (f : ContainerRegistry → ContainerRegistry) : State :=
  { s with registry_store := s.registry_store.map (fun c => if c.ref = r then f c else c) }

def updateImageRef (s : State) (r : Nat) (f : ContainerImage → ContainerImage) : State :=
  { s with image_store := s.image_store.map (fun c => if c.ref = r then f c else c) }

/-- Association-list read, modelling Python `d[k]` (`none` is a `KeyError`). -/
def alistGet {κ β : Type} [BEq κ] (l : List (κ × β)) (k : κ) : Option β :=
  (l.find? (fun kv => kv.1 == k)).map (fun kv => kv.2)

/-- Association-list write, modelling Python `d[k] = v`. -/
def alistSet {κ β : Type} [BEq κ] (l : List (κ × β)) (k : κ) (v : β) : List (κ × β) :=
  if (l.find? (fun kv => kv.1 == k)).isSome
  then l.map (fun kv => if kv.1 == k then (k, v) else kv)
  else l ++ [(k, v)]

/-- ContainerRegistry.demand(): `base_footprint` plus the sizes of the hosted
images.  Image refs always resolve in the store (objects are never destroyed),
so the `filterMap` drops nothing on states reachable from a loaded dataset. -/
def registryDemand (s : State) (r : ContainerRegistry) : Rat :=
  r.base_footprint + ((r.images.filterMap (findImageRef s)).map (fun im => im.size)).sum

/-! ## Migration engine (edge_sim_py/components/service.py) -/

/-- Candidate migration time of one container image towards a target server,
as computed inside the inner loop of `Service.get_migration_time`: zero when
the image's registry sits at the target's base station, and otherwise the sum,
over the hops of the bandwidth-weighted shortest path, of
`image.size / min_bandwidth`. -/
def candidateMigrationTime (s : State) (target : EdgeServer) (image : ContainerImage) :
    Option Rat := do
  let regRef ← image.container_registry
  let registry ← findRegistryRef s regRef
  let serverId ← registry.server
  let server ← findServer s serverId
  let origin := server.base_station
  let destination := target.base_station
  if origin = destination then
    pure 0
  else do
    let path ← shortest_path (fun l => l.bandwidth) s.topology origin destination
    let bandwidth ← pathMinBandwidth s.topology path
    pure ((List.range (path.length - 1)).foldl (fun acc _ => acc + image.size / bandwidth) 0)

/-- Per-layer cost inside `Service.get_migration_time`: the candidate images
are the container images whose `name` equals the layer name, in collection
order; `sorted(layers_available, key=migration_time)[0]` is the first
candidate attaining the minimal time, so the contributed cost is that minimal
time (`none` models the `IndexError` on an empty candidate list). -/
def layerMigrationTime (s : State) (target : EdgeServer) (layerName : String) :
    Option Rat := do
  let avail := (imagesAll s).filter (fun im => im.name == layerName)
  let times ← avail.mapM (candidateMigrationTime s target)
  firstMinBy id times

/-- Service.get_migration_time: sum over the service's layers of the best
candidate time. -/
def get_migration_time (s : State) (svc : Service) (target : EdgeServer) : Option Rat := do
  let times ← svc.layers.mapM (layerMigrationTime s target)
  pure times.sum

/-- The path-finding block at the top of `Service.migrate`: when no path is
given and the service currently has a host, a bandwidth-weighted shortest
path between the two base stations is computed; either way the local variable
is then discarded, so the only observable effect of the block is the
exception raised when no route exists (modelled by `none`). -/
def deadPathProbe (s : State) (target : EdgeServer) (svcServer : Option Nat)
    (path : List Nat) : Option Unit :=
  match path, svcServer with
  | [], some originId => do
    let origin ← findServer s originId
    let _ ← shortest_path (fun l => l.bandwidth) s.topology origin.base_station
      target.base_station
    pure ()
  | _, _ => pure ()

/-- Service.migrate.  The computed (or given) path is discarded — see
`deadPathProbe`.  The migration time comes from `get_migration_time`, a
migration record is appended, and the service is moved: the origin server
loses the service and its demand, the target gains both. -/
def migrate (s : State) (svcId targetId : Nat) (path : List Nat) :
    Option (Rat × State) := do
  let svc ← findService s svcId
  let target ← findServer s targetId
  let _ ← deadPathProbe s target svc.server path
  let migration_time ← get_migration_time s svc target
  let record : MigrationRecord :=
    { step := s.current_step, duration := migration_time,
      origin := svc.server, destination := targetId }
  let s1 := updateService s svcId (fun v => { v with migrations := v.migrations ++ [record] })
  let s2 :=
    match svc.server with
    | some originId =>
      updateServer s1 originId (fun e =>
        { e with demand := e.demand - svc.demand, services := e.services.erase svcId })
    | none => s1
  let s3 := updateService s2 svcId (fun v => { v with server := some targetId })
  let s4 := updateServer s3 targetId (fun e =>
    { e with demand := e.demand + svc.demand, services := e.services ++ [svcId] })
  pure (migration_time, s4)

/-! ## Routing and delay engine (simulator/components/user.py) -/

/-- User.compute_delay: wireless delay of the user's base station plus the
delay of the stored communication path, doubled for the response-time metric;
the result is written into the user's `delays` dictionary. -/
def compute_delay (s : State) (uid appId : Nat) (responseTime : Bool) :
    Option (Rat × State) := do
  let u ← findUser s uid
  let bsId ← u.base_station
  let bs ← findBaseStation s bsId
  let path ← alistGet u.communication_paths appId
  let pd ← calculate_path_delay s.topology path
  let delay0 := bs.wireless_delay + pd
  let delay := if responseTime then delay0 * 2 else delay0
  pure (delay, updateUser s uid (fun x => { x with delays := alistSet x.delays appId delay }))

/-- Base stations of the communication chain `[user] + app.services`: the
user's own base station followed by the base station hosting each service's
server, in chain order. -/
def chainStations (s : State) (u : User) (app : Application) : Option (List Nat) := do
  let ubs ← u.base_station
  let rest ← app.services.mapM (fun sid => do
    let v ← findService s sid
    let serverId ← v.server
    let e ← findServer s serverId
    pure e.base_station)
  pure (ubs :: rest)

/-- The communication path computed by `User.set_communication_path` when no
explicit path is supplied: the concatenation of delay-weighted shortest paths
between consecutive chain stations. -/
def computedCommPath (s : State) (u : User) (app : Application) : Option (List Nat) := do
  let stations ← chainStations s u app
  let segments ← (stations.zip stations.tail).mapM
    (fun p => shortest_path (fun l => l.delay) s.topology p.1 p.2)
  pure segments.flatten

/-- User.set_communication_path: release the previous path's links, adopt the
given path (or compute one when the given list is empty), deduplicate it,
allocate the links of the deduplicated path, and recompute the latency. -/
def set_communication_path (s : State) (uid appId : Nat) (given : List Nat) :
    Option State := do
  let u ← findUser s uid
  let s1 :=
    match alistGet u.communication_paths appId with
    | some old => { s with topology := release_communication_path s.topology old appId }
    | none => s
  let path ←
    if given.length > 0 then pure given
    else do
      let app ← findApp s appId
      computedCommPath s1 u app
  let dedupped := remove_path_duplicates path
  let s2 := updateUser s1 uid (fun x =>
    { x with communication_paths := alistSet x.communication_paths appId dedupped })
  let s3 := { s2 with topology := allocate_communication_path s2.topology dedupped appId }
  let r ← compute_delay s3 uid appId false
  pure r.2

/-- Squared euclidean distance between coordinate pairs.  The Python key is
the euclidean distance itself; square roots are monotone, so ordering by the
squared distance yields the same sorted order. -/
def sqDist (a b : Int × Int) : Int :=
  (a.1 - b.1) ^ 2 + (a.2 - b.2) ^ 2

/-- User.get_closest_base_stations.  The first statement builds the singleton
list `[BaseStation.find_by("coordinates", self.coordinates)]`, whose sole
element is `None` (modelled `none`) when no base station shares the user's
coordinates; since a singleton list never has length zero, the euclidean
fallback branch is unreachable. -/
def get_closest_base_stations (s : State) (u : User) : List (Option Nat) :=
  let base_stations :=
    [(s.base_stations.find? (fun b => u.coordinates == some b.coordinates)).map (fun b => b.id)]
  if base_stations.length = 0 then
    match u.coordinates with
    | some c => (sortByKey (fun b => sqDist c b.coordinates) s.base_stations).map
        (fun b => some b.id)
    | none => []
  else base_stations

/-! ## Simulation kernel: snapshot and restore (edge_sim_py/simulator.py) -/

/-- The snapshot taken by `Simulator.store_original_state`.  The Python code
also stores each link's `applications` entry, but that entry aliases the
link's own mutable list (no copy is taken), so by restore time it holds the
run-final value and restoring it is a self-assignment; the snapshot therefore
carries no usable information about it and it is not modelled.  The
`communication_paths` dictionaries are shallow-copied, and path lists are
replaced (never mutated in place) by `set_communication_path`, so those are
genuine snapshots. -/
structure Snapshot where
  link_bandwidth_demand : List ((Nat × Nat) × Rat)
  service_server : List (Nat × Option Nat)
  user_base_station : List (Nat × Option Nat)
  user_communication_paths : List (Nat × List (Nat × List Nat))
deriving Repr, DecidableEq

/-- Simulator.store_original_state. -/
def store_original_state (s : State) : Snapshot :=
  { link_bandwidth_demand := s.topology.map (fun l => ((l.node1, l.node2), l.bandwidth_demand)),
    service_server := s.services.map (fun v => (v.id, v.server)),
    user_base_station := s.users.map (fun u => (u.id, u.base_station)),
    user_communication_paths := s.users.map (fun u => (u.id, u.communication_paths)) }

/-- Simulator.restore_original_state: migrate every service back to its
snapshotted server (when that server is non-null) and clear its migration
history; write the snapshotted `bandwidth_demand` back into every link (the
`applications` assignment is the aliasing no-op described on `Snapshot`);
reset every user's coordinates to the start of its trace, re-attach it to the
snapshotted base station (appending to that station's `users` list without
leaving the current one), and replay `set_communication_path` with the
snapshotted path of every application. -/
def restoreServiceStep (snap : Snapshot) (st : State) (v : Service) : Option State := do
  let sv ← alistGet snap.service_server v.id
  let st1 ←
    match sv with
    | some serverId => (migrate st v.id serverId []).map (fun r => r.2)
    | none => pure st
  pure (updateService st1 v.id (fun x => { x with migrations := [] }))

def restoreLink (snap : Snapshot) (l : Link) : Option Link := do
  let bd ← alistGet snap.link_bandwidth_demand (l.node1, l.node2)
  pure { l with bandwidth_demand := bd }

def restoreUserStep (snap : Snapshot) (st : State) (u : User) : Option State := do
  let c0 ← u.coordinates_trace.head?
  let bs ← alistGet snap.user_base_station u.id
  let bsId ← bs
  let st1 := updateUser st u.id (fun x =>
    { x with coordinates := some c0, base_station := some bsId })
  let st2 := updateBaseStation st1 bsId (fun b => { b with users := b.users ++ [u.id] })
  let paths ← alistGet snap.user_communication_paths u.id
  u.applications.foldlM (fun st' appId => do
      let p ← alistGet paths appId
      set_communication_path st' u.id appId p)
    st2

def restore_original_state (snap : Snapshot) (s : State) : Option State := do
  let s1 ← s.services.foldlM (restoreServiceStep snap) s
  let newLinks ← s1.topology.mapM (restoreLink snap)
  let s2 := { s1 with topology := newLinks }
  s2.users.foldlM (restoreUserStep snap) s2

/-! ## The follow_user policy (simulator/algorithms/follow_user.py) -/

/-- get_candidate_hosts of follow_user.py.  Note that its `nx.shortest_path`
call passes NO `weight` argument, so the path is a minimum-HOP-COUNT path
(embedded with the constant weight 1); the servers are then sorted by the
`delay` of that path.  The sibling in proposed_heuristic.py does pass
`weight="delay"`; this one does not. -/
def get_candidate_hosts (s : State) (user_base_station : Nat) : Option (List Nat) := do
  let scored ← s.edge_servers.mapM (fun es => do
    let p ← shortest_path (fun _ => 1) s.topology user_base_station es.base_station
    let d ← calculate_path_delay s.topology p
    pure (es.id, d))
  pure ((sortByKey (fun sd => sd.2) scored).map (fun sd => sd.1))

/-- Modelled from the spec: the candidate list follow_user is specified to
build, namely all edge servers sorted in ascending order of the delay of the
shortest DELAY-weighted path from the user's base station to each server's
base station.  This definition follows the spec's words and exists to be
compared with `get_candidate_hosts`, which embeds the source. -/
def candidate_hosts_spec (s : State) (user_base_station : Nat) : Option (List Nat) := do
  let scored ← s.edge_servers.mapM (fun es => do
    let p ← shortest_path (fun l => l.delay) s.topology user_base_station es.base_station
    let d ← calculate_path_delay s.topology p
    pure (es.id, d))
  pure ((sortByKey (fun sd => sd.2) scored).map (fun sd => sd.1))

/-- The candidate walk of follow_user's inner service loop: scan the sorted
candidate list; stop (without migrating) on the server currently hosting the
service; otherwise migrate to the first candidate with room for the service's
demand and stop. -/
def placeService (s : State) (candidates : List Nat) (svcId : Nat) : Option State :=
  match candidates with
  | [] => some s
  | esId :: rest => do
    let svc ← findService s svcId
    let es ← findServer s esId
    if svc.server = some esId then pure s
    else if es.demand + svc.demand ≤ es.capacity then
      (migrate s svcId esId []).map (fun r => r.2)
    else placeService s rest svcId

/-- Per-application body of follow_user: walk every service of the chain
through the candidate list, then refresh the user's communication path. -/
def followUserApp (s : State) (candidates : List Nat) (uid appId : Nat) :
    Option State := do
  let app ← findApp s appId
  let s1 ← app.services.foldlM (fun st sid => placeService st candidates sid) s
  set_communication_path s1 uid appId []

/-- follow_user: for every user, compute the candidate list once, then
process each of the user's applications. -/
def follow_user (s : State) : Option State :=
  s.users.foldlM (fun st (u : User) => do
      let ubs ← u.base_station
      let candidates ← get_candidate_hosts st ubs
      u.applications.foldlM (fun st' appId => followUserApp st' candidates u.id appId) st)
    s

/-! ## Registry management (simulator/algorithms/proposed_heuristic.py)

The `simulator.components` twins of `container_registry.py`, `topology.py`
and `object_collection.py` imported by this algorithm are not part of the
sources under study; their behaviour is modelled from the spec and from the
edge_sim_py twins that are (`ContainerRegistry.demand()` is
`base_footprint + sum of image sizes`; the bare `ContainerRegistry()`
constructor used below is modelled from the spec with the optional
`baseFootprint` absent, i.e. zero, and the auto-incremented id
`count() + 1`). -/

/-- Fresh `ContainerRegistry()` (auto id `count() + 1`, no images, no server),
appended to the class collection. -/
def newRegistry (s : State) : ContainerRegistry × State :=
  let reg : ContainerRegistry :=
    { ref := s.registry_store.length, id := s.registry_instances.length + 1,
      base_footprint := 0, images := [], server := none }
  (reg, { s with registry_store := s.registry_store ++ [reg],
                 registry_instances := s.registry_instances ++ [reg.ref] })

/-- Fresh `ContainerImage(size=..., name=..., layer=...)` (auto id
`count() + 1`), appended to the class collection. -/
def newImage (s : State) (size : Rat) (name layer : String) : ContainerImage × State :=
  let im : ContainerImage :=
    { ref := s.image_store.length, id := s.image_instances.length + 1,
      size := size, name := name, layer := layer, container_registry := none }
  (im, { s with image_store := s.image_store ++ [im],
                image_instances := s.image_instances ++ [im.ref] })

/-- The loop body of the provisioning block: create one fresh copy of the
image (`ContainerImage(size=..., name=..., layer=...)`), append it to the new
registry's image list and point it back at the registry. -/
def provisionImageStep (regRef : Nat) (st : State) (im : ContainerImage) : State :=
  let q := newImage st im.size im.name im.layer
  let st2 := updateRegistryRef q.2 regRef (fun r => { r with images := r.images ++ [q.1.ref] })
  updateImageRef st2 q.1.ref (fun i => { i with container_registry := some regRef })

/-- The registry-provisioning block of proposed_heuristic (Phase C body):
create a registry, fill it with one fresh copy of every given image, attach
it to the chosen server and add its demand to the server's demand. -/
def provision_registry (s : State) (images : List ContainerImage) (serverId : Nat) : State :=
  let p := newRegistry s
  let reg := p.1
  let s1 := p.2
  let s2 := images.foldl (provisionImageStep reg.ref) s1
  let s3 := updateServer s2 serverId (fun e =>
    { e with container_registries := e.container_registries ++ [reg.ref] })
  let s4 := updateRegistryRef s3 reg.ref (fun r => { r with server := some serverId })
  let regNow := (findRegistryRef s4 reg.ref).getD reg
  updateServer s4 serverId (fun e => { e with demand := e.demand + registryDemand s4 regNow })

/-- Intermediate stage of `provision_registry`: after the image copies are
provisioned (definitionally the `s2` of its let-chain). -/
def provisionStage2 (s : State) (images : List ContainerImage) : State :=
  images.foldl (provisionImageStep s.registry_store.length) (newRegistry s).2

/-- Intermediate stage of `provision_registry`: after the server's registry
list and the registry's server field are set (definitionally its `s4`). -/
def provisionStage4 (s : State) (images : List ContainerImage) (serverId : Nat) : State :=
  updateRegistryRef (updateServer (provisionStage2 s images) serverId (fun e =>
      { e with container_registries := e.container_registries ++ [s.registry_store.length] }))
    s.registry_store.length (fun r => { r with server := some serverId })

/-- Bandwidth score of a registry for a user inside
`removing_farthest_container_registries`: take the shortest path weighted by
`1/bandwidth` from the registry's server's base station to the user's base
station; when the path has more than one node the score is the minimum
bandwidth along it, and a single-node path scores infinite bandwidth
(`float("inf")`, modelled by the top element of `WithTop Rat`). -/
def registryUserBandwidth (s : State) (r : ContainerRegistry) (ubs : Nat) :
    Option (WithTop Rat) := do
  let serverId ← r.server
  let server ← findServer s serverId
  let path ← shortest_path (fun l => 1 / l.bandwidth) s.topology server.base_station ubs
  if path.length > 1 then do
    let bw ← pathMinBandwidth s.topology path
    pure (bw : Rat)
  else pure ⊤

/-- The registry marked "closest" for one user:
`sorted(registries, key=lambda r: -r["bandwidth"])[0]["registry"]`, i.e. the
first registry in collection order attaining the highest bandwidth score. -/
def closestRegistryForUser (s : State) (u : User) : Option ContainerRegistry := do
  let ubs ← u.base_station
  let scored ← (registriesAll s).mapM
    (fun r => (registryUserBandwidth s r ubs).map (fun bw => (r, bw)))
  let best ← (sortByKeyDesc (fun rb => rb.2) scored).head?
  pure best.1

/-- Deprovisioning of one farthest registry: subtract its demand from its
server, drop it from the server's registry list, clear its server reference,
remove it from the registry collection and its images from the image
collection. -/
def deprovisionRegistry (s : State) (r : ContainerRegistry) : Option State := do
  let serverId ← r.server
  let s1 := updateServer s serverId (fun e =>
    { e with demand := e.demand - registryDemand s r,
             container_registries := e.container_registries.erase r.ref })
  let s2 := updateRegistryRef s1 r.ref (fun c => { c with server := none })
  let s3 := { s2 with registry_instances := s2.registry_instances.erase r.ref }
  pure { s3 with
    image_instances := r.images.foldl (fun acc imRef => acc.erase imRef) s3.image_instances }

/-- Intermediate stage of `deprovisionRegistry` (definitionally its `s2`):
the server and store updates, before the instances lists are pruned. -/
def deprovisionCore (s : State) (r : ContainerRegistry) (sid : Nat) : State :=
  updateRegistryRef (updateServer s sid (fun e =>
      { e with demand := e.demand - registryDemand s r,
               container_registries := e.container_registries.erase r.ref }))
    r.ref (fun c => { c with server := none })

/-- Replacement of the two `instances` lists (the tail of
`deprovisionRegistry`). -/
def setInstances (s : State) (ri ii : List Nat) : State :=
  { s with registry_instances := ri, image_instances := ii }

/-- The final renumbering pass over the registry collection:
`for index, registry in enumerate(ContainerRegistry.all()): registry.id = index + 1`. -/
def renumberRegistries (s : State) : State :=
  ((registriesAll s).enum).foldl
    (fun st p => updateRegistryRef st p.2.ref (fun c => { c with id := p.1 + 1 })) s

/-- The final renumbering pass over the image collection. -/
def renumberImages (s : State) : State :=
  ((imagesAll s).enum).foldl
    (fun st p => updateImageRef st p.2.ref (fun c => { c with id := p.1 + 1 })) s

/-- The marking loop of `removing_farthest_container_registries`: the refs of
the registries that are closest to some user, deduplicated, in user order. -/
def closestRegistryRefs (s : State) : Option (List Nat) :=
  s.users.foldlM (fun acc (u : User) => do
      let creg ← closestRegistryForUser s u
      pure (if acc.contains creg.ref then acc else acc ++ [creg.ref]))
    ([] : List Nat)

/-- removing_farthest_container_registries: mark, for each user, the closest
registry; deprovision every unmarked registry; renumber the surviving
registries and images contiguously from 1. -/
def removing_farthest_container_registries (s : State) : Option State := do
  let closest ← closestRegistryRefs s
  let farthest := (registriesAll s).filter (fun r => ¬ closest.contains r.ref)
  let s1 ← farthest.foldlM (fun st r => deprovisionRegistry st r) s
  pure (renumberImages (renumberRegistries s1))

/-! ## Phase C of proposed_heuristic: greedy registry expansion -/

/-- The representative images: one image per distinct image name, keeping the
first occurrence in collection order (`if image.name not in [img.name for img
in images]: images.append(image)`). -/
def representativeImages (s : State) : List ContainerImage :=
  (imagesAll s).foldl
    (fun acc im => if acc.any (fun i2 => i2.name == im.name) then acc else acc ++ [im]) []

/-- The free resources needed to host a registry: the sum of the sizes of the
representative images. -/
def registryFootprint (s : State) : Rat :=
  ((representativeImages s).map (fun im => im.size)).sum

/-- The candidate servers gathered before the Phase C loop: every edge server
with at least the registry footprint of free capacity and no hosted registry. -/
def phaseCCandidates (s : State) : List Nat :=
  (s.edge_servers.filter (fun es =>
    decide (registryFootprint s ≤ es.capacity - es.demand) && es.container_registries.isEmpty)).map
    (fun es => es.id)

/-- Is this user of `users_with_long_prov_time` supported by a registry on
the given candidate server?  A `1/bandwidth`-weighted shortest path is
computed first (its absence is fatal even when the base stations coincide);
the provisioning time is 0 when the candidate shares the user's base station
and otherwise the total size of the images of the user's first application's
first service divided by the minimum bandwidth along the path; the user is
supported when that time is within the thresholded provisioning-time SLA. -/
def userSupported (s : State) (es : EdgeServer) (provT : Rat) (uid : Nat) : Option Bool := do
  let u ← findUser s uid
  let ubs ← u.base_station
  let path ← shortest_path (fun l => 1 / l.bandwidth) s.topology es.base_station ubs
  let appId ← u.applications.head?
  let pt ←
    if es.base_station = ubs then pure (0 : Rat)
    else do
      let bw ← pathMinBandwidth s.topology path
      let app ← findApp s appId
      let svcId ← app.services.head?
      let svc ← findService s svcId
      let sizes ← svc.layers.mapM (fun nm =>
        ((imagesAll s).find? (fun im => im.name == nm)).map (fun im => im.size))
      pure (sizes.sum / bw)
  let sla ← alistGet u.provisioning_time_slas appId
  pure (decide (pt ≤ sla * provT))

/-- The `supported_users` list of one candidate server, paired with its id. -/
def supportedOf (s : State) (uslow : List Nat) (provT : Rat) (cid : Nat) :
    Option (Nat × List Nat) := do
  let es ← findServer s cid
  let pairs ← uslow.mapM (fun uid => (userSupported s es provT uid).map (fun b => (uid, b)))
  pure (cid, (pairs.filter (fun p => p.2)).map (fun p => p.1))

/-- Removal of the supported users from `users_with_long_prov_time`
(`if user in ...: remove(user)`, which drops the first occurrence). -/
def removeSupported (uslow supported : List Nat) : List Nat :=
  supported.foldl (fun acc uid => if acc.contains uid then acc.erase uid else acc) uslow

/-- One round of the Phase C `while` loop plus its recursion.  The loop runs
while both lists are non-empty; it scores every candidate, picks
`sorted(edge_servers, key=lambda s: -len(s.supported_users))[0]`, and either
stops (zero supported users) or provisions a registry on the winner, adds its
demand, removes the supported users from the slow set and the winner from the
candidates.  Each iteration removes one candidate, so the candidate count
bounds the recursion. -/
def phaseCLoop (fuel : Nat) (s : State) (uslow cands : List Nat)
    (images : List ContainerImage) (provT : Rat) : Option State :=
  match fuel with
  | 0 => if uslow = [] ∨ cands = [] then some s else none
  | fuel + 1 =>
    if uslow = [] ∨ cands = [] then some s
    else do
      let scored ← cands.mapM (supportedOf s uslow provT)
      let best ← (sortByKeyDesc (fun cs => cs.2.length) scored).head?
      if 0 < best.2.length then
        phaseCLoop fuel (provision_registry s images best.1)
          (removeSupported uslow best.2) (cands.erase best.1) images provT
      else pure s

/-- Phase C of proposed_heuristic: representative images, footprint,
candidate servers, then the greedy expansion loop. -/
def phaseC (s : State) (uslow : List Nat) (provT : Rat) : Option State :=
  let images := representativeImages s
  let cands := phaseCCandidates s
  phaseCLoop cands.length s uslow cands images provT

/-- Modelled from the spec: the candidate migration time as the spec words
it, "0 if the registry's server's base station equals the target's base
station, and otherwise (image.size / minimum bandwidth along the Dijkstra
shortest path weighted by the raw edge field bandwidth) multiplied by the
number of hops on that path".  This definition follows the spec's sentence
and is compared with `candidateMigrationTime`, which embeds the source's
per-hop summation loop. -/
def claimCandidateTime (s : State) (target : EdgeServer) (image : ContainerImage) :
    Option Rat := do
  let regRef ← image.container_registry
  let registry ← findRegistryRef s regRef
  let serverId ← registry.server
  let server ← findServer s serverId
  let origin := server.base_station
  let destination := target.base_station
  if origin = destination then
    pure 0
  else do
    let path ← shortest_path (fun l => l.bandwidth) s.topology origin destination
    let bandwidth ← pathMinBandwidth s.topology path
    pure ((image.size / bandwidth) * ((path.length - 1 : Nat) : Rat))

/-! ## Well-formedness predicates

Invariants that hold on every state produced by `Simulator.load_dataset` and
that the operations preserve; theorems assume them where needed. -/

/-- The registry collection is well formed: the `instances` list has no
duplicate refs and every listed ref resolves in the object store. -/
def registryStoreWF (s : State) : Prop :=
  s.registry_instances.Nodup ∧
  ∀ r ∈ s.registry_instances, (findRegistryRef s r).isSome

/-- The image collection is well formed: the `instances` list has no
duplicate refs and every listed ref resolves in the object store. -/
def imageStoreWF (s : State) : Prop :=
  s.image_instances.Nodup ∧
  ∀ r ∈ s.image_instances, (findImageRef s r).isSome

/-- Modelled from the spec: testable property S1, "for every EdgeServer s:
s.demand == Σ service.demand for service in s.services + Σ registry.demand()
for registry in s.containerRegistries". -/
def serverDemandInvariant (s : State) : Prop :=
  ∀ es ∈ s.edge_servers,
    es.demand = ((es.services.filterMap (findService s)).map (fun v => v.demand)).sum
      + ((es.container_registries.filterMap (findRegistryRef s)).map
          (fun r => registryDemand s r)).sum

/-! ## Concrete scenarios

Small literal datasets used to instantiate the theorems below (witnesses,
counterexamples and code-bug exhibits).  They follow the shape of the
scenario files consumed by `Simulator.load_dataset`. -/

/-- A base station with no users attached, at the origin. -/
def plainBS (i : Nat) : BaseStation :=
  { id := i, coordinates := (0, 0), wireless_delay := 1, users := [] }

/-- Scenario S4 of the spec: a single chain topology `1 - 2 - 3 - 4` whose
only path from node 1 to node 4 has 3 hops and minimum bandwidth 4. -/
def s4Net : Net := [
  { node1 := 1, node2 := 2, delay := 1, bandwidth := 4, bandwidth_demand := 0, applications := [] },
  { node1 := 2, node2 := 3, delay := 1, bandwidth := 5, bandwidth_demand := 0, applications := [] },
  { node1 := 3, node2 := 4, delay := 1, bandwidth := 6, bandwidth_demand := 0, applications := [] }]

/-- Scenario S4: service with layers `["A", "B"]`, one image of each name
(sizes 8 and 12) in a single registry on the server at node 1. -/
def s4State : State := {
  topology := s4Net
  base_stations := [plainBS 1, plainBS 2, plainBS 3, plainBS 4]
  edge_servers := [
    { id := 1, capacity := 100, demand := 23, base_station := 1, services := [1],
      container_registries := [0] },
    { id := 2, capacity := 100, demand := 0, base_station := 4, services := [],
      container_registries := [] }]
  applications := [{ id := 1, services := [1], users := [] }]
  services := [
    { id := 1, demand := 3, layers := ["A", "B"], server := some 1, application := 1,
      migrations := [] }]
  users := []
  registry_store := [
    { ref := 0, id := 1, base_footprint := 0, images := [0, 1], server := some 1 }]
  registry_instances := [0]
  image_store := [
    { ref := 0, id := 1, size := 8, name := "A", layer := "Operating System",
      container_registry := some 0 },
    { ref := 1, id := 2, size := 12, name := "B", layer := "Runtime",
      container_registry := some 0 }]
  image_instances := [0, 1]
  current_step := 1 }

def s4Service : Service :=
  { id := 1, demand := 3, layers := ["A", "B"], server := some 1, application := 1,
    migrations := [] }

def s4Target : EdgeServer :=
  { id := 2, capacity := 100, demand := 0, base_station := 4, services := [],
    container_registries := [] }

/-- A user standing at coordinates `(5, 5)`, where no base station is. -/
def coordUser : User := {
  id := 1, coordinates := some (5, 5), coordinates_trace := [(5, 5)], base_station := some 1
  applications := [], communication_paths := [], delays := [], delay_slas := []
  provisioning_time_slas := [] }

/-- Two base stations at `(0,0)` and `(1,1)`; no station matches `coordUser`'s
coordinates, and station 2 is the nearest one by euclidean distance. -/
def coordState : State := {
  topology := [], base_stations := [
    { id := 1, coordinates := (0, 0), wireless_delay := 1, users := [1] },
    { id := 2, coordinates := (1, 1), wireless_delay := 1, users := [] }]
  edge_servers := [], applications := [], services := [], users := [coordUser]
  registry_store := [], registry_instances := [], image_store := [], image_instances := []
  current_step := 1 }

/-- Topology for the follow_user counterexample: the minimum-hop path from
node 1 to node 2 is the direct link of delay 10, while the delay-weighted
shortest path goes `1 - 4 - 2` with delay 2; node 3 hangs off node 1 with
delay 5. -/
def hopNet : Net := [
  { node1 := 1, node2 := 2, delay := 10, bandwidth := 1, bandwidth_demand := 0, applications := [] },
  { node1 := 1, node2 := 4, delay := 1, bandwidth := 1, bandwidth_demand := 0, applications := [] },
  { node1 := 4, node2 := 2, delay := 1, bandwidth := 1, bandwidth_demand := 0, applications := [] },
  { node1 := 1, node2 := 3, delay := 5, bandwidth := 1, bandwidth_demand := 0, applications := [] }]

/-- State with two edge servers, at nodes 2 and 3, for a user based at
node 1: the code's candidate order is `[2, 1]`, the delay-weighted order is
`[1, 2]`. -/
def hopState : State := {
  topology := hopNet
  base_stations := [plainBS 1, plainBS 2, plainBS 3, plainBS 4]
  edge_servers := [
    { id := 1, capacity := 10, demand := 0, base_station := 2, services := [],
      container_registries := [] },
    { id := 2, capacity := 10, demand := 0, base_station := 3, services := [],
      container_registries := [] }]
  applications := [], services := [], users := []
  registry_store := [], registry_instances := [], image_store := [], image_instances := []
  current_step := 1 }

/-- A user of the registry-culling scenario, standing on its base station. -/
def cullUser (i bs : Nat) : User := {
  id := i, coordinates := some (0, 0), coordinates_trace := [(0, 0)], base_station := some bs
  applications := [], communication_paths := [], delays := [], delay_slas := []
  provisioning_time_slas := [] }

/-- One single-image registry of the culling scenario. -/
def cullRegistry (r srv im : Nat) : ContainerRegistry :=
  { ref := r, id := r + 1, base_footprint := 0, images := [im], server := some srv }

/-- One image of the culling scenario (all of size 5). -/
def cullImage (r owner : Nat) : ContainerImage :=
  { ref := r, id := r + 1, size := 5, name := "A", layer := "Operating System",
    container_registry := some owner }

/-- The registry-culling scenario: a chain `1 - 2 - 3` (bandwidths 10 and 1),
five registries (refs 0..4) on the three servers, three users sitting at the
three base stations.  The users mark registries 0, 1 and 3 as closest, so
registries 2 and 4 are deprovisioned: 5 registries, 2 removed, the 3
survivors renumbered 1..3 along with their images. -/
def cullState : State := {
  topology := [
    { node1 := 1, node2 := 2, delay := 1, bandwidth := 10, bandwidth_demand := 0, applications := [] },
    { node1 := 2, node2 := 3, delay := 1, bandwidth := 1, bandwidth_demand := 0, applications := [] }]
  base_stations := [plainBS 1, plainBS 2, plainBS 3]
  edge_servers := [
    { id := 1, capacity := 100, demand := 5, base_station := 1, services := [],
      container_registries := [0] },
    { id := 2, capacity := 100, demand := 10, base_station := 2, services := [],
      container_registries := [1, 2] },
    { id := 3, capacity := 100, demand := 10, base_station := 3, services := [],
      container_registries := [3, 4] }]
  applications := [], services := []
  users := [cullUser 1 1, cullUser 2 2, cullUser 3 3]
  registry_store := [cullRegistry 0 1 2, cullRegistry 1 2 3, cullRegistry 2 2 0,
    cullRegistry 3 3 4, cullRegistry 4 3 1]
  registry_instances := [0, 1, 2, 3, 4]
  image_store := [cullImage 0 2, cullImage 1 4, cullImage 2 0, cullImage 3 1, cullImage 4 3]
  image_instances := [0, 1, 2, 3, 4]
  current_step := 1 }

/-- The registry-expansion scenario: one link `1 - 2` of bandwidth 2, an
existing registry (one image "A" of size 4) on server 1, a free server 2 at
the user's base station, and an undersized server 3.  The candidate list is
exactly `[2]` and the user is supported there. -/
def expandState : State := {
  topology := [
    { node1 := 1, node2 := 2, delay := 1, bandwidth := 2, bandwidth_demand := 0, applications := [] }]
  base_stations := [plainBS 1, plainBS 2]
  edge_servers := [
    { id := 1, capacity := 100, demand := 5, base_station := 1, services := [1],
      container_registries := [0] },
    { id := 2, capacity := 100, demand := 0, base_station := 2, services := [],
      container_registries := [] },
    { id := 3, capacity := 3, demand := 0, base_station := 1, services := [],
      container_registries := [] }]
  applications := [{ id := 1, services := [1], users := [1] }]
  services := [
    { id := 1, demand := 1, layers := ["A"], server := some 1, application := 1,
      migrations := [] }]
  users := [{
    id := 1, coordinates := some (0, 0), coordinates_trace := [(0, 0)], base_station := some 2
    applications := [1], communication_paths := [(1, [2, 1])], delays := []
    delay_slas := [(1, 100)], provisioning_time_slas := [(1, 10)] }]
  registry_store := [{ ref := 0, id := 1, base_footprint := 0, images := [0], server := some 1 }]
  registry_instances := [0]
  image_store := [{
    ref := 0, id := 1, size := 4, name := "A", layer := "Operating System",
    container_registry := some 0 }]
  image_instances := [0]
  current_step := 1 }

/-- The snapshot/restore counterexample scenario: one server of demand 0 and
one loose image of size 5 (so the representative-image list is non-empty); no
users, services or links, so `restore_original_state` trivially succeeds. -/
def provState : State := {
  topology := [], base_stations := [plainBS 1]
  edge_servers := [
    { id := 1, capacity := 100, demand := 0, base_station := 1, services := [],
      container_registries := [] }]
  applications := [], services := [], users := []
  registry_store := [], registry_instances := []
  image_store := [{
    ref := 0, id := 1, size := 5, name := "A", layer := "Operating System",
    container_registry := none }]
  image_instances := [0]
  current_step := 1 }

/-! ## Lemmas about the sorting primitives -/

theorem insertByKey_head? {α β : Type} [LinearOrder β] (k : α → β) (x y : α) (ys : List α) :
    (insertByKey k x (y :: ys)).head? = some (if k x ≤ k y then x else y) := by
  by_cases h : k x ≤ k y <;> simp [insertByKey, h]

theorem sortByKey_eq_nil_iff {α β : Type} [LinearOrder β] (k : α → β) (l : List α) :
    sortByKey k l = [] ↔ l = [] := by
  cases l with
  | nil => simp [sortByKey]
  | cons x xs =>
    simp only [sortByKey]
    constructor
    · intro h
      cases hs : sortByKey k xs with
      | nil => rw [hs] at h; simp [insertByKey] at h
      | cons y ys =>
        rw [hs] at h
        by_cases hk : k x ≤ k y <;> simp [insertByKey, hk] at h
    · intro h; cases h

theorem sortByKey_head?_eq_firstMinBy {α β : Type} [LinearOrder β] (k : α → β) (l : List α) :
    (sortByKey k l).head? = firstMinBy k l := by
  induction l with
  | nil => rfl
  | cons x xs ih =>
    simp only [sortByKey, firstMinBy]
    cases hs : sortByKey k xs with
    | nil =>
      have hxs : xs = [] := (sortByKey_eq_nil_iff k xs).mp hs
      subst hxs
      simp [insertByKey, firstMinBy]
    | cons y ys =>
      have hh : firstMinBy k xs = some y := by rw [← ih, hs]; rfl
      rw [hh, insertByKey_head?]
      by_cases h : k x ≤ k y <;> simp [h]

theorem insertByKeyDesc_head? {α β : Type} [LinearOrder β] (k : α → β) (x y : α) (ys : List α) :
    (insertByKeyDesc k x (y :: ys)).head? = some (if k y ≤ k x then x else y) := by
  by_cases h : k y ≤ k x <;> simp [insertByKeyDesc, h]

theorem sortByKeyDesc_eq_nil_iff {α β : Type} [LinearOrder β] (k : α → β) (l : List α) :
    sortByKeyDesc k l = [] ↔ l = [] := by
  cases l with
  | nil => simp [sortByKeyDesc]
  | cons x xs =>
    simp only [sortByKeyDesc]
    constructor
    · intro h
      cases hs : sortByKeyDesc k xs with
      | nil => rw [hs] at h; simp [insertByKeyDesc] at h
      | cons y ys =>
        rw [hs] at h
        by_cases hk : k y ≤ k x <;> simp [insertByKeyDesc, hk] at h
    · intro h; cases h

theorem sortByKeyDesc_head?_eq_firstMaxBy {α β : Type} [LinearOrder β] (k : α → β) (l : List α) :
    (sortByKeyDesc k l).head? = firstMaxBy k l := by
  induction l with
  | nil => rfl
  | cons x xs ih =>
    simp only [sortByKeyDesc, firstMaxBy]
    cases hs : sortByKeyDesc k xs with
    | nil =>
      have hxs : xs = [] := (sortByKeyDesc_eq_nil_iff k xs).mp hs
      subst hxs
      simp [insertByKeyDesc, firstMaxBy]
    | cons y ys =>
      have hh : firstMaxBy k xs = some y := by rw [← ih, hs]; rfl
      rw [hh, insertByKeyDesc_head?]
      by_cases h : k y ≤ k x <;> simp [h]

theorem insertByKey_perm {α β : Type} [LinearOrder β] (k : α → β) (x : α) (l : List α) :
    (insertByKey k x l).Perm (x :: l) := by
  induction l with
  | nil => simp [insertByKey]
  | cons y ys ih =>
    by_cases h : k x ≤ k y
    · simp [insertByKey, h]
    · simp only [insertByKey, h, if_false]
      exact (ih.cons y).trans (List.Perm.swap x y ys)

theorem sortByKey_perm {α β : Type} [LinearOrder β] (k : α → β) (l : List α) :
    (sortByKey k l).Perm l := by
  induction l with
  | nil => simp [sortByKey]
  | cons x xs ih =>
    exact (insertByKey_perm k x (sortByKey k xs)).trans (ih.cons x)

theorem insertByKey_sorted {α β : Type} [LinearOrder β] (k : α → β) (x : α) (l : List α)
    (h : l.Pairwise (fun a b => k a ≤ k b)) :
    (insertByKey k x l).Pairwise (fun a b => k a ≤ k b) := by
  induction l with
  | nil => simp [insertByKey]
  | cons y ys ih =>
    rcases List.pairwise_cons.mp h with ⟨hy, hys⟩
    by_cases hk : k x ≤ k y
    · simp only [insertByKey, hk, if_true]
      refine List.pairwise_cons.mpr ⟨?_, h⟩
      intro b hb
      rcases List.mem_cons.mp hb with hb | hb
      · exact hb ▸ hk
      · exact le_trans hk (hy b hb)
    · simp only [insertByKey, hk, if_false]
      refine List.pairwise_cons.mpr ⟨?_, ih hys⟩
      intro b hb
      have hb' := (insertByKey_perm k x ys).mem_iff.mp hb
      rcases List.mem_cons.mp hb' with hb' | hb'
      · exact hb' ▸ le_of_lt (lt_of_not_le hk)
      · exact hy b hb'

theorem sortByKey_sorted {α β : Type} [LinearOrder β] (k : α → β) (l : List α) :
    (sortByKey k l).Pairwise (fun a b => k a ≤ k b) := by
  induction l with
  | nil => simp [sortByKey]
  | cons x xs ih => exact insertByKey_sorted k x _ ih

theorem firstMinBy_isSome {α β : Type} [LinearOrder β] (k : α → β) (l : List α) (hl : l ≠ []) :
    (firstMinBy k l).isSome := by
  cases l with
  | nil => exact absurd rfl hl
  | cons x xs =>
    simp only [firstMinBy]
    cases firstMinBy k xs with
    | none => rfl
    | some m => by_cases h : k x ≤ k m <;> simp [h]

theorem firstMaxBy_isSome {α β : Type} [LinearOrder β] (k : α → β) (l : List α) (hl : l ≠ []) :
    (firstMaxBy k l).isSome := by
  cases l with
  | nil => exact absurd rfl hl
  | cons x xs =>
    simp only [firstMaxBy]
    cases firstMaxBy k xs with
    | none => rfl
    | some m => by_cases h : k m ≤ k x <;> simp [h]

/-- The element returned by `firstMaxBy` attains the maximal key, and every
element strictly before it in the list has a strictly smaller key (the
tie-break goes to the earliest element in iteration order). -/
theorem firstMaxBy_spec {α β : Type} [LinearOrder β] (k : α → β) (l : List α) (m : α)
    (h : firstMaxBy k l = some m) :
    (∀ y ∈ l, k y ≤ k m) ∧ ∃ l₁ l₂, l = l₁ ++ m :: l₂ ∧ ∀ y ∈ l₁, k y < k m := by
  induction l generalizing m with
  | nil => cases h
  | cons x xs ih =>
    simp only [firstMaxBy] at h
    cases hx : firstMaxBy k xs with
    | none =>
      rw [hx] at h
      obtain rfl : x = m := Option.some_inj.mp h
      have hxs : xs = [] := by
        by_contra hne
        have hs := firstMaxBy_isSome k xs hne
        rw [hx] at hs
        simp at hs
      subst hxs
      exact ⟨by simp, [], [], rfl, by simp⟩
    | some m' =>
      rw [hx] at h
      rcases ih m' hx with ⟨hmax, l₁, l₂, hdec, hlt⟩
      by_cases hc : k m' ≤ k x
      · simp only [hc, if_true] at h
        obtain rfl : x = m := Option.some_inj.mp h
        refine ⟨?_, [], xs, rfl, by simp⟩
        intro y hy
        rcases List.mem_cons.mp hy with hy | hy
        · exact le_of_eq (by rw [hy])
        · exact le_trans (hmax y hy) hc
      · simp only [hc, if_false] at h
        obtain rfl : m' = m := Option.some_inj.mp h
        refine ⟨?_, x :: l₁, l₂, by rw [hdec]; rfl, ?_⟩
        · intro y hy
          rcases List.mem_cons.mp hy with hy | hy
          · exact le_of_lt (by rw [hy]; exact lt_of_not_le hc)
          · exact hmax y hy
        · intro y hy
          rcases List.mem_cons.mp hy with hy | hy
          · rw [hy]; exact lt_of_not_le hc
          · exact hlt y hy

/-- The element returned by `firstMinBy` is in the list and its key is a lower
bound for every key in the list. -/
theorem firstMinBy_spec {α β : Type} [LinearOrder β] (k : α → β) (l : List α) (m : α)
    (h : firstMinBy k l = some m) :
    m ∈ l ∧ ∀ y ∈ l, k m ≤ k y := by
  induction l generalizing m with
  | nil => cases h
  | cons x xs ih =>
    simp only [firstMinBy] at h
    cases hx : firstMinBy k xs with
    | none =>
      rw [hx] at h
      obtain rfl : x = m := Option.some_inj.mp h
      have hxs : xs = [] := by
        by_contra hne
        have hs := firstMinBy_isSome k xs hne
        rw [hx] at hs
        simp at hs
      subst hxs
      exact ⟨List.mem_singleton_self _, by simp⟩
    | some m' =>
      rw [hx] at h
      rcases ih m' hx with ⟨hmem, hmin⟩
      by_cases hc : k x ≤ k m'
      · simp only [hc, if_true] at h
        obtain rfl : x = m := Option.some_inj.mp h
        refine ⟨List.mem_cons_self _ xs, ?_⟩
        intro y hy
        rcases List.mem_cons.mp hy with hy | hy
        · exact le_of_eq (by rw [hy])
        · exact le_trans hc (hmin y hy)
      · simp only [hc, if_false] at h
        obtain rfl : m' = m := Option.some_inj.mp h
        refine ⟨List.mem_cons_of_mem x hmem, ?_⟩
        intro y hy
        rcases List.mem_cons.mp hy with hy | hy
        · exact le_of_lt (by rw [hy]; exact lt_of_not_le hc)
        · exact hmin y hy

/-! ## Lemmas about the migration-time computation -/

theorem foldl_const_add (c : Rat) (n : Nat) (init : Rat) :
    (List.range n).foldl (fun acc _ => acc + c) init = init + n * c := by
  induction n generalizing init with
  | zero => simp
  | succ n ih =>
    rw [List.range_succ, List.foldl_append]
    simp only [List.foldl_cons, List.foldl_nil, ih]
    push_cast
    ring

/-- The per-hop summation loop of `Service.get_migration_time` computes
exactly the spec's closed formula `(size / minBandwidth) * hops`. -/
theorem candidateMigrationTime_eq_claim (s : State) (target : EdgeServer)
    (im : ContainerImage) :
    candidateMigrationTime s target im = claimCandidateTime s target im := by
  unfold candidateMigrationTime claimCandidateTime
  cases im.container_registry with
  | none => rfl
  | some regRef =>
    simp only [Option.bind_eq_bind, Option.some_bind]
    cases findRegistryRef s regRef with
    | none => rfl
    | some registry =>
      simp only [Option.some_bind]
      cases registry.server with
      | none => rfl
      | some serverId =>
        simp only [Option.some_bind]
        cases findServer s serverId with
        | none => rfl
        | some server =>
          simp only [Option.some_bind]
          by_cases h : server.base_station = target.base_station
          · simp [h]
          · simp only [h, if_false]
            cases shortest_path (fun l => l.bandwidth) s.topology server.base_station
                target.base_station with
            | none => rfl
            | some path =>
              simp only [Option.some_bind]
              cases pathMinBandwidth s.topology path with
              | none => rfl
              | some bw =>
                simp only [Option.some_bind]
                rw [foldl_const_add]
                rw [zero_add, mul_comm]

/-! ## Generic fold and store lemmas -/

theorem foldl_preserves {σ α γ : Type} (proj : σ → γ) (f : σ → α → σ)
    (h : ∀ st a, proj (f st a) = proj st) :
    ∀ (l : List α) (st : σ), proj (l.foldl f st) = proj st := by
  intro l
  induction l with
  | nil => intro st; rfl
  | cons a as ih => intro st; rw [List.foldl_cons, ih, h]

theorem foldlM_preserves {σ α : Type} (P : σ → Prop) (f : σ → α → Option σ)
    (h : ∀ st a st', f st a = some st' → P st → P st') :
    ∀ (l : List α) (st st' : σ), List.foldlM f st l = some st' → P st → P st' := by
  intro l
  induction l with
  | nil =>
    intro st st' hfold hP
    simp only [List.foldlM_nil, Option.pure_def, Option.some_inj] at hfold
    exact hfold ▸ hP
  | cons a as ih =>
    intro st st' hfold hP
    simp only [List.foldlM_cons, Option.bind_eq_bind] at hfold
    cases hstep : f st a with
    | none => rw [hstep] at hfold; cases hfold
    | some st1 =>
      rw [hstep] at hfold
      simp only [Option.some_bind] at hfold
      exact ih st1 st' hfold (h st a st1 hstep hP)

/-- Finding by ref in a store after a pointwise ref-preserving update. -/
theorem find?_map_upd {α : Type} (ref : α → Nat) (l : List α) (r r' : Nat) (f : α → α)
    (hf : ∀ c, ref (f c) = ref c) :
    (l.map (fun c => if ref c = r then f c else c)).find? (fun c => ref c == r') =
      if r' = r then (l.find? (fun c => ref c == r)).map f
      else l.find? (fun c => ref c == r') := by
  induction l with
  | nil => by_cases h : r' = r <;> simp [h]
  | cons c cs ih =>
    rw [List.map_cons]
    by_cases hc : ref c = r
    · by_cases h' : r' = r
      · subst h'
        rw [List.find?_cons_of_pos _ (by simp [hc, hf]),
          if_pos rfl, List.find?_cons_of_pos _ (by simp [hc])]
        simp [hc]
      · rw [List.find?_cons_of_neg _ (by simp [hc, hf]; exact fun hh => h' hh.symm),
          if_neg h', List.find?_cons_of_neg _ (by simp [hc]; exact fun hh => h' hh.symm), ih,
          if_neg h']
    · by_cases hcr : ref c = r'
      · have h' : ¬ r' = r := fun hh => hc (hh ▸ hcr)
        rw [List.find?_cons_of_pos _ (by simp [hc, hcr, h']), if_neg h',
          List.find?_cons_of_pos _ (by simp [hcr])]
        simp [hc]
      · by_cases h' : r' = r
        · rw [List.find?_cons_of_neg _ (by simp [hc, hcr]), if_pos h',
            List.find?_cons_of_neg _ (by simp [hc, h' ▸ hcr]), ih, if_pos h']
        · rw [List.find?_cons_of_neg _ (by simp [hc, hcr]), if_neg h',
            List.find?_cons_of_neg _ (by simp [hcr]), ih, if_neg h']

theorem findRegistryRef_update (s : State) (r r' : Nat)
    (f : ContainerRegistry → ContainerRegistry) (hf : ∀ c, (f c).ref = c.ref) :
    findRegistryRef (updateRegistryRef s r f) r' =
      if r' = r then (findRegistryRef s r).map f else findRegistryRef s r' := by
  unfold findRegistryRef updateRegistryRef
  exact find?_map_upd (fun c => c.ref) s.registry_store r r' f hf

theorem findImageRef_update (s : State) (r r' : Nat)
    (f : ContainerImage → ContainerImage) (hf : ∀ c, (f c).ref = c.ref) :
    findImageRef (updateImageRef s r f) r' =
      if r' = r then (findImageRef s r).map f else findImageRef s r' := by
  unfold findImageRef updateImageRef
  exact find?_map_upd (fun c => c.ref) s.image_store r r' f hf

theorem findRegistryRef_ref (s : State) (ref : Nat) (r : ContainerRegistry)
    (h : findRegistryRef s ref = some r) : r.ref = ref := by
  have := List.find?_some h
  simpa using this

theorem findImageRef_ref (s : State) (ref : Nat) (im : ContainerImage)
    (h : findImageRef s ref = some im) : im.ref = ref := by
  have := List.find?_some h
  simpa using this

/-- Every member of the registry collection is found again by its own ref. -/
theorem registriesAll_resolve (s : State) (r : ContainerRegistry)
    (h : r ∈ registriesAll s) : findRegistryRef s r.ref = some r := by
  obtain ⟨ref, _, hfind⟩ := List.mem_filterMap.mp h
  rwa [findRegistryRef_ref s ref r hfind]

theorem imagesAll_resolve (s : State) (im : ContainerImage)
    (h : im ∈ imagesAll s) : findImageRef s im.ref = some im := by
  obtain ⟨ref, _, hfind⟩ := List.mem_filterMap.mp h
  rwa [findImageRef_ref s ref im hfind]

theorem filterMapFindReg_refs (s : State) : ∀ (l : List Nat),
    (∀ r ∈ l, (findRegistryRef s r).isSome) →
    (l.filterMap (findRegistryRef s)).map (fun r => r.ref) = l := by
  intro l
  induction l with
  | nil => intro _; rfl
  | cons a as ih =>
    intro hres
    obtain ⟨r, hr⟩ := Option.isSome_iff_exists.mp (hres a (List.mem_cons_self a as))
    rw [List.filterMap_cons, hr]
    simp only [List.map_cons, findRegistryRef_ref s a r hr]
    rw [ih (fun x hx => hres x (List.mem_cons_of_mem a hx))]

theorem filterMapFindImg_refs (s : State) : ∀ (l : List Nat),
    (∀ r ∈ l, (findImageRef s r).isSome) →
    (l.filterMap (findImageRef s)).map (fun im => im.ref) = l := by
  intro l
  induction l with
  | nil => intro _; rfl
  | cons a as ih =>
    intro hres
    obtain ⟨r, hr⟩ := Option.isSome_iff_exists.mp (hres a (List.mem_cons_self a as))
    rw [List.filterMap_cons, hr]
    simp only [List.map_cons, findImageRef_ref s a r hr]
    rw [ih (fun x hx => hres x (List.mem_cons_of_mem a hx))]

/-- Under resolvability, the collection's refs are the `instances` list. -/
theorem registriesAll_refs (s : State)
    (hres : ∀ r ∈ s.registry_instances, (findRegistryRef s r).isSome) :
    (registriesAll s).map (fun r => r.ref) = s.registry_instances :=
  filterMapFindReg_refs s s.registry_instances hres

theorem imagesAll_refs (s : State)
    (hres : ∀ r ∈ s.image_instances, (findImageRef s r).isSome) :
    (imagesAll s).map (fun im => im.ref) = s.image_instances :=
  filterMapFindImg_refs s s.image_instances hres

theorem enumFrom_snd_mem {α : Type} : ∀ (l : List α) (n : Nat) (p : Nat × α),
    p ∈ List.enumFrom n l → p.2 ∈ l := by
  intro l
  induction l with
  | nil => intro n p h; cases h
  | cons a as ih =>
    intro n p h
    rcases List.mem_cons.mp h with h | h
    · rw [h]; exact List.mem_cons_self a as
    · exact List.mem_cons_of_mem a (ih (n + 1) p h)

/-- The renumbering fold leaves untouched refs alone. -/
theorem renumberRegFold_untouched (ps : List (Nat × ContainerRegistry)) :
    ∀ (s : State) (rr : Nat), (∀ p ∈ ps, p.2.ref ≠ rr) →
    findRegistryRef (ps.foldl (fun st p => updateRegistryRef st p.2.ref
      (fun c => { c with id := p.1 + 1 })) s) rr = findRegistryRef s rr := by
  induction ps with
  | nil => intro s rr _; rfl
  | cons p ps ih =>
    intro s rr h
    rw [List.foldl_cons, ih _ rr (fun q hq => h q (List.mem_cons_of_mem p hq)),
      findRegistryRef_update s p.2.ref rr (fun c => { c with id := p.1 + 1 }) (fun c => rfl),
      if_neg (fun hh => h p (List.mem_cons_self p ps) hh.symm)]

theorem renumberImgFold_untouched (ps : List (Nat × ContainerImage)) :
    ∀ (s : State) (rr : Nat), (∀ p ∈ ps, p.2.ref ≠ rr) →
    findImageRef (ps.foldl (fun st p => updateImageRef st p.2.ref
      (fun c => { c with id := p.1 + 1 })) s) rr = findImageRef s rr := by
  induction ps with
  | nil => intro s rr _; rfl
  | cons p ps ih =>
    intro s rr h
    rw [List.foldl_cons, ih _ rr (fun q hq => h q (List.mem_cons_of_mem p hq)),
      findImageRef_update s p.2.ref rr (fun c => { c with id := p.1 + 1 }) (fun c => rfl),
      if_neg (fun hh => h p (List.mem_cons_self p ps) hh.symm)]

/-- Core of the renumbering pass: folding the id assignments over a list of
distinct, resolvable registries rewrites each one's stored id to its
enumeration index plus one. -/
theorem renumberRegFold_filterMap (regs : List ContainerRegistry) :
    ∀ (n : Nat) (s : State), (regs.map (fun r => r.ref)).Nodup →
    (∀ r ∈ regs, findRegistryRef s r.ref = some r) →
    regs.filterMap (fun r => findRegistryRef
        ((List.enumFrom n regs).foldl
          (fun st p => updateRegistryRef st p.2.ref (fun c => { c with id := p.1 + 1 })) s)
        r.ref)
      = (List.enumFrom n regs).map (fun p => { p.2 with id := p.1 + 1 }) := by
  induction regs with
  | nil => intro n s _ _; rfl
  | cons r rest ih =>
    intro n s hnd hres
    rw [List.map_cons] at hnd
    have hpair := List.nodup_cons.mp hnd
    have hnotin : r.ref ∉ rest.map (fun x => x.ref) := hpair.1
    have hnd' : (rest.map (fun x => x.ref)).Nodup := hpair.2
    rw [List.enumFrom_cons, List.foldl_cons, List.filterMap_cons]
    have hs1 : findRegistryRef (updateRegistryRef s r.ref (fun c => { c with id := n + 1 }))
        r.ref = some { r with id := n + 1 } := by
      rw [findRegistryRef_update s r.ref r.ref (fun c => { c with id := n + 1 }) (fun c => rfl),
        if_pos rfl, hres r (List.mem_cons_self r rest)]
      rfl
    have hside : ∀ p ∈ List.enumFrom (n + 1) rest, p.2.ref ≠ r.ref := by
      intro p hp hrefeq
      exact hnotin (hrefeq ▸ List.mem_map_of_mem (fun x => x.ref) (enumFrom_snd_mem rest (n+1) p hp))
    have huntouched : findRegistryRef
        ((List.enumFrom (n + 1) rest).foldl
          (fun st p => updateRegistryRef st p.2.ref (fun c => { c with id := p.1 + 1 }))
          (updateRegistryRef s r.ref (fun c => { c with id := n + 1 }))) r.ref
        = some { r with id := n + 1 } := by
      rw [renumberRegFold_untouched (List.enumFrom (n + 1) rest) _ r.ref hside, hs1]
    rw [huntouched]
    have hres1 : ∀ x ∈ rest, findRegistryRef
        (updateRegistryRef s r.ref (fun c => { c with id := n + 1 })) x.ref = some x := by
      intro x hx
      have hxne : ¬ x.ref = r.ref := by
        intro hh
        exact hnotin (hh ▸ List.mem_map_of_mem (fun y => y.ref) hx)
      rw [findRegistryRef_update s r.ref x.ref (fun c => { c with id := n + 1 }) (fun c => rfl),
        if_neg hxne]
      exact hres x (List.mem_cons_of_mem r hx)
    rw [ih (n + 1) _ hnd' hres1, List.map_cons]

theorem renumberImgFold_filterMap (imgs : List ContainerImage) :
    ∀ (n : Nat) (s : State), (imgs.map (fun im => im.ref)).Nodup →
    (∀ im ∈ imgs, findImageRef s im.ref = some im) →
    imgs.filterMap (fun im => findImageRef
        ((List.enumFrom n imgs).foldl
          (fun st p => updateImageRef st p.2.ref (fun c => { c with id := p.1 + 1 })) s)
        im.ref)
      = (List.enumFrom n imgs).map (fun p => { p.2 with id := p.1 + 1 }) := by
  induction imgs with
  | nil => intro n s _ _; rfl
  | cons r rest ih =>
    intro n s hnd hres
    rw [List.map_cons] at hnd
    have hpair := List.nodup_cons.mp hnd
    have hnotin : r.ref ∉ rest.map (fun x => x.ref) := hpair.1
    have hnd' : (rest.map (fun x => x.ref)).Nodup := hpair.2
    rw [List.enumFrom_cons, List.foldl_cons, List.filterMap_cons]
    have hs1 : findImageRef (updateImageRef s r.ref (fun c => { c with id := n + 1 }))
        r.ref = some { r with id := n + 1 } := by
      rw [findImageRef_update s r.ref r.ref (fun c => { c with id := n + 1 }) (fun c => rfl),
        if_pos rfl, hres r (List.mem_cons_self r rest)]
      rfl
    have hside : ∀ p ∈ List.enumFrom (n + 1) rest, p.2.ref ≠ r.ref := by
      intro p hp hrefeq
      exact hnotin (hrefeq ▸ List.mem_map_of_mem (fun x => x.ref) (enumFrom_snd_mem rest (n+1) p hp))
    have huntouched : findImageRef
        ((List.enumFrom (n + 1) rest).foldl
          (fun st p => updateImageRef st p.2.ref (fun c => { c with id := p.1 + 1 }))
          (updateImageRef s r.ref (fun c => { c with id := n + 1 }))) r.ref
        = some { r with id := n + 1 } := by
      rw [renumberImgFold_untouched (List.enumFrom (n + 1) rest) _ r.ref hside, hs1]
    rw [huntouched]
    have hres1 : ∀ x ∈ rest, findImageRef
        (updateImageRef s r.ref (fun c => { c with id := n + 1 })) x.ref = some x := by
      intro x hx
      have hxne : ¬ x.ref = r.ref := by
        intro hh
        exact hnotin (hh ▸ List.mem_map_of_mem (fun y => y.ref) hx)
      rw [findImageRef_update s r.ref x.ref (fun c => { c with id := n + 1 }) (fun c => rfl),
        if_neg hxne]
      exact hres x (List.mem_cons_of_mem r hx)
    rw [ih (n + 1) _ hnd' hres1, List.map_cons]

theorem eraseFold_nodup : ∀ (xs l : List Nat), l.Nodup →
    (xs.foldl (fun acc x => acc.erase x) l).Nodup := by
  intro xs
  induction xs with
  | nil => intro l h; exact h
  | cons x xs ih => intro l h; exact ih _ (h.erase x)

theorem eraseFold_mem : ∀ (xs l : List Nat) (a : Nat),
    a ∈ xs.foldl (fun acc x => acc.erase x) l → a ∈ l := by
  intro xs
  induction xs with
  | nil => intro l a h; exact h
  | cons x xs ih => intro l a h; exact List.mem_of_mem_erase (ih _ a h)

/-- Field-level description of a successful `deprovisionRegistry`. -/
theorem deprovisionRegistry_fields (st : State) (r : ContainerRegistry) (st' : State)
    (h : deprovisionRegistry st r = some st') :
    st'.registry_store = st.registry_store.map
        (fun c => if c.ref = r.ref then { c with server := none } else c) ∧
    st'.registry_instances = st.registry_instances.erase r.ref ∧
    st'.image_store = st.image_store ∧
    st'.image_instances = r.images.foldl (fun acc i => acc.erase i) st.image_instances := by
  unfold deprovisionRegistry at h
  cases hs : r.server with
  | none => rw [hs] at h; cases h
  | some sid =>
    rw [hs] at h
    simp only [Option.bind_eq_bind, Option.some_bind, Option.pure_def, Option.some_inj] at h
    subst h
    exact ⟨rfl, rfl, rfl, rfl⟩

/-- Deprovisioning preserves the store invariants. -/
theorem deprovisionRegistry_preserves_WF (st : State) (r : ContainerRegistry) (st' : State)
    (h : deprovisionRegistry st r = some st') :
    (registryStoreWF st ∧ imageStoreWF st) → (registryStoreWF st' ∧ imageStoreWF st') := by
  rintro ⟨⟨hrnd, hrres⟩, hind, hires⟩
  obtain ⟨hstore, hinst, histore, hiinst⟩ := deprovisionRegistry_fields st r st' h
  constructor
  · constructor
    · rw [hinst]; exact hrnd.erase r.ref
    · intro x hx
      have hx0 : x ∈ st.registry_instances := List.mem_of_mem_erase (hinst ▸ hx)
      have : findRegistryRef st' x =
          if x = r.ref then (findRegistryRef st r.ref).map
            (fun c => { c with server := none })
          else findRegistryRef st x := by
        unfold findRegistryRef
        rw [hstore]
        exact @find?_map_upd ContainerRegistry (fun c => c.ref) st.registry_store r.ref x
          (fun c => { c with server := none }) (fun c => rfl)
      rw [this]
      by_cases hxr : x = r.ref
      · rw [if_pos hxr]
        have := hrres x hx0
        rw [hxr] at this
        obtain ⟨c, hc⟩ := Option.isSome_iff_exists.mp this
        rw [hc]
        rfl
      · rw [if_neg hxr]
        exact hrres x hx0
  · constructor
    · rw [hiinst]; exact eraseFold_nodup r.images st.image_instances hind
    · intro x hx
      have hx0 : x ∈ st.image_instances := eraseFold_mem r.images st.image_instances x (hiinst ▸ hx)
      have : findImageRef st' x = findImageRef st x := by
        unfold findImageRef
        rw [histore]
      rw [this]
      exact hires x hx0

theorem registriesAll_congr (s t : State) (h1 : s.registry_store = t.registry_store)
    (h2 : s.registry_instances = t.registry_instances) :
    registriesAll s = registriesAll t := by
  have hf : findRegistryRef s = findRegistryRef t := by
    funext r
    unfold findRegistryRef
    rw [h1]
  unfold registriesAll
  rw [h2, hf]

theorem imagesAll_congr (s t : State) (h1 : s.image_store = t.image_store)
    (h2 : s.image_instances = t.image_instances) :
    imagesAll s = imagesAll t := by
  have hf : findImageRef s = findImageRef t := by
    funext r
    unfold findImageRef
    rw [h1]
  unfold imagesAll
  rw [h2, hf]

theorem renumberRegistries_image_fields (s : State) :
    (renumberRegistries s).image_store = s.image_store ∧
    (renumberRegistries s).image_instances = s.image_instances := by
  unfold renumberRegistries
  exact ⟨@foldl_preserves State (Nat × ContainerRegistry) (List ContainerImage)
      (fun st => st.image_store)
      (fun st p => updateRegistryRef st p.2.ref (fun c => { c with id := p.1 + 1 }))
      (fun st a => rfl) ((registriesAll s).enum) s,
    @foldl_preserves State (Nat × ContainerRegistry) (List Nat)
      (fun st => st.image_instances)
      (fun st p => updateRegistryRef st p.2.ref (fun c => { c with id := p.1 + 1 }))
      (fun st a => rfl) ((registriesAll s).enum) s⟩

theorem renumberImages_registry_fields (s : State) :
    (renumberImages s).registry_store = s.registry_store ∧
    (renumberImages s).registry_instances = s.registry_instances := by
  unfold renumberImages
  exact ⟨@foldl_preserves State (Nat × ContainerImage) (List ContainerRegistry)
      (fun st => st.registry_store)
      (fun st p => updateImageRef st p.2.ref (fun c => { c with id := p.1 + 1 }))
      (fun st a => rfl) ((imagesAll s).enum) s,
    @foldl_preserves State (Nat × ContainerImage) (List Nat)
      (fun st => st.registry_instances)
      (fun st p => updateImageRef st p.2.ref (fun c => { c with id := p.1 + 1 }))
      (fun st a => rfl) ((imagesAll s).enum) s⟩

theorem renumberRegistries_instances (s : State) :
    (renumberRegistries s).registry_instances = s.registry_instances := by
  unfold renumberRegistries
  exact @foldl_preserves State (Nat × ContainerRegistry) (List Nat)
    (fun st => st.registry_instances)
    (fun st p => updateRegistryRef st p.2.ref (fun c => { c with id := p.1 + 1 }))
    (fun st a => rfl) ((registriesAll s).enum) s

theorem renumberImages_instances (s : State) :
    (renumberImages s).image_instances = s.image_instances := by
  unfold renumberImages
  exact @foldl_preserves State (Nat × ContainerImage) (List Nat)
    (fun st => st.image_instances)
    (fun st p => updateImageRef st p.2.ref (fun c => { c with id := p.1 + 1 }))
    (fun st a => rfl) ((imagesAll s).enum) s

theorem imageStoreWF_of_fields (s t : State) (h1 : s.image_store = t.image_store)
    (h2 : s.image_instances = t.image_instances) (h : imageStoreWF t) : imageStoreWF s := by
  obtain ⟨hnd, hres⟩ := h
  constructor
  · rw [h2]; exact hnd
  · intro r hr
    have : findImageRef s r = findImageRef t r := by unfold findImageRef; rw [h1]
    rw [this]
    exact hres r (h2 ▸ hr)

/-- After `renumberRegistries`, the registry collection holds the same
objects with ids replaced by their enumeration index plus one. -/
theorem registriesAll_renumberRegistries (s : State) (hwf : registryStoreWF s) :
    registriesAll (renumberRegistries s)
      = (registriesAll s).enum.map (fun p => { p.2 with id := p.1 + 1 }) := by
  obtain ⟨hnd, hres⟩ := hwf
  have hrefs : (registriesAll s).map (fun r => r.ref) = s.registry_instances :=
    registriesAll_refs s hres
  have hinst : (renumberRegistries s).registry_instances = s.registry_instances :=
    renumberRegistries_instances s
  have step1 : registriesAll (renumberRegistries s)
      = s.registry_instances.filterMap (findRegistryRef (renumberRegistries s)) := by
    unfold registriesAll
    rw [hinst]
  rw [step1, ← hrefs, List.filterMap_map]
  have hmembers : ∀ r ∈ registriesAll s, findRegistryRef s r.ref = some r :=
    fun r hr => registriesAll_resolve s r hr
  have hndrefs : ((registriesAll s).map (fun r => r.ref)).Nodup := by
    rw [hrefs]; exact hnd
  have := renumberRegFold_filterMap (registriesAll s) 0 s hndrefs hmembers
  unfold renumberRegistries
  simpa [List.enum, Function.comp] using this

theorem imagesAll_renumberImages (s : State) (hwf : imageStoreWF s) :
    imagesAll (renumberImages s)
      = (imagesAll s).enum.map (fun p => { p.2 with id := p.1 + 1 }) := by
  obtain ⟨hnd, hres⟩ := hwf
  have hrefs : (imagesAll s).map (fun im => im.ref) = s.image_instances :=
    imagesAll_refs s hres
  have hinst : (renumberImages s).image_instances = s.image_instances :=
    renumberImages_instances s
  have step1 : imagesAll (renumberImages s)
      = s.image_instances.filterMap (findImageRef (renumberImages s)) := by
    unfold imagesAll
    rw [hinst]
  rw [step1, ← hrefs, List.filterMap_map]
  have hmembers : ∀ im ∈ imagesAll s, findImageRef s im.ref = some im :=
    fun im hr => imagesAll_resolve s im hr
  have hndrefs : ((imagesAll s).map (fun im => im.ref)).Nodup := by
    rw [hrefs]; exact hnd
  have := renumberImgFold_filterMap (imagesAll s) 0 s hndrefs hmembers
  unfold renumberImages
  simpa [List.enum, Function.comp] using this

/-- Ids after a renumbering pass: the enumeration indices shifted by one. -/
theorem enum_setId_ids_reg (l : List ContainerRegistry) :
    (l.enum.map (fun p => ({ p.2 with id := p.1 + 1 } : ContainerRegistry))).map
        (fun r => r.id)
      = (List.range l.length).map (fun i => i + 1) := by
  rw [List.map_map]
  have h1 : ((fun r : ContainerRegistry => r.id) ∘
      (fun p : Nat × ContainerRegistry => { p.2 with id := p.1 + 1 }))
      = (fun i => i + 1) ∘ Prod.fst := rfl
  rw [h1, ← List.map_map, List.enum_map_fst]

theorem enum_setId_ids_img (l : List ContainerImage) :
    (l.enum.map (fun p => ({ p.2 with id := p.1 + 1 } : ContainerImage))).map
        (fun im => im.id)
      = (List.range l.length).map (fun i => i + 1) := by
  rw [List.map_map]
  have h1 : ((fun im : ContainerImage => im.id) ∘
      (fun p : Nat × ContainerImage => { p.2 with id := p.1 + 1 }))
      = (fun i => i + 1) ∘ Prod.fst := rfl
  rw [h1, ← List.map_map, List.enum_map_fst]

theorem foldlM_preserves_mem {σ α : Type} (P : σ → Prop) (f : σ → α → Option σ) :
    ∀ (l : List α),
    (∀ st a st', a ∈ l → f st a = some st' → P st → P st') →
    ∀ (st st' : σ), List.foldlM f st l = some st' → P st → P st' := by
  intro l
  induction l with
  | nil =>
    intro _ st st' hfold hP
    simp only [List.foldlM_nil, Option.pure_def, Option.some_inj] at hfold
    exact hfold ▸ hP
  | cons a as ih =>
    intro h st st' hfold hP
    simp only [List.foldlM_cons, Option.bind_eq_bind] at hfold
    cases hstep : f st a with
    | none => rw [hstep] at hfold; cases hfold
    | some st1 =>
      rw [hstep] at hfold
      simp only [Option.some_bind] at hfold
      exact ih (fun st2 b st3 hb => h st2 b st3 (List.mem_cons_of_mem a hb)) st1 st' hfold
        (h st a st1 (List.mem_cons_self a as) hstep hP)

/-- Membership for `mapM` over `Option`: every output comes from some input. -/
theorem mapM_mem {α β : Type} (f : α → Option β) :
    ∀ (l : List α) (res : List β), l.mapM f = some res →
    ∀ b ∈ res, ∃ a ∈ l, f a = some b := by
  intro l
  induction l with
  | nil =>
    intro res h b hb
    simp only [List.mapM_nil, Option.pure_def, Option.some_inj] at h
    rw [← h] at hb
    cases hb
  | cons a as ih =>
    intro res h b hb
    rw [List.mapM_cons] at h
    cases hfa : f a with
    | none => rw [hfa] at h; cases h
    | some b0 =>
      rw [hfa] at h
      cases hrest : as.mapM f with
      | none => rw [hrest] at h; cases h
      | some bs =>
        rw [hrest] at h
        simp only [Option.pure_def, Option.bind_eq_bind, Option.some_bind,
          Option.some_inj] at h
        rw [← h] at hb
        rcases List.mem_cons.mp hb with hb | hb
        · exact ⟨a, List.mem_cons_self a as, hb ▸ hfa⟩
        · obtain ⟨a', ha', hfa'⟩ := ih bs hrest b hb
          exact ⟨a', List.mem_cons_of_mem a ha', hfa'⟩

/-- The marking fold of `removing_farthest_container_registries` only grows
its accumulator. -/
theorem markFold_mono (s : State) :
    ∀ (users : List User) (acc closest : List Nat),
    users.foldlM (fun acc u => do
        let creg ← closestRegistryForUser s u
        pure (if acc.contains creg.ref then acc else acc ++ [creg.ref])) acc
      = some closest →
    ∀ x ∈ acc, x ∈ closest := by
  intro users
  induction users with
  | nil =>
    intro acc closest h x hx
    simp only [List.foldlM_nil, Option.pure_def, Option.some_inj] at h
    exact h ▸ hx
  | cons u us ih =>
    intro acc closest h x hx
    simp only [List.foldlM_cons, Option.bind_eq_bind] at h
    cases hc : closestRegistryForUser s u with
    | none => rw [hc] at h; cases h
    | some creg =>
      rw [hc] at h
      simp only [Option.some_bind, Option.pure_def, Option.some_bind] at h
      by_cases hin : acc.contains creg.ref
      · rw [if_pos hin] at h
        exact ih acc closest h x hx
      · rw [if_neg hin] at h
        exact ih _ closest h x (List.mem_append_left _ hx)

/-- If the marking fold succeeds, every user resolves to a closest registry. -/
theorem markFold_each (s : State) :
    ∀ (users : List User) (acc closest : List Nat),
    users.foldlM (fun acc u => do
        let creg ← closestRegistryForUser s u
        pure (if acc.contains creg.ref then acc else acc ++ [creg.ref])) acc
      = some closest →
    ∀ u ∈ users, ∃ creg, closestRegistryForUser s u = some creg := by
  intro users
  induction users with
  | nil => intro acc closest _ u hu; cases hu
  | cons u us ih =>
    intro acc closest h v hv
    simp only [List.foldlM_cons, Option.bind_eq_bind] at h
    cases hc : closestRegistryForUser s u with
    | none => rw [hc] at h; cases h
    | some creg =>
      rw [hc] at h
      simp only [Option.some_bind, Option.pure_def, Option.some_bind] at h
      rcases List.mem_cons.mp hv with hv | hv
      · exact ⟨creg, hv ▸ hc⟩
      · exact ih _ closest h v hv

/-- The registry chosen for a user belongs to the registry collection. -/
theorem closestRegistryForUser_mem (s : State) (u : User) (creg : ContainerRegistry)
    (h : closestRegistryForUser s u = some creg) : creg ∈ registriesAll s := by
  unfold closestRegistryForUser at h
  cases hbs : u.base_station with
  | none => rw [hbs] at h; cases h
  | some ubs =>
    rw [hbs] at h
    simp only [Option.bind_eq_bind, Option.some_bind] at h
    cases hsc : (registriesAll s).mapM
        (fun r => (registryUserBandwidth s r ubs).map (fun bw => (r, bw))) with
    | none => rw [hsc] at h; cases h
    | some scored =>
      rw [hsc] at h
      simp only [Option.some_bind] at h
      cases hhead : (sortByKeyDesc (fun rb => rb.2) scored).head? with
      | none => rw [hhead] at h; cases h
      | some best =>
        rw [hhead] at h
        simp only [Option.some_bind, Option.pure_def, Option.some_inj] at h
        rw [sortByKeyDesc_head?_eq_firstMaxBy] at hhead
        obtain ⟨_, l₁, l₂, hdec, _⟩ := firstMaxBy_spec _ scored best hhead
        have hbestmem : best ∈ scored := hdec ▸ List.mem_append_right l₁
          (List.mem_cons_self best l₂)
        obtain ⟨r, hr, hfr⟩ := mapM_mem _ (registriesAll s) scored hsc best hbestmem
        cases hbw : registryUserBandwidth s r ubs with
        | none => rw [hbw] at hfr; cases hfr
        | some bw =>
          rw [hbw] at hfr
          simp only [Option.map_some', Option.some_inj] at hfr
          have : best.1 = r := by rw [← hfr]
          rw [← h, this]
          exact hr

/-- Every user's chosen registry gets marked by the marking fold. -/
theorem markFold_marked (s : State) :
    ∀ (users : List User) (acc closest : List Nat),
    users.foldlM (fun acc u => do
        let creg ← closestRegistryForUser s u
        pure (if acc.contains creg.ref then acc else acc ++ [creg.ref])) acc
      = some closest →
    ∀ u ∈ users, ∀ creg, closestRegistryForUser s u = some creg → creg.ref ∈ closest := by
  intro users
  induction users with
  | nil => intro acc closest _ u hu; cases hu
  | cons u us ih =>
    intro acc closest h v hv creg hcreg
    simp only [List.foldlM_cons, Option.bind_eq_bind] at h
    rcases List.mem_cons.mp hv with hv | hv
    · subst hv
      rw [hcreg] at h
      simp only [Option.some_bind, Option.pure_def, Option.some_bind] at h
      by_cases hin : acc.contains creg.ref
      · rw [if_pos hin] at h
        exact markFold_mono s us acc closest h creg.ref (List.elem_iff.mp hin)
      · rw [if_neg hin] at h
        exact markFold_mono s us _ closest h creg.ref
          (List.mem_append_right acc (List.mem_singleton_self creg.ref))
    · cases hc : closestRegistryForUser s v with
      | none =>
        cases hc2 : closestRegistryForUser s u with
        | none => rw [hc2] at h; cases h
        | some c2 =>
          rw [hc2] at h
          simp only [Option.some_bind, Option.pure_def, Option.some_bind] at h
          rw [hc] at hcreg; cases hcreg
      | some c =>
        cases hc2 : closestRegistryForUser s u with
        | none => rw [hc2] at h; cases h
        | some c2 =>
          rw [hc2] at h
          simp only [Option.some_bind, Option.pure_def, Option.some_bind] at h
          exact ih _ closest h v hv creg hcreg

/-- Every marked ref is the choice of some user. -/
theorem markFold_from (s : State) :
    ∀ (users : List User) (acc closest : List Nat),
    users.foldlM (fun acc u => do
        let creg ← closestRegistryForUser s u
        pure (if acc.contains creg.ref then acc else acc ++ [creg.ref])) acc
      = some closest →
    ∀ x ∈ closest, x ∈ acc ∨ ∃ u ∈ users, ∃ creg,
      closestRegistryForUser s u = some creg ∧ creg.ref = x := by
  intro users
  induction users with
  | nil =>
    intro acc closest h x hx
    simp only [List.foldlM_nil, Option.pure_def, Option.some_inj] at h
    exact Or.inl (h ▸ hx)
  | cons u us ih =>
    intro acc closest h x hx
    simp only [List.foldlM_cons, Option.bind_eq_bind] at h
    cases hc : closestRegistryForUser s u with
    | none => rw [hc] at h; cases h
    | some creg =>
      rw [hc] at h
      simp only [Option.some_bind, Option.pure_def, Option.some_bind] at h
      by_cases hin : acc.contains creg.ref
      · rw [if_pos hin] at h
        rcases ih acc closest h x hx with hacc | ⟨v, hv, c, hcv, hcx⟩
        · exact Or.inl hacc
        · exact Or.inr ⟨v, List.mem_cons_of_mem u hv, c, hcv, hcx⟩
      · rw [if_neg hin] at h
        rcases ih _ closest h x hx with hacc | ⟨v, hv, c, hcv, hcx⟩
        · rcases List.mem_append.mp hacc with hacc | hsing
          · exact Or.inl hacc
          · exact Or.inr ⟨u, List.mem_cons_self u us, creg, hc,
              (List.mem_singleton.mp hsing).symm⟩
        · exact Or.inr ⟨v, List.mem_cons_of_mem u hv, c, hcv, hcx⟩

/-- Full characterisation of the per-user choice: the selected registry is
the first one, in collection order, attaining the maximal bandwidth score. -/
theorem closestRegistryForUser_spec (s : State) (u : User) (creg : ContainerRegistry)
    (h : closestRegistryForUser s u = some creg) :
    ∃ ubs scored best, u.base_station = some ubs ∧
      (registriesAll s).mapM
        (fun r => (registryUserBandwidth s r ubs).map (fun bw => (r, bw))) = some scored ∧
      firstMaxBy (fun rb => rb.2) scored = some best ∧ best.1 = creg ∧
      (∀ y ∈ scored, y.2 ≤ best.2) ∧
      (∃ l₁ l₂, scored = l₁ ++ best :: l₂ ∧ ∀ y ∈ l₁, y.2 < best.2) := by
  unfold closestRegistryForUser at h
  cases hbs : u.base_station with
  | none => rw [hbs] at h; cases h
  | some ubs =>
    rw [hbs] at h
    simp only [Option.bind_eq_bind, Option.some_bind] at h
    cases hsc : (registriesAll s).mapM
        (fun r => (registryUserBandwidth s r ubs).map (fun bw => (r, bw))) with
    | none => rw [hsc] at h; cases h
    | some scored =>
      rw [hsc] at h
      simp only [Option.some_bind] at h
      cases hhead : (sortByKeyDesc (fun rb => rb.2) scored).head? with
      | none => rw [hhead] at h; cases h
      | some best =>
        rw [hhead] at h
        simp only [Option.some_bind, Option.pure_def, Option.some_inj] at h
        rw [sortByKeyDesc_head?_eq_firstMaxBy] at hhead
        obtain ⟨hmax, l₁, l₂, hdec, hlt⟩ := firstMaxBy_spec _ scored best hhead
        exact ⟨ubs, scored, best, rfl, hsc, hhead, h, hmax, l₁, l₂, hdec, hlt⟩

/-- The instances list after the deprovisioning fold: each processed
registry's ref is erased. -/
theorem deprovisionFold_instances :
    ∀ (regs : List ContainerRegistry) (st s1 : State),
    regs.foldlM (fun st r => deprovisionRegistry st r) st = some s1 →
    s1.registry_instances
      = (regs.map (fun r => r.ref)).foldl (fun acc x => acc.erase x)
          st.registry_instances := by
  intro regs
  induction regs with
  | nil =>
    intro st s1 h
    simp only [List.foldlM_nil, Option.pure_def, Option.some_inj] at h
    rw [← h]
    rfl
  | cons r rest ih =>
    intro st s1 h
    simp only [List.foldlM_cons, Option.bind_eq_bind] at h
    cases hstep : deprovisionRegistry st r with
    | none => rw [hstep] at h; cases h
    | some st' =>
      rw [hstep] at h
      simp only [Option.some_bind] at h
      obtain ⟨_, hinst, _, _⟩ := deprovisionRegistry_fields st r st' hstep
      rw [List.map_cons, List.foldl_cons, ← hinst]
      exact ih st' s1 h

/-- Folding erasures of a list of keys over a duplicate-free list filters out
exactly those keys. -/
theorem eraseFold_eq_filter :
    ∀ (xs l : List Nat), l.Nodup →
    xs.foldl (fun acc x => acc.erase x) l = l.filter (fun a => ¬ xs.contains a) := by
  intro xs
  induction xs with
  | nil =>
    intro l _
    simp
  | cons x rest ih =>
    intro l hl
    rw [List.foldl_cons, ih (l.erase x) (hl.erase x), hl.erase_eq_filter x,
      List.filter_filter]
    refine List.filter_congr ?_
    intro a _
    by_cases hax : a = x
    · subst hax
      simp
    · simp [hax]

/-- Lookup in a store extended with a fresh object: all existing refs are
below the store length, so the fresh object is found only under its own ref. -/
theorem find?_append_fresh {α : Type} (ref : α → Nat) (store : List α) (c : α)
    (hfresh : ∀ x ∈ store, ref x < store.length) (hc : ref c = store.length) (r : Nat) :
    (store ++ [c]).find? (fun x => ref x == r)
      = if r = ref c then some c else store.find? (fun x => ref x == r) := by
  rw [List.find?_append]
  by_cases hr : r = ref c
  · subst hr
    have hnone : store.find? (fun x => ref x == ref c) = none := by
      rw [List.find?_eq_none]
      intro x hx hbeq
      have := Nat.ne_of_lt (hc ▸ hfresh x hx)
      exact this (Nat.beq_eq ▸ (by simpa using hbeq))
    rw [hnone]
    simp
  · cases hs : store.find? (fun x => ref x == r) with
    | some y => simp [if_neg hr]
    | none =>
      simp only [Option.none_or, if_neg hr]
      rw [List.find?_singleton]
      have : (ref c == r) = false := beq_false_of_ne (fun hh => hr hh.symm)
      simp [this]

/-- Effects of creating one image copy inside the provisioning loop. -/
theorem provisionImageStep_spec (regRef : Nat) (st : State) (im : ContainerImage)
    (regC : ContainerRegistry)
    (himgfresh : ∀ c ∈ st.image_store, c.ref < st.image_store.length)
    (hreg : findRegistryRef st regRef = some regC) :
    findRegistryRef (provisionImageStep regRef st im) regRef
        = some { regC with images := regC.images ++ [st.image_store.length] } ∧
    findImageRef (provisionImageStep regRef st im) st.image_store.length
        = some { ref := st.image_store.length, id := st.image_instances.length + 1,
                 size := im.size, name := im.name, layer := im.layer,
                 container_registry := some regRef } ∧
    (∀ x, x < st.image_store.length →
      findImageRef (provisionImageStep regRef st im) x = findImageRef st x) ∧
    (∀ x, x ≠ regRef →
      findRegistryRef (provisionImageStep regRef st im) x = findRegistryRef st x) ∧
    (∀ c ∈ (provisionImageStep regRef st im).image_store,
      c.ref < (provisionImageStep regRef st im).image_store.length) ∧
    (provisionImageStep regRef st im).image_store.length = st.image_store.length + 1 ∧
    (provisionImageStep regRef st im).image_instances
      = st.image_instances ++ [st.image_store.length] ∧
    (provisionImageStep regRef st im).edge_servers = st.edge_servers ∧
    (provisionImageStep regRef st im).registry_instances = st.registry_instances ∧
    (provisionImageStep regRef st im).users = st.users ∧
    (provisionImageStep regRef st im).services = st.services ∧
    (provisionImageStep regRef st im).topology = st.topology := by
  have hPS : provisionImageStep regRef st im
      = updateImageRef (updateRegistryRef (newImage st im.size im.name im.layer).2 regRef
          (fun r => { r with images := r.images ++ [st.image_store.length] }))
        st.image_store.length (fun i => { i with container_registry := some regRef }) := rfl
  have hfreshC : ContainerImage.ref {
      ref := st.image_store.length, id := st.image_instances.length + 1,
      size := im.size, name := im.name, layer := im.layer,
      container_registry := none } = st.image_store.length := rfl
  have hnew : ∀ r : Nat, findImageRef (newImage st im.size im.name im.layer).2 r
      = if r = st.image_store.length
        then some { ref := st.image_store.length, id := st.image_instances.length + 1,
                    size := im.size, name := im.name, layer := im.layer,
                    container_registry := none }
        else findImageRef st r := by
    intro r
    unfold findImageRef newImage
    exact find?_append_fresh (fun c => c.ref) st.image_store _ himgfresh hfreshC r
  have hreg1 : ∀ x, findRegistryRef (newImage st im.size im.name im.layer).2 x
      = findRegistryRef st x := fun x => rfl
  have hregstep : ∀ x, findRegistryRef (provisionImageStep regRef st im) x
      = if x = regRef
        then (findRegistryRef st regRef).map
          (fun r => { r with images := r.images ++ [st.image_store.length] })
        else findRegistryRef st x := by
    intro x
    rw [hPS]
    have h2 : findRegistryRef (updateImageRef (updateRegistryRef
        (newImage st im.size im.name im.layer).2 regRef
        (fun r => { r with images := r.images ++ [st.image_store.length] }))
        st.image_store.length
        (fun i => { i with container_registry := some regRef })) x
        = findRegistryRef (updateRegistryRef (newImage st im.size im.name im.layer).2 regRef
          (fun r => { r with images := r.images ++ [st.image_store.length] })) x := rfl
    rw [h2, findRegistryRef_update _ regRef x
      (fun r => { r with images := r.images ++ [st.image_store.length] }) (fun c => rfl),
      hreg1, hreg1]
  have himgstep : ∀ x, findImageRef (provisionImageStep regRef st im) x
      = if x = st.image_store.length
        then some { ref := st.image_store.length, id := st.image_instances.length + 1,
                    size := im.size, name := im.name, layer := im.layer,
                    container_registry := some regRef }
        else findImageRef st x := by
    intro x
    rw [hPS]
    have h1 : ∀ y, findImageRef (updateRegistryRef (newImage st im.size im.name im.layer).2
        regRef (fun r => { r with images := r.images ++ [st.image_store.length] })) y
        = findImageRef (newImage st im.size im.name im.layer).2 y := fun y => rfl
    rw [findImageRef_update _ st.image_store.length x
      (fun i => { i with container_registry := some regRef }) (fun c => rfl)]
    simp only [h1, hnew]
    by_cases hx : x = st.image_store.length
    · simp [hx]
    · simp [hx]
  have hstore : (provisionImageStep regRef st im).image_store
      = (st.image_store ++ [({
          ref := st.image_store.length, id := st.image_instances.length + 1,
          size := im.size, name := im.name, layer := im.layer,
          container_registry := none } : ContainerImage)]).map
        (fun i => if i.ref = st.image_store.length
          then { i with container_registry := some regRef } else i) := rfl
  have hlen : (provisionImageStep regRef st im).image_store.length
      = st.image_store.length + 1 := by
    rw [hstore, List.length_map, List.length_append]
    rfl
  refine ⟨?_, ?_, ?_, ?_, ?_, hlen, rfl, rfl, rfl, rfl, rfl, rfl⟩
  · rw [hregstep, if_pos rfl, hreg]
    rfl
  · rw [himgstep, if_pos rfl]
  · intro x hx
    rw [himgstep, if_neg (Nat.ne_of_lt hx)]
  · intro x hx
    rw [hregstep, if_neg hx]
  · intro c hc
    rw [hlen]
    rw [hstore] at hc
    obtain ⟨c0, hc0mem, hc0⟩ := List.mem_map.mp hc
    have hrefeq : c.ref = c0.ref := by
      rw [← hc0]
      by_cases h : c0.ref = st.image_store.length <;> simp [h]
    rcases List.mem_append.mp hc0mem with h0 | h0
    · rw [hrefeq]
      exact Nat.lt_succ_of_lt (himgfresh c0 h0)
    · rw [hrefeq, List.mem_singleton.mp h0]
      exact Nat.lt_succ_self _

/-- Effects of the whole image-copying fold of the provisioning block: the
new registry ends up holding fresh refs whose images are copies (same size,
name and layer) of the given list, and everything else is untouched. -/
theorem provisionImgFold_spec (imgs : List ContainerImage) :
    ∀ (st : State) (regRef : Nat) (regC : ContainerRegistry),
    (∀ c ∈ st.image_store, c.ref < st.image_store.length) →
    findRegistryRef st regRef = some regC →
    ∃ newRefs,
      findRegistryRef (imgs.foldl (provisionImageStep regRef) st) regRef
        = some { regC with images := regC.images ++ newRefs } ∧
      ((newRefs.filterMap (findImageRef (imgs.foldl (provisionImageStep regRef) st))).map
          (fun i => (i.size, i.name, i.layer))
        = imgs.map (fun i => (i.size, i.name, i.layer))) ∧
      (∀ c ∈ (imgs.foldl (provisionImageStep regRef) st).image_store,
        c.ref < (imgs.foldl (provisionImageStep regRef) st).image_store.length) ∧
      (∀ x, x ≠ regRef →
        findRegistryRef (imgs.foldl (provisionImageStep regRef) st) x
          = findRegistryRef st x) ∧
      (∀ x, x < st.image_store.length →
        findImageRef (imgs.foldl (provisionImageStep regRef) st) x = findImageRef st x) ∧
      (imgs.foldl (provisionImageStep regRef) st).edge_servers = st.edge_servers ∧
      (imgs.foldl (provisionImageStep regRef) st).registry_instances
        = st.registry_instances ∧
      (imgs.foldl (provisionImageStep regRef) st).users = st.users ∧
      (imgs.foldl (provisionImageStep regRef) st).services = st.services ∧
      (imgs.foldl (provisionImageStep regRef) st).topology = st.topology ∧
      (imgs.foldl (provisionImageStep regRef) st).image_instances
        = st.image_instances ++ newRefs := by
  induction imgs with
  | nil =>
    intro st regRef regC hfresh hreg
    refine ⟨[], ?_, rfl, hfresh, fun x _ => rfl, fun x _ => rfl, rfl, rfl, rfl, rfl, rfl, ?_⟩
    · rw [List.append_nil]
      exact hreg
    · rw [List.append_nil]
      rfl
  | cons im rest ih =>
    intro st regRef regC hfresh hreg
    obtain ⟨hreg1, himgnew, himgold, hregold, hfresh1, hlen1, hinst1, hsrv1, hreginst1,
      husers1, hsvcs1, htopo1⟩ := provisionImageStep_spec regRef st im regC hfresh hreg
    obtain ⟨newRefs', ihreg, ihtriples, ihfresh, ihregold, ihimgold, ihsrv, ihreginst,
      ihusers, ihsvcs, ihtopo, ihinst⟩ :=
      ih (provisionImageStep regRef st im) regRef
        { regC with images := regC.images ++ [st.image_store.length] } hfresh1 hreg1
    rw [List.foldl_cons]
    refine ⟨st.image_store.length :: newRefs', ?_, ?_, ihfresh, ?_, ?_, ?_, ?_, ?_, ?_, ?_, ?_⟩
    · rw [ihreg]
      simp only [List.append_assoc, List.singleton_append]
    · have hnewlive : findImageRef (rest.foldl (provisionImageStep regRef)
          (provisionImageStep regRef st im)) st.image_store.length
          = some { ref := st.image_store.length, id := st.image_instances.length + 1,
                   size := im.size, name := im.name, layer := im.layer,
                   container_registry := some regRef } := by
        rw [ihimgold st.image_store.length (hlen1 ▸ Nat.lt_succ_self _), himgnew]
      rw [List.filterMap_cons, hnewlive, List.map_cons, List.map_cons, ihtriples]
    · intro x hx
      rw [ihregold x hx, hregold x hx]
    · intro x hx
      have hx1 : x < (provisionImageStep regRef st im).image_store.length := by
        rw [hlen1]
        exact Nat.lt_succ_of_lt hx
      rw [ihimgold x hx1, himgold x hx]
    · rw [ihsrv, hsrv1]
    · rw [ihreginst, hreginst1]
    · rw [ihusers, husers1]
    · rw [ihsvcs, hsvcs1]
    · rw [ihtopo, htopo1]
    · rw [ihinst, hinst1, List.append_assoc, List.singleton_append]

theorem registryDemand_congr (s t : State) (h : s.image_store = t.image_store)
    (r : ContainerRegistry) : registryDemand s r = registryDemand t r := by
  have hf : findImageRef s = findImageRef t := by
    funext x
    unfold findImageRef
    rw [h]
  unfold registryDemand
  rw [hf]

theorem map_update_compose (l : List EdgeServer) (sid : Nat) (D : Rat) (R : Nat) :
    (l.map (fun e => if e.id = sid then
        { e with container_registries := e.container_registries ++ [R] } else e)).map
      (fun e => if e.id = sid then { e with demand := e.demand + D } else e)
    = l.map (fun e => if e.id = sid then
        { e with demand := e.demand + D,
                 container_registries := e.container_registries ++ [R] } else e) := by
  induction l with
  | nil => rfl
  | cons e rest ih =>
    simp only [List.map_cons]
    rw [ih]
    by_cases he : e.id = sid
    · rw [if_pos he, if_pos (show ({ e with container_registries :=
        e.container_registries ++ [R] } : EdgeServer).id = sid from he), if_pos he]
    · rw [if_neg he, if_neg he, if_neg he]

/-- Full description of `provision_registry`: a fresh registry appears in the
collection, attached to the chosen server, holding one fresh copy of every
given image; the server's demand grows by the registry's demand (the total
size of the copies), and nothing else changes. -/
theorem provision_registry_spec (s : State) (imgs : List ContainerImage) (sid : Nat)
    (hregfresh : ∀ c ∈ s.registry_store, c.ref < s.registry_store.length)
    (himgfresh : ∀ c ∈ s.image_store, c.ref < s.image_store.length) :
    ∃ (reg' : ContainerRegistry) (newRefs : List Nat),
      reg'.ref = s.registry_store.length ∧
      reg'.server = some sid ∧
      reg'.base_footprint = 0 ∧
      reg'.images = newRefs ∧
      findRegistryRef (provision_registry s imgs sid) reg'.ref = some reg' ∧
      ((newRefs.filterMap (findImageRef (provision_registry s imgs sid))).map
          (fun i => (i.size, i.name, i.layer))
        = imgs.map (fun i => (i.size, i.name, i.layer))) ∧
      registryDemand (provision_registry s imgs sid) reg'
        = (imgs.map (fun i => i.size)).sum ∧
      (provision_registry s imgs sid).registry_instances
        = s.registry_instances ++ [reg'.ref] ∧
      (∀ x, x ≠ reg'.ref →
        findRegistryRef (provision_registry s imgs sid) x = findRegistryRef s x) ∧
      (∀ x, x < s.image_store.length →
        findImageRef (provision_registry s imgs sid) x = findImageRef s x) ∧
      (provision_registry s imgs sid).edge_servers
        = s.edge_servers.map (fun e => if e.id = sid then
            { e with
              demand := e.demand + registryDemand (provision_registry s imgs sid) reg',
              container_registries := e.container_registries ++ [reg'.ref] } else e) ∧
      (provision_registry s imgs sid).users = s.users ∧
      (provision_registry s imgs sid).services = s.services ∧
      (provision_registry s imgs sid).topology = s.topology := by
  have hreg1 : findRegistryRef (newRegistry s).2 s.registry_store.length
      = some { ref := s.registry_store.length, id := s.registry_instances.length + 1,
               base_footprint := 0, images := [], server := none } :=
    (@find?_append_fresh ContainerRegistry (fun c => c.ref) s.registry_store
      { ref := s.registry_store.length, id := s.registry_instances.length + 1,
        base_footprint := 0, images := [], server := none }
      hregfresh rfl s.registry_store.length).trans (if_pos rfl)
  have hregother : ∀ x, x ≠ s.registry_store.length →
      findRegistryRef (newRegistry s).2 x = findRegistryRef s x := by
    intro x hx
    exact (@find?_append_fresh ContainerRegistry (fun c => c.ref) s.registry_store
      { ref := s.registry_store.length, id := s.registry_instances.length + 1,
        base_footprint := 0, images := [], server := none }
      hregfresh rfl x).trans (if_neg hx)
  obtain ⟨newRefs, hfoldreg, hfoldtriples, hfoldfresh, hfoldregold, hfoldimgold, hfoldsrv,
      hfoldreginst, hfoldusers, hfoldsvcs, hfoldtopo, hfoldinst⟩ :=
    provisionImgFold_spec imgs (newRegistry s).2 s.registry_store.length
      { ref := s.registry_store.length, id := s.registry_instances.length + 1,
        base_footprint := 0, images := [], server := none } himgfresh hreg1
  have hS2reg : findRegistryRef (provisionStage2 s imgs) s.registry_store.length
      = some { ref := s.registry_store.length, id := s.registry_instances.length + 1,
               base_footprint := 0, images := newRefs, server := none } := hfoldreg
  have hS2triples : ((newRefs.filterMap (findImageRef (provisionStage2 s imgs))).map
      (fun i => (i.size, i.name, i.layer))) = imgs.map (fun i => (i.size, i.name, i.layer)) :=
    hfoldtriples
  have hS2regold : ∀ x, x ≠ s.registry_store.length →
      findRegistryRef (provisionStage2 s imgs) x = findRegistryRef s x := by
    intro x hx
    exact (hfoldregold x hx).trans (hregother x hx)
  have hS2imgold : ∀ x, x < s.image_store.length →
      findImageRef (provisionStage2 s imgs) x = findImageRef s x := by
    intro x hx
    exact hfoldimgold x hx
  have hS2srv : (provisionStage2 s imgs).edge_servers = s.edge_servers := hfoldsrv
  have hS2reginst : (provisionStage2 s imgs).registry_instances
      = s.registry_instances ++ [s.registry_store.length] := hfoldreginst
  have hS2users : (provisionStage2 s imgs).users = s.users := hfoldusers
  have hS2svcs : (provisionStage2 s imgs).services = s.services := hfoldsvcs
  have hS2topo : (provisionStage2 s imgs).topology = s.topology := hfoldtopo
  have hS4reg : ∀ x, findRegistryRef (provisionStage4 s imgs sid) x
      = if x = s.registry_store.length
        then some { ref := s.registry_store.length, id := s.registry_instances.length + 1,
                    base_footprint := 0, images := newRefs, server := some sid }
        else findRegistryRef (provisionStage2 s imgs) x := by
    intro x
    have hupd : findRegistryRef (provisionStage4 s imgs sid) x
        = if x = s.registry_store.length
          then (findRegistryRef (provisionStage2 s imgs) s.registry_store.length).map
            (fun r => { r with server := some sid })
          else findRegistryRef (provisionStage2 s imgs) x :=
      findRegistryRef_update
        (updateServer (provisionStage2 s imgs) sid (fun e =>
          { e with container_registries := e.container_registries ++ [s.registry_store.length] }))
        s.registry_store.length x (fun r => { r with server := some sid }) (fun c => rfl)
    rw [hupd]
    by_cases hx : x = s.registry_store.length
    · rw [if_pos hx, if_pos hx, hS2reg]
      rfl
    · rw [if_neg hx, if_neg hx]
  have htreg : ∀ x, findRegistryRef (provision_registry s imgs sid) x
      = findRegistryRef (provisionStage4 s imgs sid) x := fun x => rfl
  have htimg : findImageRef (provision_registry s imgs sid)
      = findImageRef (provisionStage2 s imgs) := rfl
  refine ⟨{ ref := s.registry_store.length, id := s.registry_instances.length + 1,
            base_footprint := 0, images := newRefs, server := some sid },
    newRefs, rfl, rfl, rfl, rfl, ?_, ?_, ?_, ?_, ?_, ?_, ?_, ?_, ?_, ?_⟩
  · rw [htreg]
    exact (hS4reg s.registry_store.length).trans (if_pos rfl)
  · rw [htimg]
    exact hS2triples
  · have hcong : registryDemand (provision_registry s imgs sid)
        { ref := s.registry_store.length, id := s.registry_instances.length + 1,
          base_footprint := 0, images := newRefs, server := some sid }
        = registryDemand (provisionStage2 s imgs)
          { ref := s.registry_store.length, id := s.registry_instances.length + 1,
            base_footprint := 0, images := newRefs, server := some sid } :=
      registryDemand_congr _ _ rfl _
    rw [hcong]
    show (0 : Rat) + ((newRefs.filterMap (findImageRef (provisionStage2 s imgs))).map
        (fun im => im.size)).sum = (imgs.map (fun i => i.size)).sum
    have hsizes : ((newRefs.filterMap (findImageRef (provisionStage2 s imgs))).map
        (fun im => im.size)) = imgs.map (fun i => i.size) := by
      have h1 : ((newRefs.filterMap (findImageRef (provisionStage2 s imgs))).map
          (fun i => (i.size, i.name, i.layer))).map Prod.fst
          = (imgs.map (fun i => (i.size, i.name, i.layer))).map Prod.fst := by
        rw [hS2triples]
      rw [List.map_map, List.map_map] at h1
      exact h1
    rw [hsizes, zero_add]
  · exact hS2reginst
  · intro x hx
    rw [htreg, hS4reg, if_neg hx]
    exact hS2regold x hx
  · intro x hx
    rw [htimg]
    exact hS2imgold x hx
  · have hts : (provision_registry s imgs sid).edge_servers
        = ((provisionStage2 s imgs).edge_servers.map (fun e => if e.id = sid then
            { e with container_registries := e.container_registries ++ [s.registry_store.length] }
            else e)).map (fun e => if e.id = sid then
              { e with demand := (e.demand + registryDemand (provisionStage4 s imgs sid)
                ((findRegistryRef (provisionStage4 s imgs sid) s.registry_store.length).getD
                  { ref := s.registry_store.length, id := s.registry_instances.length + 1,
                    base_footprint := 0, images := [], server := none })) } else e) := rfl
    have hdm : registryDemand (provisionStage4 s imgs sid)
        ((findRegistryRef (provisionStage4 s imgs sid) s.registry_store.length).getD
          { ref := s.registry_store.length, id := s.registry_instances.length + 1,
            base_footprint := 0, images := [], server := none })
        = registryDemand (provision_registry s imgs sid)
          { ref := s.registry_store.length, id := s.registry_instances.length + 1,
            base_footprint := 0, images := newRefs, server := some sid } := by
      rw [hS4reg, if_pos rfl]
      exact registryDemand_congr _ _ rfl _
    rw [hts, hS2srv, hdm]
    exact map_update_compose s.edge_servers sid _ s.registry_store.length
  · exact hS2users
  · exact hS2svcs
  · exact hS2topo

theorem phaseCLoop_succ (fuel : Nat) (s : State) (uslow cands : List Nat)
    (images : List ContainerImage) (provT : Rat) (hns : uslow ≠ []) (hnc : cands ≠ []) :
    phaseCLoop (fuel + 1) s uslow cands images provT
      = (cands.mapM (supportedOf s uslow provT)).bind (fun scored =>
          ((sortByKeyDesc (fun cs => cs.2.length) scored).head?).bind (fun best =>
            if 0 < best.2.length then
              phaseCLoop fuel (provision_registry s images best.1)
                (removeSupported uslow best.2) (cands.erase best.1) images provT
            else some s)) := by
  have h : ¬(uslow = [] ∨ cands = []) := by
    rintro (h | h)
    exacts [hns h, hnc h]
  show (if uslow = [] ∨ cands = [] then some s
      else (cands.mapM (supportedOf s uslow provT)).bind (fun scored =>
        ((sortByKeyDesc (fun cs => cs.2.length) scored).head?).bind (fun best =>
          if 0 < best.2.length then
            phaseCLoop fuel (provision_registry s images best.1)
              (removeSupported uslow best.2) (cands.erase best.1) images provT
          else some s))) = _
  rw [if_neg h]

theorem mapM_map_eq {α β γ : Type} (f : α → Option β) (g : β → γ) (h : α → γ) :
    ∀ (l : List α) (res : List β), l.mapM f = some res →
    (∀ x ∈ l, ∀ y, f x = some y → g y = h x) →
    res.map g = l.map h := by
  intro l
  induction l with
  | nil =>
    intro res hres _
    simp only [List.mapM_nil, Option.pure_def, Option.some_inj] at hres
    rw [← hres]
    rfl
  | cons a as ih =>
    intro res hres hpt
    rw [List.mapM_cons] at hres
    cases hfa : f a with
    | none => rw [hfa] at hres; cases hres
    | some b0 =>
      rw [hfa] at hres
      cases hrest : as.mapM f with
      | none => rw [hrest] at hres; cases hres
      | some bs =>
        rw [hrest] at hres
        simp only [Option.pure_def, Option.bind_eq_bind, Option.some_bind,
          Option.some_inj] at hres
        rw [← hres, List.map_cons, List.map_cons,
          hpt a (List.mem_cons_self a as) b0 hfa,
          ih bs hrest (fun x hx y hy => hpt x (List.mem_cons_of_mem a hx) y hy)]

/-! ## The server-demand invariant (testable property S1) -/

theorem filterMap_congr_mem {α β : Type} (l : List α) (f g : α → Option β)
    (h : ∀ x ∈ l, f x = g x) : l.filterMap f = l.filterMap g := by
  induction l with
  | nil => rfl
  | cons x xs ih =>
    rw [List.filterMap_cons, List.filterMap_cons, h x (List.mem_cons_self x xs),
      ih (fun y hy => h y (List.mem_cons_of_mem x hy))]

theorem filterMap_map_congr {α β γ : Type} (l : List α) (f f' : α → Option β) (g : β → γ)
    (h : ∀ x ∈ l, (f x).map g = (f' x).map g) :
    (l.filterMap f).map g = (l.filterMap f').map g := by
  induction l with
  | nil => rfl
  | cons x xs ih =>
    have hx := h x (List.mem_cons_self x xs)
    have ih' := ih (fun y hy => h y (List.mem_cons_of_mem x hy))
    cases hfx : f x with
    | none =>
      cases hfx' : f' x with
      | none => simp only [List.filterMap_cons, hfx, hfx', ih']
      | some b' =>
        rw [hfx, hfx'] at hx
        simp at hx
    | some b =>
      cases hfx' : f' x with
      | none =>
        rw [hfx, hfx'] at hx
        simp at hx
      | some b' =>
        rw [hfx, hfx'] at hx
        simp only [Option.map_some'] at hx
        have hgb : g b = g b' := Option.some_inj.mp hx
        simp only [List.filterMap_cons, hfx, hfx', List.map_cons, ih', hgb]

theorem sum_filterMap_erase {β : Type} (l : List Nat) (f : Nat → Option β) (g : β → Rat)
    (a : Nat) (b : β) (ha : a ∈ l) (hb : f a = some b) :
    ((l.filterMap f).map g).sum = g b + (((l.erase a).filterMap f).map g).sum := by
  have hp : l.Perm (a :: l.erase a) := List.perm_cons_erase ha
  have h2 : ((l.filterMap f).map g).Perm (((a :: l.erase a).filterMap f).map g) :=
    (hp.filterMap f).map g
  rw [List.Perm.sum_eq h2]
  simp only [List.filterMap_cons, hb, List.map_cons, List.sum_cons]

theorem findService_update (s : State) (r r' : Nat) (f : Service → Service)
    (hf : ∀ c, (f c).id = c.id) :
    findService (updateService s r f) r' =
      if r' = r then (findService s r).map f else findService s r' := by
  unfold findService updateService
  exact find?_map_upd (fun c => c.id) s.services r r' f hf

theorem migrate_state_invariant (s : State) (svcId targetId originId : Nat)
    (svc : Service) (rec : MigrationRecord)
    (hsvc : findService s svcId = some svc)
    (hneq : originId ≠ targetId)
    (horig : ∀ es ∈ s.edge_servers, es.id = originId → svcId ∈ es.services)
    (hinv : serverDemandInvariant s) :
    serverDemandInvariant
      (updateServer (updateService (updateServer (updateService s svcId (fun v =>
            { v with migrations := v.migrations ++ [rec] }))
          originId (fun e =>
            { e with demand := e.demand - svc.demand, services := e.services.erase svcId }))
        svcId (fun v => { v with server := some targetId }))
        targetId (fun e =>
          { e with demand := e.demand + svc.demand, services := e.services ++ [svcId] })) := by
  set s1 := updateService s svcId (fun v => { v with migrations := v.migrations ++ [rec] })
    with hs1
  set s2 := updateServer s1 originId (fun e =>
    { e with demand := e.demand - svc.demand, services := e.services.erase svcId }) with hs2
  set s3 := updateService s2 svcId (fun v => { v with server := some targetId }) with hs3
  set s4 := updateServer s3 targetId (fun e =>
    { e with demand := e.demand + svc.demand, services := e.services ++ [svcId] }) with hs4
  have hsvclookup : ∀ x, findService s4 x = if x = svcId
      then some { svc with migrations := svc.migrations ++ [rec], server := some targetId }
      else findService s x := by
    intro x
    have h43 : findService s4 x = findService s3 x := rfl
    have h3 : findService s3 x = if x = svcId
        then (findService s2 svcId).map (fun v => { v with server := some targetId })
        else findService s2 x :=
      findService_update s2 svcId x (fun v => { v with server := some targetId }) (fun c => rfl)
    have h21 : ∀ y, findService s2 y = findService s1 y := fun y => rfl
    have h1 : ∀ y, findService s1 y = if y = svcId
        then (findService s svcId).map (fun v => { v with migrations := v.migrations ++ [rec] })
        else findService s y :=
      fun y => findService_update s svcId y
        (fun v => { v with migrations := v.migrations ++ [rec] }) (fun c => rfl)
    rw [h43, h3]
    by_cases hx : x = svcId
    · rw [if_pos hx, if_pos hx, h21, h1, if_pos rfl, hsvc]
      rfl
    · rw [if_neg hx, if_neg hx, h21, h1, if_neg hx]
  have hdm : ∀ x, (findService s4 x).map (fun v => v.demand)
      = (findService s x).map (fun v => v.demand) := by
    intro x
    rw [hsvclookup x]
    by_cases hx : x = svcId
    · rw [if_pos hx, hx, hsvc]
      rfl
    · rw [if_neg hx]
  have hsum_svc : ∀ l : List Nat,
      ((l.filterMap (findService s4)).map (fun v => v.demand)).sum
        = ((l.filterMap (findService s)).map (fun v => v.demand)).sum := by
    intro l
    rw [filterMap_map_congr l (findService s4) (findService s) (fun v => v.demand)
      (fun x _ => hdm x)]
  have hsum_reg : ∀ l : List Nat,
      ((l.filterMap (findRegistryRef s4)).map (fun r => registryDemand s4 r)).sum
        = ((l.filterMap (findRegistryRef s)).map (fun r => registryDemand s r)).sum := by
    intro l
    rw [show findRegistryRef s4 = findRegistryRef s from rfl,
      show (fun r => registryDemand s4 r) = (fun r => registryDemand s r) from
        funext (fun r => registryDemand_congr s4 s rfl r)]
  have h4find : findService s4 svcId
      = some { svc with migrations := svc.migrations ++ [rec], server := some targetId } := by
    rw [hsvclookup svcId, if_pos rfl]
  intro es' hmem'
  have hmem2 : es' ∈ (s.edge_servers.map (fun e => if e.id = originId then
      { e with demand := e.demand - svc.demand, services := e.services.erase svcId } else e)).map
      (fun e => if e.id = targetId then
        { e with demand := e.demand + svc.demand, services := e.services ++ [svcId] } else e) :=
    hmem'
  obtain ⟨e2, hm2, he2⟩ := List.mem_map.mp hmem2
  obtain ⟨es, hmS, heS⟩ := List.mem_map.mp hm2
  rw [← he2]
  have hIH := hinv es hmS
  by_cases ho : es.id = originId
  · have he2val : e2 = {
        es with demand := es.demand - svc.demand, services := es.services.erase svcId } := by
      rw [← heS, if_pos ho]
    have ht2 : ¬(e2.id = targetId) := by
      rw [he2val]
      show ¬(es.id = targetId)
      rw [ho]
      exact hneq
    rw [if_neg ht2, he2val]
    show es.demand - svc.demand
        = (((es.services.erase svcId).filterMap (findService s4)).map (fun v => v.demand)).sum
          + ((es.container_registries.filterMap (findRegistryRef s4)).map
              (fun r => registryDemand s4 r)).sum
    have herase : ((es.services.filterMap (findService s)).map (fun v => v.demand)).sum
        = svc.demand
          + (((es.services.erase svcId).filterMap (findService s)).map
              (fun v => v.demand)).sum :=
      sum_filterMap_erase es.services (findService s) (fun v => v.demand) svcId svc
        (horig es hmS ho) hsvc
    rw [hsum_svc, hsum_reg, hIH, herase]
    ring
  · have he2val : e2 = es := by rw [← heS, if_neg ho]
    subst he2val
    by_cases ht : e2.id = targetId
    · rw [if_pos ht]
      show e2.demand + svc.demand
          = (((e2.services ++ [svcId]).filterMap (findService s4)).map (fun v => v.demand)).sum
            + ((e2.container_registries.filterMap (findRegistryRef s4)).map
                (fun r => registryDemand s4 r)).sum
      rw [List.filterMap_append, List.map_append, List.sum_append]
      have hsingle : ((([svcId] : List Nat).filterMap (findService s4)).map
          (fun v => v.demand)).sum = svc.demand := by
        simp [List.filterMap_cons, h4find]
      rw [hsingle, hsum_svc, hsum_reg, hIH]
      ring
    · rw [if_neg ht]
      show e2.demand
          = ((e2.services.filterMap (findService s4)).map (fun v => v.demand)).sum
            + ((e2.container_registries.filterMap (findRegistryRef s4)).map
                (fun r => registryDemand s4 r)).sum
      rw [hsum_svc, hsum_reg]
      exact hIH

theorem migrate_state_invariant_noserver (s : State) (svcId targetId : Nat)
    (svc : Service) (rec : MigrationRecord)
    (hsvc : findService s svcId = some svc)
    (hinv : serverDemandInvariant s) :
    serverDemandInvariant
      (updateServer (updateService (updateService s svcId (fun v =>
            { v with migrations := v.migrations ++ [rec] }))
        svcId (fun v => { v with server := some targetId }))
        targetId (fun e =>
          { e with demand := e.demand + svc.demand, services := e.services ++ [svcId] })) := by
  set s1 := updateService s svcId (fun v => { v with migrations := v.migrations ++ [rec] })
    with hs1
  set s3 := updateService s1 svcId (fun v => { v with server := some targetId }) with hs3
  set s4 := updateServer s3 targetId (fun e =>
    { e with demand := e.demand + svc.demand, services := e.services ++ [svcId] }) with hs4
  have hsvclookup : ∀ x, findService s4 x = if x = svcId
      then some { svc with migrations := svc.migrations ++ [rec], server := some targetId }
      else findService s x := by
    intro x
    have h43 : findService s4 x = findService s3 x := rfl
    have h3 : findService s3 x = if x = svcId
        then (findService s1 svcId).map (fun v => { v with server := some targetId })
        else findService s1 x :=
      findService_update s1 svcId x (fun v => { v with server := some targetId }) (fun c => rfl)
    have h1 : ∀ y, findService s1 y = if y = svcId
        then (findService s svcId).map (fun v => { v with migrations := v.migrations ++ [rec] })
        else findService s y :=
      fun y => findService_update s svcId y
        (fun v => { v with migrations := v.migrations ++ [rec] }) (fun c => rfl)
    rw [h43, h3]
    by_cases hx : x = svcId
    · rw [if_pos hx, if_pos hx, h1, if_pos rfl, hsvc]
      rfl
    · rw [if_neg hx, if_neg hx, h1, if_neg hx]
  have hdm : ∀ x, (findService s4 x).map (fun v => v.demand)
      = (findService s x).map (fun v => v.demand) := by
    intro x
    rw [hsvclookup x]
    by_cases hx : x = svcId
    · rw [if_pos hx, hx, hsvc]
      rfl
    · rw [if_neg hx]
  have hsum_svc : ∀ l : List Nat,
      ((l.filterMap (findService s4)).map (fun v => v.demand)).sum
        = ((l.filterMap (findService s)).map (fun v => v.demand)).sum := by
    intro l
    rw [filterMap_map_congr l (findService s4) (findService s) (fun v => v.demand)
      (fun x _ => hdm x)]
  have hsum_reg : ∀ l : List Nat,
      ((l.filterMap (findRegistryRef s4)).map (fun r => registryDemand s4 r)).sum
        = ((l.filterMap (findRegistryRef s)).map (fun r => registryDemand s r)).sum := by
    intro l
    rw [show findRegistryRef s4 = findRegistryRef s from rfl,
      show (fun r => registryDemand s4 r) = (fun r => registryDemand s r) from
        funext (fun r => registryDemand_congr s4 s rfl r)]
  have h4find : findService s4 svcId
      = some { svc with migrations := svc.migrations ++ [rec], server := some targetId } := by
    rw [hsvclookup svcId, if_pos rfl]
  intro es' hmem'
  have hmem2 : es' ∈ s.edge_servers.map (fun e => if e.id = targetId then
      { e with demand := e.demand + svc.demand, services := e.services ++ [svcId] } else e) :=
    hmem'
  obtain ⟨es, hmS, heS⟩ := List.mem_map.mp hmem2
  rw [← heS]
  have hIH := hinv es hmS
  by_cases ht : es.id = targetId
  · rw [if_pos ht]
    show es.demand + svc.demand
        = (((es.services ++ [svcId]).filterMap (findService s4)).map (fun v => v.demand)).sum
          + ((es.container_registries.filterMap (findRegistryRef s4)).map
              (fun r => registryDemand s4 r)).sum
    rw [List.filterMap_append, List.map_append, List.sum_append]
    have hsingle : ((([svcId] : List Nat).filterMap (findService s4)).map
        (fun v => v.demand)).sum = svc.demand := by
      simp [List.filterMap_cons, h4find]
    rw [hsingle, hsum_svc, hsum_reg, hIH]
    ring
  · rw [if_neg ht]
    show es.demand
        = ((es.services.filterMap (findService s4)).map (fun v => v.demand)).sum
          + ((es.container_registries.filterMap (findRegistryRef s4)).map
              (fun r => registryDemand s4 r)).sum
    rw [hsum_svc, hsum_reg]
    exact hIH

theorem migrate_preserves_demand (s : State) (svcId targetId : Nat) (path : List Nat)
    (svc : Service) (t : Rat) (s' : State)
    (hsvc : findService s svcId = some svc)
    (hne : ∀ originId, svc.server = some originId → originId ≠ targetId)
    (horig : ∀ originId, svc.server = some originId →
      ∀ es ∈ s.edge_servers, es.id = originId → svcId ∈ es.services)
    (hinv : serverDemandInvariant s)
    (hmig : migrate s svcId targetId path = some (t, s')) :
    serverDemandInvariant s' := by
  unfold migrate at hmig
  rw [hsvc] at hmig
  simp only [Option.bind_eq_bind, Option.some_bind] at hmig
  obtain ⟨target, htgt, hmig⟩ := Option.bind_eq_some.mp hmig
  obtain ⟨u, hprobe, hmig⟩ := Option.bind_eq_some.mp hmig
  obtain ⟨mt, hmt, hmig⟩ := Option.bind_eq_some.mp hmig
  cases hs : svc.server with
  | none =>
    rw [hs] at hmig
    simp only [Option.pure_def, Option.some.injEq, Prod.mk.injEq] at hmig
    obtain ⟨hteq, hs4⟩ := hmig
    rw [← hs4]
    exact migrate_state_invariant_noserver s svcId targetId svc
      { step := s.current_step, duration := mt, origin := none, destination := targetId }
      hsvc hinv
  | some originId =>
    rw [hs] at hmig
    simp only [Option.pure_def, Option.some.injEq, Prod.mk.injEq] at hmig
    obtain ⟨hteq, hs4⟩ := hmig
    rw [← hs4]
    exact migrate_state_invariant s svcId targetId originId svc
      { step := s.current_step, duration := mt, origin := some originId,
        destination := targetId }
      hsvc (hne originId hs) (fun es hm hid => horig originId hs es hm hid) hinv

theorem provision_preserves_demand (s : State) (imgs : List ContainerImage) (sid : Nat)
    (hregfresh : ∀ c ∈ s.registry_store, c.ref < s.registry_store.length)
    (himgfresh : ∀ c ∈ s.image_store, c.ref < s.image_store.length)
    (hnoR : ∀ es ∈ s.edge_servers, s.registry_store.length ∉ es.container_registries)
    (himgrefs : ∀ c ∈ s.registry_store, ∀ i ∈ c.images, i < s.image_store.length)
    (hinv : serverDemandInvariant s) :
    serverDemandInvariant (provision_registry s imgs sid) := by
  obtain ⟨reg', newRefs, href, hsrv, hbf, himgs, hfind, htriples, hdemand, hinst, hregold,
    himgold, hes, husers, hsvcs, htopo⟩ := provision_registry_spec s imgs sid hregfresh himgfresh
  have hfsvc : findService (provision_registry s imgs sid) = findService s := by
    funext x
    unfold findService
    rw [hsvcs]
  have hregD : ∀ q ∈ s.registry_store,
      registryDemand (provision_registry s imgs sid) q = registryDemand s q := by
    intro q hq
    unfold registryDemand
    have hfm : q.images.filterMap (findImageRef (provision_registry s imgs sid))
        = q.images.filterMap (findImageRef s) :=
      filterMap_congr_mem q.images _ _ (fun i hi => himgold i (himgrefs q hq i hi))
    rw [hfm]
  have hsum_reg : ∀ l : List Nat, (∀ x ∈ l, x ≠ s.registry_store.length) →
      ((l.filterMap (findRegistryRef (provision_registry s imgs sid))).map
        (fun q => registryDemand (provision_registry s imgs sid) q)).sum
      = ((l.filterMap (findRegistryRef s)).map (fun q => registryDemand s q)).sum := by
    intro l hl
    have h1 : l.filterMap (findRegistryRef (provision_registry s imgs sid))
        = l.filterMap (findRegistryRef s) :=
      filterMap_congr_mem l _ _
        (fun x hx => hregold x (fun h => hl x hx (h.trans href)))
    rw [h1]
    refine congrArg List.sum ?_
    refine List.map_congr_left ?_
    intro q hq
    have hqs : q ∈ s.registry_store := by
      obtain ⟨x, hxl, hxf⟩ := List.mem_filterMap.mp hq
      exact List.mem_of_find?_eq_some hxf
    exact hregD q hqs
  intro es' hmem'
  rw [hes] at hmem'
  obtain ⟨es, hmS, heS⟩ := List.mem_map.mp hmem'
  rw [← heS]
  have hIH := hinv es hmS
  have hmemlist : ∀ x ∈ es.container_registries, x ≠ s.registry_store.length := by
    intro x hx hcontra
    exact hnoR es hmS (hcontra ▸ hx)
  by_cases hid : es.id = sid
  · rw [if_pos hid]
    show es.demand + registryDemand (provision_registry s imgs sid) reg'
        = ((es.services.filterMap (findService (provision_registry s imgs sid))).map
            (fun v => v.demand)).sum
          + (((es.container_registries ++ [reg'.ref]).filterMap
              (findRegistryRef (provision_registry s imgs sid))).map
              (fun q => registryDemand (provision_registry s imgs sid) q)).sum
    rw [List.filterMap_append, List.map_append, List.sum_append]
    have hsingle : ((([reg'.ref] : List Nat).filterMap
        (findRegistryRef (provision_registry s imgs sid))).map
        (fun q => registryDemand (provision_registry s imgs sid) q)).sum
        = registryDemand (provision_registry s imgs sid) reg' := by
      simp [List.filterMap_cons, hfind]
    rw [hsingle, hfsvc, hsum_reg es.container_registries hmemlist, hIH]
    ring
  · rw [if_neg hid]
    show es.demand
        = ((es.services.filterMap (findService (provision_registry s imgs sid))).map
            (fun v => v.demand)).sum
          + ((es.container_registries.filterMap
              (findRegistryRef (provision_registry s imgs sid))).map
              (fun q => registryDemand (provision_registry s imgs sid) q)).sum
    rw [hfsvc, hsum_reg es.container_registries hmemlist]
    exact hIH

theorem deprovision_state_invariant (s : State) (r : ContainerRegistry) (sid : Nat)
    (ri ii : List Nat)
    (hrfind : findRegistryRef s r.ref = some r)
    (hrin : ∀ es ∈ s.edge_servers, es.id = sid → r.ref ∈ es.container_registries)
    (hinv : serverDemandInvariant s) :
    serverDemandInvariant (setInstances (deprovisionCore s r sid) ri ii) := by
  have hfsvc : findService (setInstances (deprovisionCore s r sid) ri ii)
      = findService s := rfl
  have hfreg : ∀ x, findRegistryRef (setInstances (deprovisionCore s r sid) ri ii) x
      = if x = r.ref
        then (findRegistryRef s r.ref).map (fun c => { c with server := none })
        else findRegistryRef s x :=
    fun x => findRegistryRef_update (updateServer s sid (fun e =>
        { e with demand := e.demand - registryDemand s r,
                 container_registries := e.container_registries.erase r.ref }))
      r.ref x (fun c => { c with server := none }) (fun c => rfl)
  have hregd : ∀ q, registryDemand (setInstances (deprovisionCore s r sid) ri ii) q
      = registryDemand s q := fun q => registryDemand_congr _ _ rfl q
  have hsum_reg : ∀ l : List Nat,
      ((l.filterMap (findRegistryRef (setInstances (deprovisionCore s r sid) ri ii))).map
        (fun q => registryDemand (setInstances (deprovisionCore s r sid) ri ii) q)).sum
      = ((l.filterMap (findRegistryRef s)).map (fun q => registryDemand s q)).sum := by
    intro l
    have hpt : ∀ x ∈ l,
        (findRegistryRef (setInstances (deprovisionCore s r sid) ri ii) x).map
          (fun q => registryDemand s q)
        = (findRegistryRef s x).map (fun q => registryDemand s q) := by
      intro x hx
      rw [hfreg x]
      by_cases hxr : x = r.ref
      · rw [if_pos hxr, hxr, hrfind]
        rfl
      · rw [if_neg hxr]
    rw [show (fun q => registryDemand (setInstances (deprovisionCore s r sid) ri ii) q)
        = (fun q => registryDemand s q) from funext hregd,
      filterMap_map_congr l _ (findRegistryRef s) (fun q => registryDemand s q) hpt]
  intro es' hmem'
  have hmem2 : es' ∈ s.edge_servers.map (fun e => if e.id = sid then
      { e with demand := e.demand - registryDemand s r,
               container_registries := e.container_registries.erase r.ref } else e) := hmem'
  obtain ⟨es, hmS, heS⟩ := List.mem_map.mp hmem2
  rw [← heS]
  have hIH := hinv es hmS
  by_cases hid : es.id = sid
  · rw [if_pos hid]
    show es.demand - registryDemand s r
        = ((es.services.filterMap
            (findService (setInstances (deprovisionCore s r sid) ri ii))).map
            (fun v => v.demand)).sum
          + (((es.container_registries.erase r.ref).filterMap
              (findRegistryRef (setInstances (deprovisionCore s r sid) ri ii))).map
              (fun q => registryDemand (setInstances (deprovisionCore s r sid) ri ii) q)).sum
    have herase : ((es.container_registries.filterMap (findRegistryRef s)).map
        (fun q => registryDemand s q)).sum
        = registryDemand s r
          + (((es.container_registries.erase r.ref).filterMap (findRegistryRef s)).map
              (fun q => registryDemand s q)).sum :=
      sum_filterMap_erase es.container_registries (findRegistryRef s)
        (fun q => registryDemand s q) r.ref r (hrin es hmS hid) hrfind
    rw [hfsvc, hsum_reg, hIH, herase]
    ring
  · rw [if_neg hid]
    show es.demand
        = ((es.services.filterMap
            (findService (setInstances (deprovisionCore s r sid) ri ii))).map
            (fun v => v.demand)).sum
          + ((es.container_registries.filterMap
              (findRegistryRef (setInstances (deprovisionCore s r sid) ri ii))).map
              (fun q => registryDemand (setInstances (deprovisionCore s r sid) ri ii) q)).sum
    rw [hfsvc, hsum_reg]
    exact hIH

theorem deprovision_preserves_demand (s : State) (r : ContainerRegistry) (sid : Nat)
    (s' : State)
    (hserver : r.server = some sid)
    (hrfind : findRegistryRef s r.ref = some r)
    (hrin : ∀ es ∈ s.edge_servers, es.id = sid → r.ref ∈ es.container_registries)
    (hinv : serverDemandInvariant s)
    (hdep : deprovisionRegistry s r = some s') :
    serverDemandInvariant s' := by
  unfold deprovisionRegistry at hdep
  rw [hserver] at hdep
  simp only [Option.bind_eq_bind, Option.some_bind, Option.pure_def, Option.some.injEq] at hdep
  rw [← hdep]
  exact deprovision_state_invariant s r sid _ _ hrfind hrin hinv

/-! ## Snapshot and restore lemmas -/

theorem migrate_effects_core (s mid : State) (svcId targetId : Nat) (svc : Service)
    (rec : MigrationRecord)
    (hsvc : findService s svcId = some svc)
    (hmidsvc : ∀ y, findService mid y
      = findService (updateService s svcId (fun v =>
          { v with migrations := v.migrations ++ [rec] })) y)
    (hmidtop : mid.topology = s.topology)
    (hmidusers : mid.users = s.users)
    (hmidbs : mid.base_stations = s.base_stations) :
    (updateServer (updateService mid svcId (fun v => { v with server := some targetId }))
        targetId (fun e =>
          { e with demand := e.demand + svc.demand,
                   services := e.services ++ [svcId] })).topology = s.topology ∧
    (updateServer (updateService mid svcId (fun v => { v with server := some targetId }))
        targetId (fun e =>
          { e with demand := e.demand + svc.demand,
                   services := e.services ++ [svcId] })).users = s.users ∧
    (updateServer (updateService mid svcId (fun v => { v with server := some targetId }))
        targetId (fun e =>
          { e with demand := e.demand + svc.demand,
                   services := e.services ++ [svcId] })).base_stations = s.base_stations ∧
    (∀ x, ¬(x = svcId) →
      findService (updateServer (updateService mid svcId
          (fun v => { v with server := some targetId })) targetId (fun e =>
            { e with demand := e.demand + svc.demand,
                     services := e.services ++ [svcId] })) x = findService s x) ∧
    ∃ m, findService (updateServer (updateService mid svcId
        (fun v => { v with server := some targetId })) targetId (fun e =>
          { e with demand := e.demand + svc.demand,
                   services := e.services ++ [svcId] })) svcId = some m ∧
      m.server = some targetId := by
  have h3 : ∀ y, findService (updateService mid svcId
      (fun v => { v with server := some targetId })) y
      = if y = svcId
        then (findService mid svcId).map (fun v => { v with server := some targetId })
        else findService mid y :=
    fun y => findService_update mid svcId y (fun v => { v with server := some targetId })
      (fun c => rfl)
  have h1 : ∀ y, findService (updateService s svcId (fun v =>
      { v with migrations := v.migrations ++ [rec] })) y
      = if y = svcId
        then (findService s svcId).map (fun v =>
          { v with migrations := v.migrations ++ [rec] })
        else findService s y :=
    fun y => findService_update s svcId y (fun v =>
      { v with migrations := v.migrations ++ [rec] }) (fun c => rfl)
  refine ⟨hmidtop, hmidusers, hmidbs, ?_, ?_⟩
  · intro x hx
    have hT : findService (updateServer (updateService mid svcId
        (fun v => { v with server := some targetId })) targetId (fun e =>
          { e with demand := e.demand + svc.demand, services := e.services ++ [svcId] })) x
        = findService (updateService mid svcId
            (fun v => { v with server := some targetId })) x := rfl
    rw [hT, h3, if_neg hx, hmidsvc, h1, if_neg hx]
  · refine ⟨{ svc with migrations := svc.migrations ++ [rec], server := some targetId },
      ?_, rfl⟩
    have hT : findService (updateServer (updateService mid svcId
        (fun v => { v with server := some targetId })) targetId (fun e =>
          { e with demand := e.demand + svc.demand,
                   services := e.services ++ [svcId] })) svcId
        = findService (updateService mid svcId
            (fun v => { v with server := some targetId })) svcId := rfl
    rw [hT, h3, if_pos rfl, hmidsvc, h1, if_pos rfl, hsvc]
    rfl

theorem migrate_effects (s : State) (svcId targetId : Nat) (path : List Nat) (t : Rat)
    (s' : State) (hmig : migrate s svcId targetId path = some (t, s')) :
    s'.topology = s.topology ∧ s'.users = s.users ∧ s'.base_stations = s.base_stations ∧
    (∀ x, ¬(x = svcId) → findService s' x = findService s x) ∧
    ∃ m, findService s' svcId = some m ∧ m.server = some targetId := by
  unfold migrate at hmig
  cases hsvc : findService s svcId with
  | none => rw [hsvc] at hmig; simp at hmig
  | some svc =>
    rw [hsvc] at hmig
    simp only [Option.bind_eq_bind, Option.some_bind] at hmig
    obtain ⟨target, htgt, hmig⟩ := Option.bind_eq_some.mp hmig
    obtain ⟨u0, hprobe, hmig⟩ := Option.bind_eq_some.mp hmig
    obtain ⟨mt, hmt, hmig⟩ := Option.bind_eq_some.mp hmig
    cases hs : svc.server with
    | none =>
      rw [hs] at hmig
      simp only [Option.pure_def, Option.some.injEq, Prod.mk.injEq] at hmig
      obtain ⟨hteq, hs4⟩ := hmig
      rw [← hs4]
      exact migrate_effects_core s (updateService s svcId (fun v =>
          { v with migrations := v.migrations ++ [{ step := s.current_step, duration := mt, origin := none, destination := targetId }] }))
        svcId targetId svc
        { step := s.current_step, duration := mt, origin := none, destination := targetId }
        hsvc (fun y => rfl) rfl rfl rfl
    | some originId =>
      rw [hs] at hmig
      simp only [Option.pure_def, Option.some.injEq, Prod.mk.injEq] at hmig
      obtain ⟨hteq, hs4⟩ := hmig
      rw [← hs4]
      exact migrate_effects_core s (updateServer (updateService s svcId (fun v =>
          { v with migrations := v.migrations ++ [{ step := s.current_step, duration := mt, origin := some originId, destination := targetId }] })) originId (fun e =>
          { e with demand := e.demand - svc.demand, services := e.services.erase svcId }))
        svcId targetId svc
        { step := s.current_step, duration := mt, origin := some originId, destination := targetId }
        hsvc (fun y => rfl) rfl rfl rfl

theorem restoreServiceStep_spec (snap : Snapshot) (st stA : State) (v : Service)
    (h : restoreServiceStep snap st v = some stA) :
    stA.topology = st.topology ∧ stA.users = st.users ∧
    stA.base_stations = st.base_stations ∧
    (∀ x, ¬(x = v.id) → findService stA x = findService st x) ∧
    ∃ sv, alistGet snap.service_server v.id = some sv ∧
      ∀ w, findService st v.id = some w →
        (findService stA v.id).map (fun x => (x.server, x.migrations))
          = some ((match sv with | some σ => some σ | none => w.server),
              ([] : List MigrationRecord)) := by
  unfold restoreServiceStep at h
  cases hsv : alistGet snap.service_server v.id with
  | none => rw [hsv] at h; simp at h
  | some sv =>
    rw [hsv] at h
    simp only [Option.bind_eq_bind, Option.some_bind] at h
    cases sv with
    | none =>
      simp only [Option.pure_def, Option.some_bind, Option.some.injEq] at h
      subst h
      have hupd : ∀ y, findService (updateService st v.id (fun x =>
          { x with migrations := [] })) y
          = if y = v.id then (findService st v.id).map (fun x => { x with migrations := [] })
            else findService st y :=
        fun y => findService_update st v.id y (fun x => { x with migrations := [] })
          (fun c => rfl)
      refine ⟨rfl, rfl, rfl, ?_, none, rfl, ?_⟩
      · intro x hx
        rw [hupd, if_neg hx]
      · intro w hw
        rw [hupd, if_pos rfl, hw]
        rfl
    | some σ =>
      obtain ⟨st1, hst1, hpure⟩ := Option.bind_eq_some.mp h
      obtain ⟨p, hmig, hp2⟩ := Option.map_eq_some'.mp hst1
      subst hp2
      have hstA : stA = updateService p.2 v.id (fun x => { x with migrations := [] }) :=
        (Option.some_inj.mp hpure).symm
      subst hstA
      have hupd : ∀ y, findService (updateService p.2 v.id (fun x =>
          { x with migrations := [] })) y
          = if y = v.id then (findService p.2 v.id).map (fun x => { x with migrations := [] })
            else findService p.2 y :=
        fun y => findService_update p.2 v.id y (fun x => { x with migrations := [] })
          (fun c => rfl)
      obtain ⟨htop, husers, hbs, hother, m, hm, hmsrv⟩ :=
        migrate_effects st v.id σ [] p.1 p.2 (by rw [hmig])
      refine ⟨htop, husers, hbs, ?_, some σ, rfl, ?_⟩
      · intro x hx
        rw [hupd, if_neg hx]
        exact hother x hx
      · intro w hw
        rw [hupd, if_pos rfl, hm]
        simp [hmsrv]

theorem restoreServiceFold (snap : Snapshot) :
    ∀ (todo : List Service) (st st1 : State),
    todo.foldlM (restoreServiceStep snap) st = some st1 →
    (todo.map (fun v => v.id)).Nodup →
    st1.topology = st.topology ∧ st1.users = st.users ∧
    st1.base_stations = st.base_stations ∧
    (∀ x, (∀ v ∈ todo, ¬(v.id = x)) → findService st1 x = findService st x) ∧
    (∀ v ∈ todo, ∀ w, findService st v.id = some w →
      ∃ sv, alistGet snap.service_server v.id = some sv ∧
        (findService st1 v.id).map (fun x => (x.server, x.migrations))
          = some ((match sv with | some σ => some σ | none => w.server),
              ([] : List MigrationRecord))) := by
  intro todo
  induction todo with
  | nil =>
    intro st st1 hfold hnd
    have hst : st = st1 := Option.some_inj.mp hfold
    subst hst
    exact ⟨rfl, rfl, rfl, fun x _ => rfl, fun v hv => absurd hv (List.not_mem_nil v)⟩
  | cons v rest ih =>
    intro st st1 hfold hnd
    rw [List.foldlM_cons] at hfold
    obtain ⟨stA, hstep, hrest⟩ := Option.bind_eq_some.mp hfold
    rw [List.map_cons, List.nodup_cons] at hnd
    obtain ⟨hvnotin, hndrest⟩ := hnd
    obtain ⟨htop, husers, hbs, hother, sv, hsv, hmain⟩ :=
      restoreServiceStep_spec snap st stA v hstep
    obtain ⟨htop', husers', hbs', hother', hmain'⟩ := ih stA st1 hrest hndrest
    refine ⟨htop'.trans htop, husers'.trans husers, hbs'.trans hbs, ?_, ?_⟩
    · intro x hx
      have h1 : findService st1 x = findService stA x :=
        hother' x (fun u hu => hx u (List.mem_cons_of_mem v hu))
      rw [h1, hother x (fun h => hx v (List.mem_cons_self v rest) h.symm)]
    · intro u hu w hw
      rcases List.mem_cons.mp hu with rfl | hu'
      · have h1 : findService st1 u.id = findService stA u.id := by
          refine hother' u.id ?_
          intro z hz hzid
          exact hvnotin (hzid ▸ List.mem_map_of_mem (fun q => q.id) hz)
        rw [h1]
        exact ⟨sv, hsv, hmain w hw⟩
      · have hne : ¬(u.id = v.id) := by
          intro hcontra
          exact hvnotin (hcontra ▸ List.mem_map_of_mem (fun q => q.id) hu')
        have hwA : findService stA u.id = some w := by
          rw [hother u.id hne]
          exact hw
        exact hmain' u hu' w hwA

theorem alistGet_map {α κ β : Type} [BEq κ] (key : α → κ) (val : α → β) :
    ∀ (l : List α) (k : κ),
    alistGet (l.map (fun a => (key a, val a))) k
      = (l.find? (fun a => key a == k)).map val := by
  intro l k
  induction l with
  | nil => rfl
  | cons a as ih =>
    rw [List.map_cons]
    unfold alistGet
    cases hk : (key a == k) with
    | true =>
      rw [List.find?_cons_of_pos _ (by exact hk), List.find?_cons_of_pos _ (by exact hk)]
      rfl
    | false =>
      rw [List.find?_cons_of_neg _ (by simp [hk]), List.find?_cons_of_neg _ (by simp [hk])]
      exact ih

theorem find?_key_of_nodup {α κ : Type} [BEq κ] [LawfulBEq κ] (key : α → κ) :
    ∀ (l : List α) (v : α), (l.map key).Nodup → v ∈ l →
    l.find? (fun x => key x == key v) = some v := by
  intro l
  induction l with
  | nil => intro v _ hv; cases hv
  | cons a as ih =>
    intro v hnd hv
    rw [List.map_cons, List.nodup_cons] at hnd
    rcases List.mem_cons.mp hv with rfl | hv'
    · rw [List.find?_cons_of_pos _ (by simp)]
    · have hne : ¬((fun x => key x == key v) a = true) := by
        simp only [beq_iff_eq]
        intro hcontra
        refine hnd.1 ?_
        rw [hcontra]
        exact List.mem_map_of_mem key hv'
      rw [List.find?_cons_of_neg _ (by exact hne)]
      exact ih v hnd.2 hv'

theorem restoreLink_mapM (snap : Snapshot) :
    ∀ (links out : List Link), links.mapM (restoreLink snap) = some out →
    out.map (fun l => ((l.node1, l.node2), some l.bandwidth_demand))
      = links.map (fun l => ((l.node1, l.node2),
          alistGet snap.link_bandwidth_demand (l.node1, l.node2))) := by
  intro links
  induction links with
  | nil =>
    intro out h
    simp only [List.mapM_nil, Option.pure_def, Option.some_inj] at h
    rw [← h]
    rfl
  | cons l ls ih =>
    intro out h
    rw [List.mapM_cons] at h
    cases hbd : alistGet snap.link_bandwidth_demand (l.node1, l.node2) with
    | none =>
      have hstep : restoreLink snap l = none := by
        unfold restoreLink
        rw [hbd]
        rfl
      rw [hstep] at h
      simp at h
    | some bd =>
      have hstep : restoreLink snap l = some { l with bandwidth_demand := bd } := by
        unfold restoreLink
        rw [hbd]
        rfl
      rw [hstep] at h
      cases hrest : ls.mapM (restoreLink snap) with
      | none => rw [hrest] at h; simp at h
      | some outs =>
        rw [hrest] at h
        simp only [Option.pure_def, Option.bind_eq_bind, Option.some_bind,
          Option.some_inj] at h
        rw [← h, List.map_cons, List.map_cons, ih outs hrest, hbd]

theorem linkSnapshotLookup :
    ∀ (s0top links : List Link),
    links.map (fun l => (l.node1, l.node2)) = s0top.map (fun l => (l.node1, l.node2)) →
    (s0top.map (fun l => (l.node1, l.node2))).Nodup →
    links.map (fun l => ((l.node1, l.node2),
        alistGet (s0top.map (fun m => ((m.node1, m.node2), m.bandwidth_demand)))
          (l.node1, l.node2)))
      = s0top.map (fun m => ((m.node1, m.node2), some m.bandwidth_demand)) := by
  intro s0top
  induction s0top with
  | nil =>
    intro links hk _
    cases links with
    | nil => rfl
    | cons a as => simp at hk
  | cons m ms ih =>
    intro links hk hnd
    cases links with
    | nil => simp at hk
    | cons l ls =>
      rw [List.map_cons, List.map_cons] at hk
      injection hk with h1 h2
      rw [List.map_cons, List.nodup_cons] at hnd
      rw [List.map_cons, List.map_cons, List.map_cons]
      congr 1
      · rw [h1]
        unfold alistGet
        rw [List.find?_cons_of_pos _ (by simp)]
        rfl
      · have hstep : ∀ l' ∈ ls, ((l'.node1, l'.node2),
            alistGet (((m.node1, m.node2), m.bandwidth_demand)
              :: ms.map (fun m' => ((m'.node1, m'.node2), m'.bandwidth_demand)))
              (l'.node1, l'.node2))
            = ((l'.node1, l'.node2),
              alistGet (ms.map (fun m' => ((m'.node1, m'.node2), m'.bandwidth_demand)))
                (l'.node1, l'.node2)) := by
          intro l' hl'
          have hkin : (l'.node1, l'.node2) ∈ ms.map (fun m' => (m'.node1, m'.node2)) := by
            rw [← h2]
            exact List.mem_map_of_mem (fun q => (q.node1, q.node2)) hl'
          have hne : ¬(((fun kv => kv.1 == (l'.node1, l'.node2))
              (((m.node1, m.node2), m.bandwidth_demand) : (Nat × Nat) × Rat)) = true) := by
            simp only [beq_iff_eq]
            intro hcontra
            exact hnd.1 (hcontra ▸ hkin)
          unfold alistGet
          rw [List.find?_cons_of_neg _ (by exact hne)]
        rw [List.map_congr_left hstep]
        exact ih ls h2 hnd.2

theorem updateLink_keepKey (g : Net) (u v : Nat) (f : Link → Link)
    (hf : ∀ l, (f l).node1 = l.node1 ∧ (f l).node2 = l.node2 ∧
      (f l).bandwidth_demand = l.bandwidth_demand) :
    (updateLink g u v f).map (fun l => ((l.node1, l.node2), l.bandwidth_demand))
      = g.map (fun l => ((l.node1, l.node2), l.bandwidth_demand)) := by
  unfold updateLink
  rw [List.map_map]
  refine List.map_congr_left ?_
  intro l _
  simp only [Function.comp_apply]
  by_cases h : l.connects u v = true
  · rw [if_pos h]
    obtain ⟨h1, h2, h3⟩ := hf l
    rw [h1, h2, h3]
  · rw [if_neg h]

theorem release_keepKey :
    ∀ (p : List Nat) (g : Net) (app : Nat),
    (release_communication_path g p app).map
        (fun l => ((l.node1, l.node2), l.bandwidth_demand))
      = g.map (fun l => ((l.node1, l.node2), l.bandwidth_demand)) := by
  intro p
  induction p with
  | nil => intro g app; rfl
  | cons u rest ih =>
    intro g app
    cases rest with
    | nil => rfl
    | cons v restTl =>
      show (release_communication_path
          (updateLink g u v (fun l => { l with applications := l.applications.erase app }))
          (v :: restTl) app).map (fun l => ((l.node1, l.node2), l.bandwidth_demand))
        = g.map (fun l => ((l.node1, l.node2), l.bandwidth_demand))
      rw [ih (updateLink g u v
        (fun l => { l with applications := l.applications.erase app })) app]
      exact updateLink_keepKey g u v _ (fun l => ⟨rfl, rfl, rfl⟩)

theorem allocate_keepKey :
    ∀ (p : List Nat) (g : Net) (app : Nat),
    (allocate_communication_path g p app).map
        (fun l => ((l.node1, l.node2), l.bandwidth_demand))
      = g.map (fun l => ((l.node1, l.node2), l.bandwidth_demand)) := by
  intro p
  induction p with
  | nil => intro g app; rfl
  | cons u rest ih =>
    intro g app
    cases rest with
    | nil => rfl
    | cons v restTl =>
      show (allocate_communication_path
          (updateLink g u v (fun l =>
            if l.applications.contains app then l
            else { l with applications := l.applications ++ [app] }))
          (v :: restTl) app).map (fun l => ((l.node1, l.node2), l.bandwidth_demand))
        = g.map (fun l => ((l.node1, l.node2), l.bandwidth_demand))
      rw [ih (updateLink g u v (fun l =>
        if l.applications.contains app then l
        else { l with applications := l.applications ++ [app] })) app]
      refine updateLink_keepKey g u v _ ?_
      intro l
      by_cases hc : l.applications.contains app = true
      · rw [if_pos hc]
        exact ⟨rfl, rfl, rfl⟩
      · rw [if_neg hc]
        exact ⟨rfl, rfl, rfl⟩

theorem find?_map_set_same {κ β : Type} [BEq κ] [LawfulBEq κ] (k : κ) (v : β) :
    ∀ (l : List (κ × β)), (l.find? (fun kv => kv.1 == k)).isSome →
    ((l.map (fun kv => if kv.1 == k then (k, v) else kv)).find?
        (fun kv => kv.1 == k)) = some (k, v) := by
  intro l
  induction l with
  | nil => intro h; simp at h
  | cons kv rest ih =>
    intro h
    rw [List.map_cons]
    by_cases hk : (kv.1 == k) = true
    · rw [if_pos hk]
      rw [List.find?_cons_of_pos _ (by simp)]
    · rw [if_neg hk]
      rw [List.find?_cons_of_neg _ (by exact hk)]
      refine ih ?_
      rw [List.find?_cons_of_neg _ (by exact hk)] at h
      exact h

theorem alistGet_alistSet_same {κ β : Type} [BEq κ] [LawfulBEq κ]
    (l : List (κ × β)) (k : κ) (v : β) :
    alistGet (alistSet l k v) k = some v := by
  unfold alistSet
  by_cases h : (l.find? (fun kv => kv.1 == k)).isSome
  · rw [if_pos h]
    unfold alistGet
    rw [find?_map_set_same k v l h]
    rfl
  · rw [if_neg h]
    unfold alistGet
    rw [List.find?_append, Option.not_isSome_iff_eq_none.mp h]
    simp only [Option.none_or]
    rw [List.find?_singleton]
    simp

theorem find?_map_set_ne {κ β : Type} [BEq κ] [LawfulBEq κ] (k k' : κ) (v : β)
    (hne : ¬(k' = k)) :
    ∀ (l : List (κ × β)),
    ((l.map (fun kv => if kv.1 == k then (k, v) else kv)).find?
        (fun kv => kv.1 == k'))
      = l.find? (fun kv => kv.1 == k') := by
  intro l
  induction l with
  | nil => rfl
  | cons kv rest ih =>
    rw [List.map_cons]
    by_cases hk : (kv.1 == k) = true
    · rw [if_pos hk]
      have hkeq : kv.1 = k := by simpa using hk
      have h1 : ¬(((fun kv2 => kv2.1 == k') ((k, v) : κ × β)) = true) := by
        simp only [beq_iff_eq]
        intro hcontra
        exact hne hcontra.symm
      have h2 : ¬(((fun kv2 => kv2.1 == k') kv) = true) := by
        simp only [beq_iff_eq]
        rw [hkeq]
        intro hcontra
        exact hne hcontra.symm
      rw [List.find?_cons_of_neg _ (by exact h1), List.find?_cons_of_neg _ (by exact h2)]
      exact ih
    · rw [if_neg hk]
      by_cases hk' : (kv.1 == k') = true
      · rw [List.find?_cons_of_pos _ (by exact hk'), List.find?_cons_of_pos _ (by exact hk')]
      · rw [List.find?_cons_of_neg _ (by exact hk'), List.find?_cons_of_neg _ (by exact hk')]
        exact ih

theorem alistGet_alistSet_ne {κ β : Type} [BEq κ] [LawfulBEq κ]
    (l : List (κ × β)) (k k' : κ) (v : β) (hne : ¬(k' = k)) :
    alistGet (alistSet l k v) k' = alistGet l k' := by
  unfold alistSet
  by_cases h : (l.find? (fun kv => kv.1 == k)).isSome
  · rw [if_pos h]
    unfold alistGet
    rw [find?_map_set_ne k k' v hne l]
  · rw [if_neg h]
    unfold alistGet
    rw [List.find?_append]
    rw [List.find?_singleton]
    have h1 : (((k, v) : κ × β).1 == k') = false :=
      beq_false_of_ne (fun hh => hne hh.symm)
    simp [h1]

theorem findUser_update (s : State) (r r' : Nat) (f : User → User)
    (hf : ∀ c, (f c).id = c.id) :
    findUser (updateUser s r f) r' =
      if r' = r then (findUser s r).map f else findUser s r' := by
  unfold findUser updateUser
  exact find?_map_upd (fun c => c.id) s.users r r' f hf

theorem compute_delay_effects (s : State) (uid appId : Nat) (rt : Bool) (r : Rat × State)
    (h : compute_delay s uid appId rt = some r) :
    r.2.services = s.services ∧ r.2.base_stations = s.base_stations ∧
    (∀ x, ¬(x = uid) → findUser r.2 x = findUser s x) ∧
    ((findUser r.2 uid).map (fun x => x.base_station)
      = (findUser s uid).map (fun x => x.base_station)) ∧
    r.2.topology = s.topology ∧
    (findUser s uid).isSome ∧
    (∀ a, (findUser r.2 uid).map (fun x => alistGet x.communication_paths a)
      = (findUser s uid).map (fun x => alistGet x.communication_paths a)) := by
  unfold compute_delay at h
  cases hu : findUser s uid with
  | none => rw [hu] at h; simp at h
  | some u =>
    rw [hu] at h
    simp only [Option.bind_eq_bind, Option.some_bind] at h
    obtain ⟨bsId, hbsId, h⟩ := Option.bind_eq_some.mp h
    obtain ⟨bs, hbs, h⟩ := Option.bind_eq_some.mp h
    obtain ⟨path, hpath, h⟩ := Option.bind_eq_some.mp h
    obtain ⟨pd, hpd, h⟩ := Option.bind_eq_some.mp h
    have hr2 : r.2 = updateUser s uid (fun x =>
        { x with delays := (alistSet x.delays appId (if rt then (bs.wireless_delay + pd) * 2 else bs.wireless_delay + pd)) }) := by
      rw [← Option.some_inj.mp h]
    rw [hr2]
    have hupd : ∀ y, findUser (updateUser s uid (fun x =>
        { x with delays := (alistSet x.delays appId (if rt then (bs.wireless_delay + pd) * 2 else bs.wireless_delay + pd)) })) y
        = if y = uid then (findUser s uid).map (fun x =>
            { x with delays := (alistSet x.delays appId (if rt then (bs.wireless_delay + pd) * 2 else bs.wireless_delay + pd)) })
          else findUser s y :=
      fun y => findUser_update s uid y _ (fun c => rfl)
    refine ⟨rfl, rfl, ?_, ?_, rfl, ?_, ?_⟩
    · intro x hx
      exact (hupd x).trans (if_neg hx)
    · rw [(hupd uid).trans (if_pos rfl), Option.map_map, hu]
      rfl
    · rfl
    · intro a
      rw [(hupd uid).trans (if_pos rfl), Option.map_map, hu]
      rfl

theorem set_comm_tail (st s1 : State) (uid appId : Nat) (st'' : State)
    (path : List Nat)
    (h : ((compute_delay
        { updateUser s1 uid (fun x => { x with communication_paths := alistSet x.communication_paths appId (remove_path_duplicates path) }) with
          topology := allocate_communication_path (updateUser s1 uid (fun x =>
            { x with communication_paths := alistSet x.communication_paths appId (remove_path_duplicates path) })).topology
            (remove_path_duplicates path) appId }
        uid appId false).bind (fun r => pure r.2)) = some st'')
    (hs1svc : s1.services = st.services)
    (hs1bs : s1.base_stations = st.base_stations)
    (hs1usr : s1.users = st.users)
    (hs1bd : s1.topology.map (fun l => ((l.node1, l.node2), l.bandwidth_demand))
      = st.topology.map (fun l => ((l.node1, l.node2), l.bandwidth_demand))) :
    st''.services = st.services ∧ st''.base_stations = st.base_stations ∧
    (∀ x, ¬(x = uid) → findUser st'' x = findUser st x) ∧
    ((findUser st'' uid).map (fun x => x.base_station)
      = (findUser st uid).map (fun x => x.base_station)) ∧
    (st''.topology.map (fun l => ((l.node1, l.node2), l.bandwidth_demand))
      = st.topology.map (fun l => ((l.node1, l.node2), l.bandwidth_demand))) ∧
    (∀ a, ¬(a = appId) →
      (findUser st'' uid).map (fun x => alistGet x.communication_paths a)
        = (findUser st uid).map (fun x => alistGet x.communication_paths a)) ∧
    ((findUser st'' uid).map (fun x => alistGet x.communication_paths appId)
      = some (some (remove_path_duplicates path))) := by
  obtain ⟨r, hr, hpure⟩ := Option.bind_eq_some.mp h
  have hst'' : st'' = r.2 := (Option.some_inj.mp hpure).symm
  subst hst''
  obtain ⟨hsvc2, hbs2, hother2, hproj2, htopo2, hsome2, hcp2⟩ :=
    compute_delay_effects _ uid appId false r hr
  have hs1find : ∀ y, findUser s1 y = findUser st y := by
    intro y
    unfold findUser
    rw [hs1usr]
  have hupd : ∀ y, findUser { updateUser s1 uid (fun x =>
      { x with communication_paths := alistSet x.communication_paths appId (remove_path_duplicates path) }) with
      topology := allocate_communication_path (updateUser s1 uid (fun x =>
        { x with communication_paths := alistSet x.communication_paths appId (remove_path_duplicates path) })).topology
        (remove_path_duplicates path) appId } y
      = if y = uid then (findUser s1 uid).map (fun x =>
          { x with communication_paths := alistSet x.communication_paths appId (remove_path_duplicates path) })
        else findUser s1 y :=
    fun y => findUser_update s1 uid y _ (fun c => rfl)
  have hbig : findUser { updateUser s1 uid (fun x =>
      { x with communication_paths := alistSet x.communication_paths appId (remove_path_duplicates path) }) with
      topology := allocate_communication_path (updateUser s1 uid (fun x =>
        { x with communication_paths := alistSet x.communication_paths appId (remove_path_duplicates path) })).topology
        (remove_path_duplicates path) appId } uid
      = (findUser st uid).map (fun x =>
          { x with communication_paths := alistSet x.communication_paths appId (remove_path_duplicates path) }) := by
    rw [(hupd uid).trans (if_pos rfl), hs1find uid]
  cases hw : findUser st uid with
  | none =>
    exfalso
    rw [hbig, hw] at hsome2
    simp at hsome2
  | some w =>
    have hbigw : findUser { updateUser s1 uid (fun x =>
        { x with communication_paths := alistSet x.communication_paths appId (remove_path_duplicates path) }) with
        topology := allocate_communication_path (updateUser s1 uid (fun x =>
          { x with communication_paths := alistSet x.communication_paths appId (remove_path_duplicates path) })).topology
          (remove_path_duplicates path) appId } uid
        = some { w with communication_paths := alistSet w.communication_paths appId (remove_path_duplicates path) } := by
      rw [hbig, hw]
      rfl
    refine ⟨?_, ?_, ?_, ?_, ?_, ?_, ?_⟩
    · rw [hsvc2]
      exact hs1svc
    · rw [hbs2]
      exact hs1bs
    · intro x hx
      rw [hother2 x hx, hupd, if_neg hx]
      exact hs1find x
    · rw [hproj2, hbigw]
      rfl
    · rw [htopo2]
      exact (allocate_keepKey (remove_path_duplicates path) (updateUser s1 uid (fun x =>
        { x with communication_paths := alistSet x.communication_paths appId (remove_path_duplicates path) })).topology
        appId).trans hs1bd
    · intro a ha
      rw [hcp2 a, hbigw]
      show some (alistGet (alistSet w.communication_paths appId (remove_path_duplicates path)) a)
        = some (alistGet w.communication_paths a)
      rw [alistGet_alistSet_ne w.communication_paths appId a (remove_path_duplicates path) ha]
    · rw [hcp2 appId, hbigw]
      show some (alistGet (alistSet w.communication_paths appId (remove_path_duplicates path)) appId)
        = some (some (remove_path_duplicates path))
      rw [alistGet_alistSet_same w.communication_paths appId (remove_path_duplicates path)]

theorem set_comm_effects (st : State) (uid appId : Nat) (given : List Nat) (st'' : State)
    (h : set_communication_path st uid appId given = some st'') :
    st''.services = st.services ∧ st''.base_stations = st.base_stations ∧
    (∀ x, ¬(x = uid) → findUser st'' x = findUser st x) ∧
    ((findUser st'' uid).map (fun x => x.base_station)
      = (findUser st uid).map (fun x => x.base_station)) ∧
    (st''.topology.map (fun l => ((l.node1, l.node2), l.bandwidth_demand))
      = st.topology.map (fun l => ((l.node1, l.node2), l.bandwidth_demand))) ∧
    (∀ a, ¬(a = appId) →
      (findUser st'' uid).map (fun x => alistGet x.communication_paths a)
        = (findUser st uid).map (fun x => alistGet x.communication_paths a)) ∧
    (0 < given.length →
      (findUser st'' uid).map (fun x => alistGet x.communication_paths appId)
        = some (some (remove_path_duplicates given))) := by
  unfold set_communication_path at h
  cases hu : findUser st uid with
  | none => rw [hu] at h; simp at h
  | some u =>
    rw [hu] at h
    simp only [Option.bind_eq_bind, Option.some_bind] at h
    by_cases hlen : given.length > 0
    · rw [if_pos hlen] at h
      simp only [Option.pure_def, Option.some_bind] at h
      have hres := set_comm_tail st _ uid appId st'' given h
        (by cases alistGet u.communication_paths appId <;> rfl)
        (by cases alistGet u.communication_paths appId <;> rfl)
        (by cases alistGet u.communication_paths appId <;> rfl)
        (by cases alistGet u.communication_paths appId with
          | none => rfl
          | some old => exact release_keepKey old st.topology appId)
      rw [hu] at hres
      exact ⟨hres.1, hres.2.1, hres.2.2.1, hres.2.2.2.1, hres.2.2.2.2.1,
        hres.2.2.2.2.2.1, fun hg => hres.2.2.2.2.2.2⟩
    · rw [if_neg hlen] at h
      obtain ⟨app, happ, h⟩ := Option.bind_eq_some.mp h
      obtain ⟨path, hpath, h⟩ := Option.bind_eq_some.mp h
      have hres := set_comm_tail st _ uid appId st'' path h
        (by cases alistGet u.communication_paths appId <;> rfl)
        (by cases alistGet u.communication_paths appId <;> rfl)
        (by cases alistGet u.communication_paths appId <;> rfl)
        (by cases alistGet u.communication_paths appId with
          | none => rfl
          | some old => exact release_keepKey old st.topology appId)
      rw [hu] at hres
      exact ⟨hres.1, hres.2.1, hres.2.2.1, hres.2.2.2.1, hres.2.2.2.2.1,
        hres.2.2.2.2.2.1, fun hg => absurd hg hlen⟩

theorem appsFoldPaths (uid : Nat) (pl : List (Nat × List Nat)) :
    ∀ (apps : List Nat) (st stF : State),
    apps.foldlM (fun st' appId => do
        let p ← alistGet pl appId
        set_communication_path st' uid appId p) st = some stF →
    ∀ aid p, aid ∈ apps → alistGet pl aid = some p → 0 < p.length →
      (findUser stF uid).map (fun x => alistGet x.communication_paths aid)
        = some (some (remove_path_duplicates p)) := by
  intro apps
  induction apps with
  | nil =>
    intro st stF hfold aid p haid hp hlen
    exact absurd haid (List.not_mem_nil aid)
  | cons b rest ih =>
    intro st stF hfold aid p haid hp hlen
    rw [List.foldlM_cons] at hfold
    obtain ⟨stB, hstep, hrest⟩ := Option.bind_eq_some.mp hfold
    cases List.mem_cons.mp haid with
    | inl heq =>
      obtain ⟨pb, hpb, hsc⟩ := Option.bind_eq_some.mp hstep
      have hpB : alistGet pl b = some p := by
        rw [← heq]
        exact hp
      have hpbp : pb = p := Option.some_inj.mp (hpb.symm.trans hpB)
      have hlenb : 0 < pb.length := by
        rw [hpbp]
        exact hlen
      rw [heq, ← hpbp]
      have hQB : (findUser stB uid).map (fun x => alistGet x.communication_paths b)
          = some (some (remove_path_duplicates pb)) :=
        (set_comm_effects st uid b pb stB hsc).2.2.2.2.2.2 hlenb
      refine foldlM_preserves (fun st' =>
          (findUser st' uid).map (fun x => alistGet x.communication_paths b)
            = some (some (remove_path_duplicates pb)))
        (fun st' appId => do
          let q ← alistGet pl appId
          set_communication_path st' uid appId q)
        ?_ rest stB stF hrest hQB
      intro st1 bb st2 hstep2 hQ
      obtain ⟨q, hq, hsc2⟩ := Option.bind_eq_some.mp hstep2
      by_cases hbb : bb = b
      · have hquniq : q = pb := by
          refine Option.some_inj.mp (hq.symm.trans ?_)
          rw [hbb, hpb]
        have hlenq : 0 < q.length := by
          rw [hquniq]
          exact hlenb
        have hown := (set_comm_effects st1 uid bb q st2 hsc2).2.2.2.2.2.2 hlenq
        rw [hbb] at hown
        rw [hown, hquniq]
      · have hne : ¬(b = bb) := fun hc => hbb hc.symm
        rw [(set_comm_effects st1 uid bb q st2 hsc2).2.2.2.2.2.1 b hne]
        exact hQ
    | inr haid' => exact ih stB stF hrest aid p haid' hp hlen

theorem restoreUserStep_spec (snap : Snapshot) (st stA : State) (u : User)
    (h : restoreUserStep snap st u = some stA) :
    stA.services = st.services ∧
    (∀ x, ¬(x = u.id) → findUser stA x = findUser st x) ∧
    (∃ bsId, alistGet snap.user_base_station u.id = some (some bsId) ∧
      ∀ w, findUser st u.id = some w →
        (findUser stA u.id).map (fun x => x.base_station) = some (some bsId)) ∧
    (stA.topology.map (fun l => ((l.node1, l.node2), l.bandwidth_demand))
      = st.topology.map (fun l => ((l.node1, l.node2), l.bandwidth_demand))) ∧
    (∃ pl, alistGet snap.user_communication_paths u.id = some pl ∧
      ∀ aid p, aid ∈ u.applications → alistGet pl aid = some p → 0 < p.length →
        (findUser stA u.id).map (fun x => alistGet x.communication_paths aid)
          = some (some (remove_path_duplicates p))) := by
  unfold restoreUserStep at h
  cases hc0 : u.coordinates_trace.head? with
  | none => rw [hc0] at h; simp at h
  | some c0 =>
    rw [hc0] at h
    simp only [Option.bind_eq_bind, Option.some_bind] at h
    cases hbs : alistGet snap.user_base_station u.id with
    | none => rw [hbs] at h; simp at h
    | some bs =>
      rw [hbs] at h
      simp only [Option.some_bind] at h
      cases bs with
      | none => simp at h
      | some bsId =>
        simp only [Option.some_bind] at h
        obtain ⟨paths, hpaths, h⟩ := Option.bind_eq_some.mp h
        have hst2svc : (updateBaseStation (updateUser st u.id (fun x =>
            { x with coordinates := some c0, base_station := some bsId })) bsId
            (fun b => { b with users := b.users ++ [u.id] })).services = st.services := rfl
        have hst2other : ∀ x, ¬(x = u.id) →
            findUser (updateBaseStation (updateUser st u.id (fun x =>
              { x with coordinates := some c0, base_station := some bsId })) bsId
              (fun b => { b with users := b.users ++ [u.id] })) x = findUser st x := by
          intro x hx
          have hupd := findUser_update st u.id x (fun x =>
            { x with coordinates := some c0, base_station := some bsId }) (fun c => rfl)
          rw [if_neg hx] at hupd
          exact hupd
        have hst2proj : ∀ w, findUser st u.id = some w →
            (findUser (updateBaseStation (updateUser st u.id (fun x =>
              { x with coordinates := some c0, base_station := some bsId })) bsId
              (fun b => { b with users := b.users ++ [u.id] })) u.id).map
              (fun x => x.base_station) = some (some bsId) := by
          intro w hw
          have hupd := findUser_update st u.id u.id (fun x =>
            { x with coordinates := some c0, base_station := some bsId }) (fun c => rfl)
          rw [if_pos rfl, hw] at hupd
          have : findUser (updateBaseStation (updateUser st u.id (fun x =>
              { x with coordinates := some c0, base_station := some bsId })) bsId
              (fun b => { b with users := b.users ++ [u.id] })) u.id
              = some { w with coordinates := some c0, base_station := some bsId } := hupd
          rw [this]
          rfl
        have hpres := foldlM_preserves (fun st' =>
            st'.services = st.services ∧
            (∀ x, ¬(x = u.id) → findUser st' x = findUser st x) ∧
            ((findUser st' u.id).map (fun x => x.base_station)
              = (findUser (updateBaseStation (updateUser st u.id (fun x =>
                { x with coordinates := some c0, base_station := some bsId })) bsId
                (fun b => { b with users := b.users ++ [u.id] })) u.id).map
                (fun x => x.base_station)) ∧
            (st'.topology.map (fun l => ((l.node1, l.node2), l.bandwidth_demand))
              = st.topology.map (fun l => ((l.node1, l.node2), l.bandwidth_demand))))
          (fun st' appId => do
            let p ← alistGet paths appId
            set_communication_path st' u.id appId p)
          ?step u.applications _ stA h ?init
        case step =>
          intro st' appId st''2 hstep hP
          obtain ⟨p, hp, hsc⟩ := Option.bind_eq_some.mp hstep
          obtain ⟨hsvc', hbs', hother', hproj', htopo', hoapp', hown'⟩ :=
            set_comm_effects st' u.id appId p st''2 hsc
          refine ⟨hsvc'.trans hP.1, ?_, hproj'.trans hP.2.2.1, htopo'.trans hP.2.2.2⟩
          intro x hx
          rw [hother' x hx]
          exact hP.2.1 x hx
        case init =>
          exact ⟨rfl, hst2other, rfl, rfl⟩
        refine ⟨hpres.1, ?_, ⟨bsId, rfl, ?_⟩, hpres.2.2.2, ⟨paths, hpaths, ?_⟩⟩
        · intro x hx
          exact hpres.2.1 x hx
        · intro w hw
          rw [hpres.2.2.1]
          exact hst2proj w hw
        · exact appsFoldPaths u.id paths u.applications _ stA h

theorem restoreUserFold (snap : Snapshot) :
    ∀ (todo : List User) (st st1 : State),
    todo.foldlM (restoreUserStep snap) st = some st1 →
    (todo.map (fun u => u.id)).Nodup →
    st1.services = st.services ∧
    (∀ x, (∀ u ∈ todo, ¬(u.id = x)) → findUser st1 x = findUser st x) ∧
    (∀ u ∈ todo, ∀ w, findUser st u.id = some w →
      ∃ bsId, alistGet snap.user_base_station u.id = some (some bsId) ∧
        (findUser st1 u.id).map (fun x => x.base_station) = some (some bsId)) ∧
    (∀ u ∈ todo, ∃ pl, alistGet snap.user_communication_paths u.id = some pl ∧
      ∀ aid p, aid ∈ u.applications → alistGet pl aid = some p → 0 < p.length →
        (findUser st1 u.id).map (fun x => alistGet x.communication_paths aid)
          = some (some (remove_path_duplicates p))) := by
  intro todo
  induction todo with
  | nil =>
    intro st st1 hfold hnd
    have hst : st = st1 := Option.some_inj.mp hfold
    subst hst
    exact ⟨rfl, fun x _ => rfl, fun u hu => absurd hu (List.not_mem_nil u),
      fun u hu => absurd hu (List.not_mem_nil u)⟩
  | cons u rest ih =>
    intro st st1 hfold hnd
    rw [List.foldlM_cons] at hfold
    obtain ⟨stA, hstep, hrest⟩ := Option.bind_eq_some.mp hfold
    rw [List.map_cons, List.nodup_cons] at hnd
    obtain ⟨hunotin, hndrest⟩ := hnd
    obtain ⟨hsvc, hother, ⟨bsId, hbs, hmain⟩, htopoA, ⟨pl, hpl, hplmain⟩⟩ :=
      restoreUserStep_spec snap st stA u hstep
    obtain ⟨hsvc', hother', hmain', hpaths'⟩ := ih stA st1 hrest hndrest
    refine ⟨hsvc'.trans hsvc, ?_, ?_, ?_⟩
    · intro x hx
      have h1 : findUser st1 x = findUser stA x :=
        hother' x (fun z hz => hx z (List.mem_cons_of_mem u hz))
      rw [h1, hother x (fun h => hx u (List.mem_cons_self u rest) h.symm)]
    · intro z hz w hw
      rcases List.mem_cons.mp hz with rfl | hz'
      · have h1 : findUser st1 z.id = findUser stA z.id := by
          refine hother' z.id ?_
          intro q hq hqid
          exact hunotin (hqid ▸ List.mem_map_of_mem (fun n => n.id) hq)
        rw [h1]
        exact ⟨bsId, hbs, hmain w hw⟩
      · have hne : ¬(z.id = u.id) := by
          intro hcontra
          exact hunotin (hcontra ▸ List.mem_map_of_mem (fun n => n.id) hz')
        have hwA : findUser stA z.id = some w := by
          rw [hother z.id hne]
          exact hw
        exact hmain' z hz' w hwA
    · intro z hz
      rcases List.mem_cons.mp hz with rfl | hz'
      · refine ⟨pl, hpl, ?_⟩
        intro aid p haid hp hlen
        have h1 : findUser st1 z.id = findUser stA z.id := by
          refine hother' z.id ?_
          intro q hq hqid
          exact hunotin (hqid ▸ List.mem_map_of_mem (fun n => n.id) hq)
        rw [h1]
        exact hplmain aid p haid hp hlen
      · exact hpaths' z hz'

/-! ## Claim theorems -/

/-- Claim C1: for every service and target server, `get_migration_time`
returns the sum, over the service's layer names, of the minimum over all
container images with that name of the candidate migration time; a
candidate's time is 0 when its registry's server's base station equals the
target's base station and otherwise `(image.size / minBandwidth) * hops`
along the bandwidth-weighted Dijkstra path; in particular, on the S4 scenario
(layers [A, B] with one image each of sizes 8 and 12, a 3-hop path of minimum
bandwidth 4) the result is `(8/4)*3 + (12/4)*3 = 15`. -/
theorem get_migration_time_formula :
    (∀ s target im, candidateMigrationTime s target im = claimCandidateTime s target im) ∧
    (∀ s target layerName ts, ts ≠ [] →
      ((imagesAll s).filter (fun im => im.name == layerName)).mapM
          (candidateMigrationTime s target) = some ts →
      ∃ t, layerMigrationTime s target layerName = some t ∧ t ∈ ts ∧ ∀ u ∈ ts, t ≤ u) ∧
    (∀ s svc target ts, svc.layers.mapM (layerMigrationTime s target) = some ts →
      get_migration_time s svc target = some ts.sum) ∧
    (shortest_path (fun l => l.bandwidth) s4Net 1 4 = some [1, 2, 3, 4] ∧
      pathMinBandwidth s4Net [1, 2, 3, 4] = some 4 ∧
      get_migration_time s4State s4Service s4Target = some 15) := by
  refine ⟨candidateMigrationTime_eq_claim, ?_, ?_, by with_unfolding_all decide, by with_unfolding_all decide, by with_unfolding_all decide⟩
  · intro s target layerName ts hne hmap
    have hsome := firstMinBy_isSome (id : Rat → Rat) ts hne
    obtain ⟨t, ht⟩ := Option.isSome_iff_exists.mp hsome
    obtain ⟨hmem, hmin⟩ := firstMinBy_spec (id : Rat → Rat) ts t ht
    refine ⟨t, ?_, hmem, hmin⟩
    unfold layerMigrationTime
    simp only [hmap, Option.bind_eq_bind, Option.some_bind]
    exact ht
  · intro s svc target ts hmap
    unfold get_migration_time
    rw [hmap]
    rfl

/-- Witness for C1: the general parts instantiated on the S4 scenario, where
layer "A" costs 6, layer "B" costs 9, and the total is 15. -/
theorem get_migration_time_formula_witness :
    (∃ t, layerMigrationTime s4State s4Target "A" = some t ∧
      t ∈ [(6 : Rat)] ∧ ∀ u ∈ [(6 : Rat)], t ≤ u) ∧
    get_migration_time s4State s4Service s4Target = some ([(6 : Rat), 9]).sum :=
  ⟨get_migration_time_formula.2.1 s4State s4Target "A" [6] (by decide)
      (by with_unfolding_all decide),
   get_migration_time_formula.2.2.1 s4State s4Service s4Target [6, 9]
      (by with_unfolding_all decide)⟩

/-- Claim C3 (code bug): on `coordState`, no base station shares the user's
coordinates, yet `get_closest_base_stations` returns the singleton `[None]`
rather than falling back to the euclidean-nearest base station (station 2):
the fallback branch guards on the literal singleton having length zero, which
never holds, contradicting the function's own docstring ("returns all base
stations sorted by their distance (euclidean) to the user") and the spec. -/
theorem get_closest_base_stations_code_bug :
    get_closest_base_stations coordState coordUser = [none] ∧
    (∀ b ∈ coordState.base_stations, some b.coordinates ≠ coordUser.coordinates) ∧
    (∃ b, firstMinBy (fun b => sqDist (5, 5) b.coordinates) coordState.base_stations = some b ∧
      b.id = 2) ∧
    (get_closest_base_stations coordState coordUser).head? ≠
      some (some 2) := by
  refine ⟨by with_unfolding_all decide, by decide,
    ⟨{ id := 2, coordinates := (1, 1), wireless_delay := 1, users := [] },
      by with_unfolding_all decide, rfl⟩, by with_unfolding_all decide⟩

/-- Claim C10: `Service.migrate` never uses its `path` parameter: provided
the dead shortest-path computation that runs for an empty `path` argument
succeeds (it always does when the service has no current server), any two
`path` arguments produce the same returned migration time and the same
resulting state. -/
theorem migrate_ignores_path :
    ∀ s svcId targetId (p₁ p₂ : List Nat) svc target,
      findService s svcId = some svc →
      findServer s targetId = some target →
      (∀ originId, svc.server = some originId →
        ∃ origin, findServer s originId = some origin ∧
          (shortest_path (fun l => l.bandwidth) s.topology origin.base_station
            target.base_station).isSome) →
      migrate s svcId targetId p₁ = migrate s svcId targetId p₂ := by
  intro s svcId targetId p₁ p₂ svc target hsvc htgt hdead
  unfold migrate
  rw [hsvc, htgt]
  have key : ∀ p : List Nat, deadPathProbe s target svc.server p = some () := by
    intro p
    cases hs : svc.server with
    | none => cases p <;> rfl
    | some originId =>
      cases p with
      | nil =>
        obtain ⟨origin, ho, hsp⟩ := hdead originId hs
        obtain ⟨q, hq⟩ := Option.isSome_iff_exists.mp hsp
        simp [deadPathProbe, ho, hq]
      | cons a as => rfl
  simp only [Option.bind_eq_bind, Option.some_bind, key p₁, key p₂]

/-- Claim C5: after `removing_farthest_container_registries` returns, the
remaining registries carry the ids `1..N` contiguously in collection order,
and the remaining container images are likewise renumbered contiguously from
1, for every starting configuration with well-formed collections. -/
theorem removing_farthest_renumbers_ids :
    ∀ s s', registryStoreWF s → imageStoreWF s →
      removing_farthest_container_registries s = some s' →
      (registriesAll s').map (fun r => r.id)
          = (List.range (registriesAll s').length).map (fun i => i + 1) ∧
      (imagesAll s').map (fun im => im.id)
          = (List.range (imagesAll s').length).map (fun i => i + 1) := by
  intro s s' hreg himg h
  unfold removing_farthest_container_registries at h
  cases hclosest : closestRegistryRefs s with
  | none =>
    rw [hclosest] at h
    cases h
  | some closest =>
    rw [hclosest] at h
    simp only [Option.bind_eq_bind, Option.some_bind] at h
    obtain ⟨s1, hfold, hpure⟩ := Option.bind_eq_some.mp h
    have hs' : s' = renumberImages (renumberRegistries s1) :=
      (Option.some_inj.mp hpure).symm
    have hwf1 : registryStoreWF s1 ∧ imageStoreWF s1 :=
      foldlM_preserves (fun st => registryStoreWF st ∧ imageStoreWF st)
        (fun st r => deprovisionRegistry st r)
        (fun st r st' hstep hP => deprovisionRegistry_preserves_WF st r st' hstep hP)
        _ s s1 hfold ⟨hreg, himg⟩
    subst hs'
    constructor
    · have hcongr : registriesAll (renumberImages (renumberRegistries s1))
          = registriesAll (renumberRegistries s1) :=
        registriesAll_congr _ _ (renumberImages_registry_fields (renumberRegistries s1)).1
          (renumberImages_registry_fields (renumberRegistries s1)).2
      rw [hcongr, registriesAll_renumberRegistries s1 hwf1.1, enum_setId_ids_reg]
      have hlen : ((registriesAll s1).enum.map
          (fun p => ({ p.2 with id := p.1 + 1 } : ContainerRegistry))).length
          = (registriesAll s1).length := by
        rw [List.length_map, List.enum_length]
      rw [hlen]
    · have himgwf : imageStoreWF (renumberRegistries s1) :=
        imageStoreWF_of_fields _ s1 (renumberRegistries_image_fields s1).1
          (renumberRegistries_image_fields s1).2 hwf1.2
      rw [imagesAll_renumberImages _ himgwf, enum_setId_ids_img]
      have hlen : ((imagesAll (renumberRegistries s1)).enum.map
          (fun p => ({ p.2 with id := p.1 + 1 } : ContainerImage))).length
          = (imagesAll (renumberRegistries s1)).length := by
        rw [List.length_map, List.enum_length]
      rw [hlen]

/-- Witness for C5: the culling scenario starts with 5 registries, the call
succeeds (deprovisioning 2 of them), and the survivors and their images are
renumbered contiguously from 1. -/
theorem removing_farthest_renumbers_ids_witness :
    ∃ s', removing_farthest_container_registries cullState = some s' ∧
      ((registriesAll s').map (fun r => r.id)
          = (List.range (registriesAll s').length).map (fun i => i + 1) ∧
        (imagesAll s').map (fun im => im.id)
          = (List.range (imagesAll s').length).map (fun i => i + 1)) := by
  have hsome : (removing_farthest_container_registries cullState).isSome := by
    with_unfolding_all decide
  obtain ⟨s', hs'⟩ := Option.isSome_iff_exists.mp hsome
  exact ⟨s', hs', removing_farthest_renumbers_ids cullState s'
    (by unfold registryStoreWF; exact ⟨by decide, by with_unfolding_all decide⟩)
    (by unfold imageStoreWF; exact ⟨by decide, by with_unfolding_all decide⟩) hs'⟩

/-- Claim C9: whenever at least one user exists and the collections are well
formed, a successful `removing_farthest_container_registries` never
deprovisions every registry: each user marks a closest registry, and at least
one registry remains in the collection afterwards. -/
theorem removing_farthest_keeps_registry :
    ∀ s s', registryStoreWF s → imageStoreWF s → s.users ≠ [] →
      removing_farthest_container_registries s = some s' →
      (∀ u ∈ s.users, ∃ creg, closestRegistryForUser s u = some creg) ∧
      registriesAll s' ≠ [] ∧ s'.registry_instances ≠ [] := by
  intro s s' hreg himg hne h
  unfold removing_farthest_container_registries at h
  cases hclosest : closestRegistryRefs s with
  | none =>
    rw [hclosest] at h
    cases h
  | some closest =>
    rw [hclosest] at h
    simp only [Option.bind_eq_bind, Option.some_bind] at h
    obtain ⟨s1, hfold, hpure⟩ := Option.bind_eq_some.mp h
    have hs' : s' = renumberImages (renumberRegistries s1) :=
      (Option.some_inj.mp hpure).symm
    have hcfold := hclosest
    unfold closestRegistryRefs at hcfold
    have heach := markFold_each s s.users [] closest hcfold
    refine ⟨heach, ?_⟩
    -- the first user's marked registry survives
    cases husers : s.users with
    | nil => exact absurd husers hne
    | cons u us =>
      rw [husers] at hcfold
      obtain ⟨creg, hcreg⟩ := heach u (husers ▸ List.mem_cons_self u us)
      rw [List.foldlM_cons] at hcfold
      simp only [Option.bind_eq_bind] at hcfold
      rw [hcreg] at hcfold
      simp only [Option.some_bind, Option.pure_def, Option.some_bind] at hcfold
      have hstep1 : (if ([] : List Nat).contains creg.ref then ([] : List Nat)
          else [] ++ [creg.ref]) = [creg.ref] := by simp
      rw [hstep1] at hcfold
      have hmark : creg.ref ∈ closest :=
        markFold_mono s us [creg.ref] closest hcfold creg.ref
          (List.mem_singleton_self creg.ref)
      have hmem : creg ∈ registriesAll s := closestRegistryForUser_mem s u creg hcreg
      have hinst : creg.ref ∈ s.registry_instances := by
        obtain ⟨ref, hrefmem, hfind⟩ := List.mem_filterMap.mp hmem
        rw [findRegistryRef_ref s ref creg hfind]
        exact hrefmem
      -- the deprovisioning fold never erases a marked ref
      have hsurv : creg.ref ∈ s1.registry_instances := by
        refine foldlM_preserves_mem (fun st => creg.ref ∈ st.registry_instances)
          (fun st r => deprovisionRegistry st r)
          ((registriesAll s).filter (fun r => ¬ closest.contains r.ref))
          ?_ s s1 hfold hinst
        intro st r st' hrmem hstep hP
        obtain ⟨_, hinst', _, _⟩ := deprovisionRegistry_fields st r st' hstep
        rw [hinst']
        have hrnot : ¬ closest.contains r.ref := by
          have := List.of_mem_filter hrmem
          simpa using this
        have hne2 : creg.ref ≠ r.ref := by
          intro hh
          exact hrnot (hh ▸ List.elem_iff.mpr hmark)
        exact (List.mem_erase_of_ne hne2).mpr hP
      have hwf1 : registryStoreWF s1 ∧ imageStoreWF s1 :=
        foldlM_preserves (fun st => registryStoreWF st ∧ imageStoreWF st)
          (fun st r => deprovisionRegistry st r)
          (fun st r st' hstep hP => deprovisionRegistry_preserves_WF st r st' hstep hP)
          _ s s1 hfold ⟨hreg, himg⟩
      have hall1 : registriesAll s1 ≠ [] := by
        obtain ⟨c1, hc1⟩ := Option.isSome_iff_exists.mp (hwf1.1.2 creg.ref hsurv)
        exact List.ne_nil_of_mem (List.mem_filterMap.mpr ⟨creg.ref, hsurv, hc1⟩)
      have hinstkeep : s'.registry_instances = s1.registry_instances := by
        rw [hs', (renumberImages_registry_fields (renumberRegistries s1)).2,
          renumberRegistries_instances]
      constructor
      · have heq : registriesAll s'
            = (registriesAll s1).enum.map (fun p => { p.2 with id := p.1 + 1 }) := by
          rw [hs', registriesAll_congr _ (renumberRegistries s1)
            (renumberImages_registry_fields (renumberRegistries s1)).1
            (renumberImages_registry_fields (renumberRegistries s1)).2,
            registriesAll_renumberRegistries s1 hwf1.1]
        intro hnil
        rw [heq] at hnil
        have := List.map_eq_nil_iff.mp hnil
        rw [List.enum_eq_nil] at this
        exact hall1 this
      · rw [hinstkeep]
        intro hnil
        rw [hnil] at hsurv
        cases hsurv

/-- Witness for C9: the culling scenario has three users; the call succeeds
and at least one registry survives. -/
theorem removing_farthest_keeps_registry_witness :
    ∃ s', removing_farthest_container_registries cullState = some s' ∧
      ((∀ u ∈ cullState.users, ∃ creg, closestRegistryForUser cullState u = some creg) ∧
        registriesAll s' ≠ [] ∧ s'.registry_instances ≠ []) := by
  have hsome : (removing_farthest_container_registries cullState).isSome := by
    with_unfolding_all decide
  obtain ⟨s', hs'⟩ := Option.isSome_iff_exists.mp hsome
  exact ⟨s', hs', removing_farthest_keeps_registry cullState s'
    (by unfold registryStoreWF; exact ⟨by decide, by with_unfolding_all decide⟩)
    (by unfold imageStoreWF; exact ⟨by decide, by with_unfolding_all decide⟩)
    (by decide) hs'⟩

theorem map_ref_filter (p : Nat → Bool) :
    ∀ (l : List ContainerRegistry),
    ((l.filter (fun r => p r.ref)).map (fun r => r.ref))
      = (l.map (fun r => r.ref)).filter p := by
  intro l
  induction l with
  | nil => rfl
  | cons r rest ih =>
    by_cases hp : p r.ref
    · rw [List.filter_cons_of_pos (by simpa using hp), List.map_cons, List.map_cons,
        List.filter_cons_of_pos (by simpa using hp), ih]
    · rw [List.filter_cons_of_neg (by simpa using hp), List.map_cons,
        List.filter_cons_of_neg (by simpa using hp), ih]

/-- Claim C6: `removing_farthest_container_registries` marks, for each user,
exactly the first registry (in collection order) whose `1/bandwidth`-weighted
path to the user has the highest minimum bandwidth (single-node paths scoring
infinite bandwidth), and deprovisions precisely the registries marked by no
user: the survivors, in collection order, are the marked registries, and each
deprovisioned registry has its demand subtracted from its server, is dropped
from the server's registry list, gets its server reference cleared, and has
its images removed from the image collection. -/
theorem removing_farthest_spec :
    ∀ s closest s',
      registryStoreWF s → imageStoreWF s →
      closestRegistryRefs s = some closest →
      removing_farthest_container_registries s = some s' →
      (∀ u ∈ s.users, ∃ creg, closestRegistryForUser s u = some creg ∧ creg.ref ∈ closest ∧
        ∃ ubs scored best, u.base_station = some ubs ∧
          (registriesAll s).mapM
            (fun r => (registryUserBandwidth s r ubs).map (fun bw => (r, bw)))
            = some scored ∧
          firstMaxBy (fun rb => rb.2) scored = some best ∧ best.1 = creg ∧
          (∀ y ∈ scored, y.2 ≤ best.2) ∧
          (∃ l₁ l₂, scored = l₁ ++ best :: l₂ ∧ ∀ y ∈ l₁, y.2 < best.2)) ∧
      (∀ x ∈ closest, ∃ u ∈ s.users, ∃ creg,
        closestRegistryForUser s u = some creg ∧ creg.ref = x) ∧
      ((registriesAll s').map (fun r => r.ref)
          = ((registriesAll s).filter (fun r => closest.contains r.ref)).map
              (fun r => r.ref)) ∧
      (∃ s1, ((registriesAll s).filter (fun r => ¬ closest.contains r.ref)).foldlM
            (fun st r => deprovisionRegistry st r) s = some s1 ∧
        s' = renumberImages (renumberRegistries s1)) ∧
      (∀ st (r : ContainerRegistry) serverId st', r.server = some serverId →
        deprovisionRegistry st r = some st' →
        st'.edge_servers = st.edge_servers.map (fun e => if e.id = serverId then
            { e with demand := e.demand - registryDemand st r,
                     container_registries := e.container_registries.erase r.ref } else e) ∧
        (∀ r', findRegistryRef st' r.ref = some r' → r'.server = none) ∧
        st'.registry_instances = st.registry_instances.erase r.ref ∧
        st'.image_instances
          = r.images.foldl (fun acc i => acc.erase i) st.image_instances) := by
  intro s closest s' hreg himg hclosest h
  unfold removing_farthest_container_registries at h
  rw [hclosest] at h
  simp only [Option.bind_eq_bind, Option.some_bind] at h
  obtain ⟨s1, hfold, hpure⟩ := Option.bind_eq_some.mp h
  have hs' : s' = renumberImages (renumberRegistries s1) :=
    (Option.some_inj.mp hpure).symm
  have hcfold := hclosest
  unfold closestRegistryRefs at hcfold
  have hwf1 : registryStoreWF s1 ∧ imageStoreWF s1 :=
    foldlM_preserves (fun st => registryStoreWF st ∧ imageStoreWF st)
      (fun st r => deprovisionRegistry st r)
      (fun st r st' hstep hP => deprovisionRegistry_preserves_WF st r st' hstep hP)
      _ s s1 hfold ⟨hreg, himg⟩
  refine ⟨?_, ?_, ?_, ⟨s1, hfold, hs'⟩, ?_⟩
  · -- (i) per-user marking characterisation
    intro u hu
    obtain ⟨creg, hcreg⟩ := markFold_each s s.users [] closest hcfold u hu
    have hmarked := markFold_marked s s.users [] closest hcfold u hu creg hcreg
    obtain ⟨ubs, scored, best, hbs, hsc, hbest, hbest1, hmax, hdec⟩ :=
      closestRegistryForUser_spec s u creg hcreg
    exact ⟨creg, hcreg, hmarked, ubs, scored, best, hbs, hsc, hbest, hbest1, hmax, hdec⟩
  · -- provenance of marked refs
    intro x hx
    rcases markFold_from s s.users [] closest hcfold x hx with habs | hex
    · cases habs
    · exact hex
  · -- (ii) survivors are the marked registries
    have hrefs1 : (registriesAll s1).map (fun r => r.ref) = s1.registry_instances :=
      registriesAll_refs s1 hwf1.1.2
    have hrefsS : (registriesAll s).map (fun r => r.ref) = s.registry_instances :=
      registriesAll_refs s hreg.2
    have hS' : (registriesAll s').map (fun r => r.ref)
        = (registriesAll s1).map (fun r => r.ref) := by
      rw [hs', registriesAll_congr _ (renumberRegistries s1)
        (renumberImages_registry_fields (renumberRegistries s1)).1
        (renumberImages_registry_fields (renumberRegistries s1)).2,
        registriesAll_renumberRegistries s1 hwf1.1, List.map_map]
      have hcomp : ((fun r : ContainerRegistry => r.ref) ∘
          (fun p : Nat × ContainerRegistry => { p.2 with id := p.1 + 1 }))
          = (fun r : ContainerRegistry => r.ref) ∘ Prod.snd := rfl
      rw [hcomp, ← List.map_map, List.enum_map_snd]
    have hinst1 : s1.registry_instances
        = (((registriesAll s).filter (fun r => ¬ closest.contains r.ref)).map
            (fun r => r.ref)).foldl (fun acc x => acc.erase x) s.registry_instances :=
      deprovisionFold_instances _ s s1 hfold
    have hfiltered : s1.registry_instances
        = s.registry_instances.filter (fun a =>
            ¬ (((registriesAll s).filter (fun r => ¬ closest.contains r.ref)).map
              (fun r => r.ref)).contains a) := by
      rw [hinst1, eraseFold_eq_filter _ _ hreg.1]
    rw [hS', hrefs1, hfiltered, map_ref_filter (fun a => closest.contains a), hrefsS]
    refine List.filter_congr ?_
    intro a ha
    obtain ⟨ra, hra⟩ := Option.isSome_iff_exists.mp (hreg.2 a ha)
    have hramem : ra ∈ registriesAll s := List.mem_filterMap.mpr ⟨a, ha, hra⟩
    have hraref : ra.ref = a := findRegistryRef_ref s a ra hra
    by_cases hca : closest.contains a
    · have hnotfar : (((registriesAll s).filter
          (fun r => ¬ closest.contains r.ref)).map (fun r => r.ref)).contains a = false := by
        refine Bool.eq_false_iff.mpr ?_
        intro hcon
        obtain ⟨r, hrmem, hrref⟩ := List.mem_map.mp (List.elem_iff.mp hcon)
        have := List.of_mem_filter hrmem
        simp only [decide_not, Bool.not_eq_true', decide_eq_false_iff_not] at this
        rw [hrref] at this
        exact this hca
      rw [hnotfar, hca]
      simp
    · have hcb : closest.contains a = false := Bool.eq_false_iff.mpr hca
      have hfar : (((registriesAll s).filter
          (fun r => ¬ closest.contains r.ref)).map (fun r => r.ref)).contains a = true := by
        apply List.elem_iff.mpr
        refine List.mem_map.mpr ⟨ra, ?_, hraref⟩
        refine List.mem_filter.mpr ⟨hramem, ?_⟩
        simp only [decide_not, Bool.not_eq_true', decide_eq_false_iff_not]
        rw [hraref]
        intro hcon
        exact hca hcon
      rw [hfar, hcb]
      simp
  · -- (iv) effects of a single deprovisioning
    intro st r serverId st' hserver hstep
    have hfields := deprovisionRegistry_fields st r st' hstep
    refine ⟨?_, ?_, hfields.2.1, hfields.2.2.2⟩
    · unfold deprovisionRegistry at hstep
      rw [hserver] at hstep
      simp only [Option.bind_eq_bind, Option.some_bind, Option.pure_def,
        Option.some_inj] at hstep
      rw [← hstep]
      rfl
    · intro r' hr'
      have hfind : findRegistryRef st' r.ref
          = (findRegistryRef st r.ref).map (fun c => { c with server := none }) := by
        unfold findRegistryRef
        rw [hfields.1]
        rw [@find?_map_upd ContainerRegistry (fun c => c.ref) st.registry_store r.ref r.ref
          (fun c => { c with server := none }) (fun c => rfl), if_pos rfl]
      rw [hfind] at hr'
      cases hf : findRegistryRef st r.ref with
      | none => rw [hf] at hr'; cases hr'
      | some c =>
        rw [hf] at hr'
        simp only [Option.map_some', Option.some_inj] at hr'
        rw [← hr']

/-- Witness for C6: the culling scenario, where the users mark registries
0, 1 and 3 and registries 2 and 4 are deprovisioned. -/
theorem removing_farthest_spec_witness :
    ∃ closest s', closestRegistryRefs cullState = some closest ∧
      removing_farthest_container_registries cullState = some s' ∧
      (registriesAll s').map (fun r => r.ref)
        = ((registriesAll cullState).filter (fun r => closest.contains r.ref)).map
            (fun r => r.ref) := by
  have hc : (closestRegistryRefs cullState).isSome := by
    with_unfolding_all decide
  obtain ⟨closest, hclosest⟩ := Option.isSome_iff_exists.mp hc
  have hsome : (removing_farthest_container_registries cullState).isSome := by
    with_unfolding_all decide
  obtain ⟨s', hs'⟩ := Option.isSome_iff_exists.mp hsome
  refine ⟨closest, s', hclosest, hs', ?_⟩
  exact (removing_farthest_spec cullState closest s'
    (by unfold registryStoreWF; exact ⟨by decide, by with_unfolding_all decide⟩)
    (by unfold imageStoreWF; exact ⟨by decide, by with_unfolding_all decide⟩)
    hclosest hs').2.2.1

/-- Witness for C10: on the S4 scenario, migrating service 1 to server 2 with
the junk path `[9]` coincides with the no-path call. -/
theorem migrate_ignores_path_witness :
    migrate s4State 1 2 [9] = migrate s4State 1 2 [] := by
  refine migrate_ignores_path s4State 1 2 [9] [] s4Service s4Target (by with_unfolding_all decide)
    (by with_unfolding_all decide) ?_
  intro originId h
  refine ⟨{
    id := 1, capacity := 100, demand := 23, base_station := 1, services := [1],
    container_registries := [0] }, ?_, ?_⟩
  · cases h; with_unfolding_all decide
  · cases h; with_unfolding_all decide

/-- Claim C7: in Phase C of proposed_heuristic, the candidate set is exactly
the edge servers whose free capacity covers the representative-image
footprint and which host no registry; on each loop iteration with both the
slow-user list and the candidate list non-empty, the candidate with the most
supported slow users is selected, ties going to the first candidate in
iteration order; a zero-supported winner stops the loop, and otherwise a
registry holding one copy of every loop image is provisioned on the winner
(its demand added to the server's demand), the supported users leave the
slow list and the winner leaves the candidate list. -/
theorem phaseC_greedy_expansion (s : State) (uslow cands : List Nat)
    (images : List ContainerImage) (provT : Rat) (fuel : Nat)
    (scored : List (Nat × List Nat)) (best : Nat × List Nat)
    (hns : uslow ≠ []) (hnc : cands ≠ [])
    (hscored : cands.mapM (supportedOf s uslow provT) = some scored)
    (hbest : firstMaxBy (fun cs => cs.2.length) scored = some best) :
    (∀ cid, cid ∈ phaseCCandidates s ↔ ∃ es, es ∈ s.edge_servers ∧ es.id = cid ∧
        registryFootprint s ≤ es.capacity - es.demand ∧ es.container_registries = []) ∧
    best ∈ scored ∧
    (∀ p ∈ scored, p.2.length ≤ best.2.length) ∧
    (∃ l₁ l₂, scored = l₁ ++ best :: l₂ ∧ ∀ p ∈ l₁, p.2.length < best.2.length) ∧
    (best.2.length = 0 →
      phaseCLoop (fuel + 1) s uslow cands images provT = some s) ∧
    (0 < best.2.length →
      phaseCLoop (fuel + 1) s uslow cands images provT
        = phaseCLoop fuel (provision_registry s images best.1)
            (removeSupported uslow best.2) (cands.erase best.1) images provT) ∧
    ((∀ c ∈ s.registry_store, c.ref < s.registry_store.length) →
      (∀ c ∈ s.image_store, c.ref < s.image_store.length) →
      0 < best.2.length →
      ∃ (reg' : ContainerRegistry) (newRefs : List Nat),
        reg'.server = some best.1 ∧
        reg'.images = newRefs ∧
        findRegistryRef (provision_registry s images best.1) reg'.ref = some reg' ∧
        ((newRefs.filterMap (findImageRef (provision_registry s images best.1))).map
            (fun i => (i.size, i.name, i.layer))
          = images.map (fun i => (i.size, i.name, i.layer))) ∧
        (provision_registry s images best.1).edge_servers
          = s.edge_servers.map (fun e => if e.id = best.1 then
              { e with
                demand := e.demand
                  + registryDemand (provision_registry s images best.1) reg',
                container_registries := e.container_registries ++ [reg'.ref] } else e)) ∧
    phaseC s uslow provT
      = phaseCLoop (phaseCCandidates s).length s uslow (phaseCCandidates s)
          (representativeImages s) provT := by
  obtain ⟨hmax, l₁, l₂, hsplit, hfirst⟩ :=
    firstMaxBy_spec (fun cs => cs.2.length) scored best hbest
  have hstep : phaseCLoop (fuel + 1) s uslow cands images provT
      = if 0 < best.2.length then
          phaseCLoop fuel (provision_registry s images best.1)
            (removeSupported uslow best.2) (cands.erase best.1) images provT
        else some s := by
    rw [phaseCLoop_succ fuel s uslow cands images provT hns hnc, hscored]
    simp only [Option.some_bind]
    rw [sortByKeyDesc_head?_eq_firstMaxBy, hbest]
    simp only [Option.some_bind]
  refine ⟨?_, ?_, hmax, ⟨l₁, l₂, hsplit, hfirst⟩, ?_, ?_, ?_, rfl⟩
  · intro cid
    simp only [phaseCCandidates, List.mem_map, List.mem_filter, Bool.and_eq_true,
      decide_eq_true_eq, List.isEmpty_iff]
    constructor
    · rintro ⟨es, ⟨hmem, hcap, hreg⟩, hid⟩
      exact ⟨es, hmem, hid, hcap, hreg⟩
    · rintro ⟨es, hmem, hid, hcap, hreg⟩
      exact ⟨es, ⟨hmem, hcap, hreg⟩, hid⟩
  · rw [hsplit]
    exact List.mem_append.mpr (Or.inr (List.mem_cons_self best l₂))
  · intro h0
    rw [hstep, if_neg]
    rw [h0]
    exact lt_irrefl 0
  · intro hpos
    rw [hstep, if_pos hpos]
  · intro hregfresh himgfresh _
    obtain ⟨reg', newRefs, _, hsrv, _, himgs, hfind, htriples, _, _, _, _, hes, _, _, _⟩ :=
      provision_registry_spec s images best.1 hregfresh himgfresh
    exact ⟨reg', newRefs, hsrv, himgs, hfind, htriples, hes⟩

/-- Witness for C7: on the expansion scenario with slow user 1 and candidate
server 2, the scored list is `[(2, [1])]`, the winner supports one user, and
the loop provisions a registry on server 2 and recurses on the emptied
lists. -/
theorem phaseC_greedy_expansion_witness :
    ([2] : List Nat).mapM (supportedOf expandState [1] 1) = some [(2, [1])] ∧
    firstMaxBy (fun cs : Nat × List Nat => cs.2.length) [(2, [1])] = some (2, [1]) ∧
    phaseCLoop 1 expandState [1] [2] (representativeImages expandState) 1
      = phaseCLoop 0 (provision_registry expandState (representativeImages expandState) 2)
          (removeSupported [1] [1]) (([2] : List Nat).erase 2)
          (representativeImages expandState) 1 :=
  ⟨by with_unfolding_all decide, by with_unfolding_all decide,
    (phaseC_greedy_expansion expandState [1] [2] (representativeImages expandState) 1 0
      [(2, [1])] (2, [1]) (by decide) (by decide) (by with_unfolding_all decide)
      (by with_unfolding_all decide)).2.2.2.2.2.1 (by decide)⟩

/-- Claim C8: the server-demand bookkeeping invariant — every edge server's
demand equals the demand of its hosted services plus the demand of its hosted
registries — is preserved by every service migration, by registry
provisioning and by registry deprovisioning, under the well-formedness side
conditions that hold along runs (the migrated service is listed by every
server carrying its origin id, the origin differs from the target, stored
refs are fresh list positions, and the deprovisioned registry is listed by
its recorded server). -/
theorem demand_invariant_after_ops :
    (∀ s svcId targetId path (svc : Service) t s',
      findService s svcId = some svc →
      (∀ originId, svc.server = some originId → originId ≠ targetId) →
      (∀ originId, svc.server = some originId →
        ∀ es ∈ s.edge_servers, es.id = originId → svcId ∈ es.services) →
      serverDemandInvariant s →
      migrate s svcId targetId path = some (t, s') →
      serverDemandInvariant s') ∧
    (∀ s imgs sid,
      (∀ c ∈ s.registry_store, c.ref < s.registry_store.length) →
      (∀ c ∈ s.image_store, c.ref < s.image_store.length) →
      (∀ es ∈ s.edge_servers, s.registry_store.length ∉ es.container_registries) →
      (∀ c ∈ s.registry_store, ∀ i ∈ c.images, i < s.image_store.length) →
      serverDemandInvariant s →
      serverDemandInvariant (provision_registry s imgs sid)) ∧
    (∀ s (r : ContainerRegistry) sid s',
      r.server = some sid →
      findRegistryRef s r.ref = some r →
      (∀ es ∈ s.edge_servers, es.id = sid → r.ref ∈ es.container_registries) →
      serverDemandInvariant s →
      deprovisionRegistry s r = some s' →
      serverDemandInvariant s') :=
  ⟨fun s svcId targetId path svc t s' h1 h2 h3 h4 h5 =>
      migrate_preserves_demand s svcId targetId path svc t s' h1 h2 h3 h4 h5,
    fun s imgs sid h1 h2 h3 h4 h5 =>
      provision_preserves_demand s imgs sid h1 h2 h3 h4 h5,
    fun s r sid s' h1 h2 h3 h4 h5 =>
      deprovision_preserves_demand s r sid s' h1 h2 h3 h4 h5⟩

/-- Witness for C8: the invariant holds on the provisioning scenario and is
kept by provisioning a registry with the representative images on server 1. -/
theorem demand_invariant_after_ops_witness :
    serverDemandInvariant provState ∧
    serverDemandInvariant
      (provision_registry provState (representativeImages provState) 1) := by
  have hinv : serverDemandInvariant provState := by
    unfold serverDemandInvariant
    with_unfolding_all decide
  exact ⟨hinv, demand_invariant_after_ops.2.1 provState (representativeImages provState) 1
    (by decide) (by with_unfolding_all decide) (by decide) (by decide) hinv⟩

/-- Counterexample for C4: on the `hopNet` topology the code's candidate
list (hop-count shortest paths, because `nx.shortest_path` is called with no
`weight` argument) is `[2, 1]`, while the delay-weighted candidate list the
claim describes is `[1, 2]`. -/
theorem follow_user_candidates_counterexample :
    get_candidate_hosts hopState 1 = some [2, 1] ∧
    candidate_hosts_spec hopState 1 = some [1, 2] ∧
    get_candidate_hosts hopState 1 ≠ candidate_hosts_spec hopState 1 := by
  refine ⟨?_, ?_, ?_⟩
  · with_unfolding_all decide
  · with_unfolding_all decide
  · with_unfolding_all decide

/-- Claim C4 (amended): follow_user's candidate list holds all edge servers
sorted in ascending order of the delay of the minimum-HOP-COUNT shortest path
from the user's base station to each server's base station (the
`nx.shortest_path` call passes no weight argument, so the delay only scores
the unweighted path); each service's walk stops at its current server or
migrates to the first candidate with room; each application then refreshes
the user's communication path. -/
theorem follow_user_walks_hopcount_candidates (s : State) (ubs : Nat)
    (scored : List (Nat × Rat))
    (hscored : s.edge_servers.mapM (fun es => do
        let p ← shortest_path (fun _ => 1) s.topology ubs es.base_station
        let d ← calculate_path_delay s.topology p
        pure (es.id, d)) = some scored) :
    get_candidate_hosts s ubs
      = some ((sortByKey (fun sd => sd.2) scored).map (fun sd => sd.1)) ∧
    ((sortByKey (fun sd => sd.2) scored).map (fun sd => sd.1)).Perm
      (s.edge_servers.map (fun es => es.id)) ∧
    (sortByKey (fun sd => sd.2) scored).Pairwise (fun a b => a.2 ≤ b.2) ∧
    (∀ p ∈ scored, ∃ es ∈ s.edge_servers, ∃ pth,
      p.1 = es.id ∧
      shortest_path (fun _ => 1) s.topology ubs es.base_station = some pth ∧
      calculate_path_delay s.topology pth = some p.2) ∧
    (∀ st esId rest svcId (svc : Service) (es : EdgeServer),
      findService st svcId = some svc →
      findServer st esId = some es →
      ((svc.server = some esId → placeService st (esId :: rest) svcId = some st) ∧
       (¬(svc.server = some esId) → es.demand + svc.demand ≤ es.capacity →
         placeService st (esId :: rest) svcId
           = (migrate st svcId esId []).map (fun r => r.2)) ∧
       (¬(svc.server = some esId) → ¬(es.demand + svc.demand ≤ es.capacity) →
         placeService st (esId :: rest) svcId = placeService st rest svcId))) ∧
    (∀ st cand uid appId (app : Application), findApp st appId = some app →
      followUserApp st cand uid appId
        = (app.services.foldlM (fun st2 sid => placeService st2 cand sid) st).bind
            (fun s1 => set_communication_path s1 uid appId [])) := by
  refine ⟨?_, ?_, sortByKey_sorted (fun sd => sd.2) scored, ?_, ?_, ?_⟩
  · unfold get_candidate_hosts
    rw [hscored]
    rfl
  · have hmapfst : scored.map (fun sd => sd.1) = s.edge_servers.map (fun es => es.id) := by
      refine mapM_map_eq _ (fun sd => sd.1) (fun es => es.id) s.edge_servers scored hscored ?_
      intro es hes y hy
      obtain ⟨pth, hp, hy⟩ := Option.bind_eq_some.mp hy
      obtain ⟨d, hd, hy⟩ := Option.bind_eq_some.mp hy
      obtain rfl : (es.id, d) = y := Option.some_inj.mp hy
      rfl
    refine (List.Perm.map _ (sortByKey_perm (fun sd => sd.2) scored)).trans ?_
    rw [hmapfst]
  · intro p hp
    obtain ⟨es, hes, hfes⟩ := mapM_mem _ s.edge_servers scored hscored p hp
    obtain ⟨pth, hpth, hfes⟩ := Option.bind_eq_some.mp hfes
    obtain ⟨d, hd, hfes⟩ := Option.bind_eq_some.mp hfes
    obtain rfl : (es.id, d) = p := Option.some_inj.mp hfes
    exact ⟨es, hes, pth, rfl, hpth, hd⟩
  · intro st esId rest svcId svc es hsvc' hes'
    refine ⟨?_, ?_, ?_⟩
    · intro hstop
      simp only [placeService, hsvc', hes', Option.bind_eq_bind, Option.some_bind]
      rw [if_pos hstop]
      rfl
    · intro hstop hfit
      simp only [placeService, hsvc', hes', Option.bind_eq_bind, Option.some_bind]
      rw [if_neg hstop, if_pos hfit]
    · intro hstop hfit
      simp only [placeService, hsvc', hes', Option.bind_eq_bind, Option.some_bind]
      rw [if_neg hstop, if_neg hfit]
  · intro st cand uid appId app happ
    unfold followUserApp
    rw [happ]
    rfl

/-- Witness for C4 (amended): on `hopState`, the scored list is
`[(1, 10), (2, 5)]` and the candidate list comes out `[2, 1]` — server 2
first, because the unweighted path to it has the smaller delay. -/
theorem follow_user_walks_hopcount_candidates_witness :
    hopState.edge_servers.mapM (fun es => do
        let p ← shortest_path (fun _ => 1) hopState.topology 1 es.base_station
        let d ← calculate_path_delay hopState.topology p
        pure (es.id, d)) = some [(1, 10), (2, 5)] ∧
    get_candidate_hosts hopState 1 = some [2, 1] := by
  refine ⟨by with_unfolding_all decide, ?_⟩
  have h := (follow_user_walks_hopcount_candidates hopState 1 [(1, 10), (2, 5)]
    (by with_unfolding_all decide)).1
  rw [h]
  with_unfolding_all decide

/-- Counterexample for C2: provisioning a registry between snapshot and
restore is invisible to the snapshot — after store, provision on server 1 and
restore, the server's demand is 5 while the snapshotted pre-run demand was
0. -/
theorem restore_counterexample :
    (restore_original_state (store_original_state provState)
        (provision_registry provState (representativeImages provState) 1)).map
      (fun st => st.edge_servers.map (fun e => e.demand)) = some [5] ∧
    provState.edge_servers.map (fun e => e.demand) = [0] ∧
    ¬(([5] : List Rat) = [0]) := by
  refine ⟨?_, ?_, ?_⟩
  · with_unfolding_all decide
  · with_unfolding_all decide
  · decide

/-- Claim C2 (amended): a successful `restore_original_state` puts every
service back on its snapshotted server (when one was recorded; services with
a null snapshot keep their run-final server) with its migration history
cleared, re-attaches every user to its snapshotted base station, replays for
every application of every user the snapshotted communication path — whenever
that path is non-empty, the user's stored path afterwards is the snapshotted
path with consecutive duplicates removed, `set_communication_path` being
replayed on it — and resets every link's bandwidth demand to its snapshot
value (the run never writes `bandwidth_demand`: releases and allocations only
touch the `applications` ledger, so this holds unconditionally given that the
run preserves the link set and snapshot keys are distinct); the snapshot
entries are exactly the pre-run placements and paths.  Mutations the snapshot
does not record (registry provisioning and deprovisioning, and their
server-demand effects) are NOT undone. -/
theorem restore_partial (s0 s s' : State)
    (hres : restore_original_state (store_original_state s0) s = some s') :
    ((s.services.map (fun v => v.id)).Nodup →
      ∀ v ∈ s.services,
        ∃ sv, alistGet (store_original_state s0).service_server v.id = some sv ∧
          (findService s' v.id).map (fun x => (x.server, x.migrations))
            = some ((match sv with | some σ => some σ | none => v.server),
                ([] : List MigrationRecord))) ∧
    (∀ vid, alistGet (store_original_state s0).service_server vid
      = (findService s0 vid).map (fun v => v.server)) ∧
    ((s.users.map (fun u => u.id)).Nodup →
      ∀ u ∈ s.users, ∃ bsId,
        alistGet (store_original_state s0).user_base_station u.id = some (some bsId) ∧
        (findUser s' u.id).map (fun x => x.base_station) = some (some bsId)) ∧
    (∀ uid, alistGet (store_original_state s0).user_base_station uid
      = (findUser s0 uid).map (fun u => u.base_station)) ∧
    ((s.users.map (fun u => u.id)).Nodup →
      ∀ u ∈ s.users, ∃ pl,
        alistGet (store_original_state s0).user_communication_paths u.id = some pl ∧
        ∀ aid p, aid ∈ u.applications → alistGet pl aid = some p → 0 < p.length →
          (findUser s' u.id).map (fun x => alistGet x.communication_paths aid)
            = some (some (remove_path_duplicates p))) ∧
    (∀ uid, alistGet (store_original_state s0).user_communication_paths uid
      = (findUser s0 uid).map (fun u => u.communication_paths)) ∧
    (s.topology.map (fun l => (l.node1, l.node2))
        = s0.topology.map (fun l => (l.node1, l.node2)) →
      (s0.topology.map (fun l => (l.node1, l.node2))).Nodup →
      s'.topology.map (fun l => ((l.node1, l.node2), some l.bandwidth_demand))
        = s0.topology.map (fun l => ((l.node1, l.node2), some l.bandwidth_demand))) := by
  unfold restore_original_state at hres
  simp only [Option.bind_eq_bind] at hres
  obtain ⟨s1, hfold1, hres⟩ := Option.bind_eq_some.mp hres
  obtain ⟨newLinks, hlinks, hres⟩ := Option.bind_eq_some.mp hres
  have hpres1 : s1.topology = s.topology ∧ s1.users = s.users :=
    foldlM_preserves (fun st' => st'.topology = s.topology ∧ st'.users = s.users)
      (restoreServiceStep (store_original_state s0))
      (fun st a st' hstep hP =>
        ⟨((restoreServiceStep_spec (store_original_state s0) st st' a hstep).1).trans hP.1,
         ((restoreServiceStep_spec (store_original_state s0) st st' a hstep).2.1).trans
           hP.2⟩)
      s.services s s1 hfold1 ⟨rfl, rfl⟩
  have hsvcPres : s'.services = s1.services :=
    foldlM_preserves (fun st' => st'.services = s1.services)
      (restoreUserStep (store_original_state s0))
      (fun st a st' hstep hP =>
        ((restoreUserStep_spec (store_original_state s0) st st' a hstep).1).trans hP)
      ({ s1 with topology := newLinks } : State).users
      { s1 with topology := newLinks } s' hres rfl
  refine ⟨?_, ?_, ?_, ?_, ?_, ?_, ?_⟩
  · intro hnd v hv
    have hfind : findService s v.id = some v :=
      @find?_key_of_nodup Service Nat _ _ (fun x => x.id) s.services v hnd hv
    obtain ⟨htop1, husers1, hbs1, hother1, hmain1⟩ :=
      restoreServiceFold (store_original_state s0) s.services s s1 hfold1 hnd
    obtain ⟨sv, hsv, hval⟩ := hmain1 v hv v hfind
    refine ⟨sv, hsv, ?_⟩
    have hfs : findService s' v.id = findService s1 v.id := by
      unfold findService
      rw [hsvcPres]
    rw [hfs]
    exact hval
  · intro vid
    exact alistGet_map (fun v => v.id) (fun v => v.server) s0.services vid
  · intro hnd u hu
    have hndS2 : (({ s1 with topology := newLinks } : State).users.map
        (fun u => u.id)).Nodup := by
      show (s1.users.map (fun u => u.id)).Nodup
      rw [hpres1.2]
      exact hnd
    obtain ⟨hsvcU, hotherU, hmainU, hpathsU⟩ :=
      restoreUserFold (store_original_state s0)
        ({ s1 with topology := newLinks } : State).users
        { s1 with topology := newLinks } s' hres hndS2
    have huS2 : u ∈ ({ s1 with topology := newLinks } : State).users := by
      show u ∈ s1.users
      rw [hpres1.2]
      exact hu
    have hfindu : findUser { s1 with topology := newLinks } u.id = some u := by
      show findUser s1 u.id = some u
      unfold findUser
      rw [hpres1.2]
      exact @find?_key_of_nodup User Nat _ _ (fun x => x.id) s.users u hnd hu
    obtain ⟨bsId, hbs, hproj⟩ := hmainU u huS2 u hfindu
    exact ⟨bsId, hbs, hproj⟩
  · intro uid
    exact alistGet_map (fun u => u.id) (fun u => u.base_station) s0.users uid
  · intro hnd u hu
    have hndS2 : (({ s1 with topology := newLinks } : State).users.map
        (fun u => u.id)).Nodup := by
      show (s1.users.map (fun u => u.id)).Nodup
      rw [hpres1.2]
      exact hnd
    obtain ⟨hsvcU, hotherU, hmainU, hpathsU⟩ :=
      restoreUserFold (store_original_state s0)
        ({ s1 with topology := newLinks } : State).users
        { s1 with topology := newLinks } s' hres hndS2
    have huS2 : u ∈ ({ s1 with topology := newLinks } : State).users := by
      show u ∈ s1.users
      rw [hpres1.2]
      exact hu
    exact hpathsU u huS2
  · intro uid
    exact alistGet_map (fun u => u.id) (fun u => u.communication_paths) s0.users uid
  · intro hpairs hnd
    have huserbd : s'.topology.map (fun l => ((l.node1, l.node2), l.bandwidth_demand))
        = ({ s1 with topology := newLinks } : State).topology.map
            (fun l => ((l.node1, l.node2), l.bandwidth_demand)) :=
      foldlM_preserves (fun st' =>
          st'.topology.map (fun l => ((l.node1, l.node2), l.bandwidth_demand))
            = ({ s1 with topology := newLinks } : State).topology.map
                (fun l => ((l.node1, l.node2), l.bandwidth_demand)))
        (restoreUserStep (store_original_state s0))
        (fun st a st' hstep hP =>
          ((restoreUserStep_spec (store_original_state s0) st st' a hstep).2.2.2.1).trans hP)
        ({ s1 with topology := newLinks } : State).users
        { s1 with topology := newLinks } s' hres rfl
    have hlift : ∀ (g : Net),
        g.map (fun l => ((l.node1, l.node2), some l.bandwidth_demand))
          = (g.map (fun l => ((l.node1, l.node2), l.bandwidth_demand))).map
              (fun kb => (kb.1, some kb.2)) := by
      intro g
      induction g with
      | nil => rfl
      | cons a as ihg =>
        rw [List.map_cons, List.map_cons, List.map_cons, ihg]
    rw [hlift s'.topology, huserbd]
    show (newLinks.map (fun l => ((l.node1, l.node2), l.bandwidth_demand))).map
        (fun kb => (kb.1, some kb.2))
      = s0.topology.map (fun l => ((l.node1, l.node2), some l.bandwidth_demand))
    rw [← hlift newLinks]
    rw [restoreLink_mapM (store_original_state s0) s1.topology newLinks hlinks]
    exact linkSnapshotLookup s0.topology s1.topology
      (by rw [hpres1.1]; exact hpairs) hnd

/-- Witness for C2 (amended): on the S4 scenario (no users), restore after a
mutation-free run succeeds and puts service 1 back on its snapshotted
server 1 with an empty migration history. -/
theorem restore_partial_witness :
    ∃ s', restore_original_state (store_original_state s4State) s4State = some s' ∧
      (findService s' 1).map (fun x => (x.server, x.migrations))
        = some (some 1, ([] : List MigrationRecord)) := by
  have hsome : (restore_original_state (store_original_state s4State) s4State).isSome := by
    with_unfolding_all decide
  obtain ⟨s', hs'⟩ := Option.isSome_iff_exists.mp hsome
  have hthm := restore_partial s4State s4State s' hs'
  obtain ⟨sv, hsv, hval⟩ := hthm.1 (by decide) s4Service (by with_unfolding_all decide)
  have hsv1 : sv = some 1 := by
    rw [hthm.2.1 s4Service.id] at hsv
    have hserver : (findService s4State s4Service.id).map (fun v => v.server)
        = some (some 1) := by
      with_unfolding_all decide
    rw [hserver] at hsv
    exact (Option.some_inj.mp hsv).symm
  subst hsv1
  refine ⟨s', hs', ?_⟩
  have hids : s4Service.id = 1 := rfl
  rw [← hids]
  have hsrv : s4Service.server = some 1 := rfl
  exact hval

end RegMig
